import Mathlib

/-!
Shallow embedding of `src/net_sdl.c` (TCP build, `IS_TCP` defined).

The C module keeps its state in file-scope variables and talks to SDL_net.
Here the file-scope variables become the records `Globals` and `Registry`,
everything SDL_net owns becomes the record `Net`, and every C function becomes
a Lean function that takes the state it reads and returns the state it leaves.

* machine integers are `Nat`/`Int`; conversions between `int`, `uint32_t` and
  `size_t` are written out (`to_uint32`, `to_size_t`);
* `I_Error` and a failed `assert` do not return in C: the functions below stop
  there and report it in their result;
* what C leaves unspecified (the width of `size_t`, the byte order of a
  `uint32_t` in memory, the two `#define` switches of the proxy code, the
  content of uninitialised locals) is a parameter.
-/

set_option autoImplicit false

namespace NetSdl

/-! ## Constants and build parameters -/

def DEFAULT_PORT : Nat := 2342

def MAX_SOCKETS : Nat := 32

def MAX_PACKET_SIZE : Nat := 1500

def HAPROXY_MAX_BUF : Nat := 108

/-- What the C text leaves to the compiler and to the `#define` lines at the top
of the file.  `net_sdl.c` itself has `ENFORCE_PROXY 0` and `ALLOW_REENTRY 0`. -/
structure Build where
  size_t_bits : Nat
  big_endian : Bool
  ENFORCE_PROXY : Bool
  ALLOW_REENTRY : Bool
deriving DecidableEq, Repr

/-- Conversion of an `int` to `size_t` (the usual arithmetic conversion applied
when an `int` is compared with `sizeof(...)` or with `packet->len`). -/
def to_size_t (b : Build) (v : Int) : Nat :=
  (v % (2 : Int) ^ b.size_t_bits).toNat

/-- Conversion of an `int` to `uint32_t` (applied when `length_recv` is compared
with `length_expected`). -/
def to_uint32 (v : Int) : Nat :=
  (v % 4294967296).toNat

/-- The four bytes of a `uint32_t` as they lie in memory. -/
def store32 (big_endian : Bool) (v : Nat) : List Nat :=
  if big_endian then
    [v / 16777216 % 256, v / 65536 % 256, v / 256 % 256, v % 256]
  else
    [v % 256, v / 256 % 256, v / 65536 % 256, v / 16777216 % 256]

/-- The `uint32_t` that four bytes of memory hold. -/
def load32 (big_endian : Bool) (bs : List Nat) : Nat :=
  let b0 := bs.getD 0 0 % 256
  let b1 := bs.getD 1 0 % 256
  let b2 := bs.getD 2 0 % 256
  let b3 := bs.getD 3 0 % 256
  if big_endian then
    b0 * 16777216 + b1 * 65536 + b2 * 256 + b3
  else
    b0 + b1 * 256 + b2 * 65536 + b3 * 16777216

/-- Memory after a read primitive stored `got` at the start of a buffer that
held `old`: the bytes past `got.length` keep their value. -/
def overlay (old got : List Nat) : List Nat :=
  got.take old.length ++ old.drop got.length

/-! ## The SDL_net side -/

abbrev TCPsocket := Nat

structure IPaddress where
  host : Nat
  port : Nat
deriving DecidableEq, Repr

/-- One thing a connection has in store for the next `SDLNet_TCP_Recv`: a run of
bytes that has arrived (an empty run is the orderly end of the stream), or a
socket error. -/
inductive RecvEvent where
  | bytes (bs : List Nat)
  | error
deriving DecidableEq, Repr

/-- Everything SDL_net owns.  `backlog` are the connections `SDLNet_TCP_Accept`
will hand out, `inbound` what each socket will deliver, `ready` the readiness
flag `SDLNet_CheckSockets` computes, `peer` the remote endpoint, `room` how many
bytes a socket still takes before sends fall short (`none`: no limit), `sent`
the bytes put on the wire, `closed` the sockets given to `SDLNet_TCP_Close`, and
`allocs` the sizes requested from `malloc` and `NET_NewPacket`. -/
structure Net where
  backlog : List TCPsocket
  inbound : TCPsocket → List RecvEvent
  ready : TCPsocket → Bool
  peer : TCPsocket → IPaddress
  room : TCPsocket → Option Nat
  sent : TCPsocket → List Nat
  closed : List TCPsocket
  allocs : List Nat

/-- Pointwise replacement in a table indexed by socket. -/
def setAt {α : Type} (f : TCPsocket → α) (sock : TCPsocket) (v : α) : TCPsocket → α :=
  fun s => if s = sock then v else f s

/-- `SDLNet_TCP_Recv(sock, buf, maxlen)`: the return value, the bytes stored at
the start of `buf`, and the network afterwards.  It returns what has arrived, at
most `maxlen` bytes; `0` when the peer has closed; `-1` on a socket error. -/
def SDLNet_TCP_Recv (n : Net) (sock : TCPsocket) (maxlen : Nat) : Int × List Nat × Net :=
  match n.inbound sock with
  | [] => (0, [], n)
  | RecvEvent.error :: rest => (-1, [], { n with inbound := setAt n.inbound sock rest })
  | RecvEvent.bytes bs :: rest =>
    if bs.length ≤ maxlen then
      ((bs.length : Int), bs, { n with inbound := setAt n.inbound sock rest })
    else
      ((maxlen : Int), bs.take maxlen,
        { n with inbound := setAt n.inbound sock (RecvEvent.bytes (bs.drop maxlen) :: rest) })

/-- `SDLNet_TCP_Send(sock, data, len)`: the number of bytes sent and the network
afterwards. -/
def SDLNet_TCP_Send (n : Net) (sock : TCPsocket) (data : List Nat) : Int × Net :=
  match n.room sock with
  | none => ((data.length : Int), { n with sent := setAt n.sent sock (n.sent sock ++ data) })
  | some r =>
    ((min r data.length : Nat),
      { n with sent := setAt n.sent sock (n.sent sock ++ data.take r),
               room := setAt n.room sock (some (r - min r data.length)) })

def SDLNet_TCP_Close (n : Net) (sock : TCPsocket) : Net :=
  { n with closed := n.closed ++ [sock] }

/-- `SDLNet_TCP_Accept(tcpsocket)`: the next pending connection, or `none` for
the C `NULL`. -/
def SDLNet_TCP_Accept (n : Net) : Option TCPsocket × Net :=
  match n.backlog with
  | [] => (none, n)
  | c :: rest => (some c, { n with backlog := rest })

/-- `SDLNet_CheckSockets(set, 0)`: how many sockets of the set have data. -/
def SDLNet_CheckSockets (n : Net) (set : List TCPsocket) : Int :=
  ((set.filter n.ready).length : Int)

def SDLNet_SocketReady (n : Net) (sock : TCPsocket) : Bool :=
  n.ready sock

def SDLNet_TCP_GetPeerAddress (n : Net) (sock : TCPsocket) : IPaddress :=
  n.peer sock

/-- Record a request to `malloc` or `NET_NewPacket`. -/
def Net.alloc (n : Net) (size : Nat) : Net :=
  { n with allocs := n.allocs ++ [size] }

/-! ## The address table -/

/-- An `addrpair_t`.  `net_addr` stands for the address of the embedded
`net_addr_t`, which is the handle callers hold; it is the address of the block
`Z_Malloc` returned, never the null pointer. -/
structure addrpair_t where
  net_addr : Nat
  sdl_addr : IPaddress
deriving DecidableEq, Repr

/-- The file-scope `addr_table` and `addr_table_size`: `none` is the state
before `NET_SDL_InitAddrTable` (`addr_table_size = -1`); otherwise the list is
the array and its length is `addr_table_size`; a `none` slot is a `NULL` entry.
`zone` is the next block `Z_Malloc` hands out. -/
structure Registry where
  addr_table : Option (List (Option addrpair_t))
  zone : Nat
deriving DecidableEq, Repr

def addr_table_size (r : Registry) : Int :=
  match r.addr_table with
  | none => -1
  | some t => (t.length : Int)

/-- `Z_Malloc`: a block distinct from every block handed out before. -/
def Z_Malloc (r : Registry) : Nat × Registry :=
  (r.zone, { r with zone := r.zone + 1 })

def NET_SDL_InitAddrTable (r : Registry) : Registry :=
  let (_, r) := Z_Malloc r
  { r with addr_table := some (List.replicate 16 none) }

def AddressesEqual (a b : IPaddress) : Bool :=
  a.host == b.host && a.port == b.port

/-- The scanning loop of `NET_SDL_FindAddress` from index `i` on, over the
slots not yet visited: `Sum.inl h` when it returns the handle `h` from inside
the loop, `Sum.inr empty_entry` when it runs to the end. -/
def findLoop (addr : IPaddress) : List (Option addrpair_t) → Nat → Int → Sum Nat Int
  | [], _, empty_entry => Sum.inr empty_entry
  | some p :: rest, i, empty_entry =>
    if AddressesEqual addr p.sdl_addr then Sum.inl p.net_addr
    else findLoop addr rest (i + 1) empty_entry
  | none :: rest, i, empty_entry =>
    findLoop addr rest (i + 1) (if empty_entry < 0 then (i : Int) else empty_entry)

/-- The tail of `NET_SDL_FindAddress` ("Add a new entry"): a fresh `addrpair_t`
for `addr` is stored in slot `empty_entry` of the table `t`. -/
def addEntry (r : Registry) (t : List (Option addrpair_t)) (empty_entry : Nat)
    (addr : IPaddress) : Nat × Registry :=
  let (new_entry, r) := Z_Malloc r
  (new_entry, { r with addr_table := some (t.set empty_entry (some ⟨new_entry, addr⟩)) })

/-- `NET_SDL_FindAddress`: the handle returned and the table afterwards.  When
no slot is empty the table is replaced by one of twice the size, zeroed and
with the old table copied to its start, and the new entry goes to the first
slot of the new half. -/
def NET_SDL_FindAddress (r : Registry) (addr : IPaddress) : Nat × Registry :=
  let r := if addr_table_size r < 0 then NET_SDL_InitAddrTable r else r
  let t := r.addr_table.getD []
  match findLoop addr t 0 (-1) with
  | Sum.inl h => (h, r)
  | Sum.inr empty_entry =>
    if empty_entry < 0 then
      let (_, r) := Z_Malloc r
      addEntry r (t ++ List.replicate (t.length * 2 - t.length) none) t.length addr
    else
      addEntry r t empty_entry.toNat addr

/-- The loop of `NET_SDL_FreeAddress`: `none` when no slot holds `addr` (the
function then reaches `I_Error`), otherwise the table with that slot cleared.
For a `NULL` slot the C expression `&addr_table[i]->net_addr` is the null
pointer, which no handle equals. -/
def freeLoop (addr : Nat) : List (Option addrpair_t) → Option (List (Option addrpair_t))
  | [] => none
  | some p :: rest =>
    if addr = p.net_addr then some (none :: rest)
    else (freeLoop addr rest).map (fun t => some p :: t)
  | none :: rest => (freeLoop addr rest).map (fun t => none :: t)

/-- `NET_SDL_FreeAddress`: `none` is the fatal
`I_Error("NET_SDL_FreeAddress: Attempted to remove an unused address!")`. -/
def NET_SDL_FreeAddress (r : Registry) (addr : Nat) : Option Registry :=
  match r.addr_table with
  | none => none
  | some t => (freeLoop addr t).map (fun t1 => { r with addr_table := some t1 })

/-! ## Module state, packets and results -/

/-- The file-scope variables of the TCP build.  `tcpsocket` is the client's
connection or the server's listening socket (both initialisers stop with
`I_Error` when it would be `NULL`); a socket set that is `none` is `NULL`. -/
structure Globals where
  tcpsocket : TCPsocket
  serverconnections : List (Option TCPsocket)
  actual_ip_list : List Nat
  clientsocketSet : Option (List TCPsocket)
  serversocketSet : Option (List TCPsocket)
deriving DecidableEq, Repr

/-- A `net_packet_t` as this module uses it: the bytes of `data` and the field
`len`, an unsigned field as wide as `size_t`. -/
structure net_packet_t where
  data : List Nat
  len : Nat
deriving DecidableEq, Repr

/-- The calls of `I_Error` in the send and receive paths. -/
inductive Fatal where
  | transmit
  | receiving_1
  | receiving_2
  | receiving_3
deriving DecidableEq, Repr

/-- How `NET_SDL_RecvPacket` ends: in `I_Error`, in a failed `assert`, with
`return false`, or with `return true` and `*addr`, `*packet` set.  `unfinished`
is a loop of the model that ran out of its iteration budget.  `out_of_bounds`
is a store past the end of `ip_string` in `getIPfromProxyPacket`: from there on
the C program has no defined behaviour, and the model stops. -/
inductive Outcome where
  | fatal (e : Fatal)
  | assert_failed
  | no_packet
  | received (addr : Nat) (packet : net_packet_t)
  | unfinished
  | out_of_bounds
deriving DecidableEq, Repr

/-- Uninitialised memory a call of `NET_SDL_RecvPacket` may read: the locals
`actual_ip` and `length_expected`, `iparray[2]` of `ipStringToID`, and the bytes
that lie behind the unterminated copy `ipStringToID` hands to `sscanf`. -/
structure Stack where
  actual_ip : Nat
  length_expected : Nat
  iparray2 : Nat
  past : List Nat
deriving DecidableEq, Repr

/-- The state `NET_SDL_InitServer` leaves behind on its first call. -/
def NET_SDL_InitServer (listening : TCPsocket) : Globals :=
  { tcpsocket := listening
    serverconnections := List.replicate MAX_SOCKETS none
    actual_ip_list := List.replicate MAX_SOCKETS 0xFFFF
    clientsocketSet := none
    serversocketSet := some [] }

/-- The state `NET_SDL_InitClient` leaves behind on its first call. -/
def NET_SDL_InitClient (connection : TCPsocket) (g : Globals) : Globals :=
  { g with tcpsocket := connection
           clientsocketSet := some [connection]
           serversocketSet := none }

/-- The four statements that drop slot `i` of the server:
`SDLNet_TCP_DelSocket`, `SDLNet_TCP_Close`, `serverconnections[i] = NULL` and,
under `ALLOW_REENTRY`, `actual_ip_list[i] = 0xFFFF`. -/
def dropSlot (b : Build) (g : Globals) (n : Net) (i : Nat) (conn : TCPsocket) : Globals × Net :=
  ({ g with serversocketSet := g.serversocketSet.map (fun set => set.erase conn)
            serverconnections := g.serverconnections.set i none
            actual_ip_list :=
              if b.ALLOW_REENTRY then g.actual_ip_list.set i 0xFFFF else g.actual_ip_list },
    SDLNet_TCP_Close n conn)

/-! ## Sending -/

/-- The server loop of `NET_SDL_SendPacket` from slot `i` on, `fuel` slots
left. -/
def sendLoop (b : Build) (addr : IPaddress) (packet : net_packet_t) :
    Nat → Nat → Globals → Net → Globals × Net
  | 0, _, g, n => (g, n)
  | fuel + 1, i, g, n =>
    match g.serverconnections.getD i none with
    | none => sendLoop b addr packet fuel (i + 1) g n
    | some conn =>
      if AddressesEqual addr (SDLNet_TCP_GetPeerAddress n conn) then
        let length := packet.len % 4294967296
        let (bytes_sent, n) := SDLNet_TCP_Send n conn (store32 b.big_endian length)
        if to_size_t b bytes_sent < 4 then dropSlot b g n i conn
        else
          let (bytes_sent, n) := SDLNet_TCP_Send n conn (packet.data.take packet.len)
          if to_size_t b bytes_sent < packet.len then dropSlot b g n i conn
          else (g, n)
      else sendLoop b addr packet fuel (i + 1) g n

/-- `NET_SDL_SendPacket(addr, packet)`; `addr` is the endpoint behind the
handle.  `some e` in the result is an `I_Error`. -/
def NET_SDL_SendPacket (b : Build) (g : Globals) (n : Net) (addr : IPaddress)
    (packet : net_packet_t) : Option Fatal × Globals × Net :=
  match g.serversocketSet with
  | none =>
    let length := packet.len % 4294967296
    let (bytes_sent, n) := SDLNet_TCP_Send n g.tcpsocket (store32 b.big_endian length)
    if to_size_t b bytes_sent < 4 then (some Fatal.transmit, g, n)
    else
      let (bytes_sent, n) := SDLNet_TCP_Send n g.tcpsocket (packet.data.take packet.len)
      if to_size_t b bytes_sent < packet.len then (some Fatal.transmit, g, n)
      else (none, g, n)
  | some _ =>
    let (g, n) := sendLoop b addr packet MAX_SOCKETS 0 g n
    (none, g, n)

/-! ## The proxy line -/

/-- The C string that starts at the beginning of `mem`: the bytes before the
first zero byte. -/
def cstr (mem : List Nat) : List Nat :=
  mem.takeWhile (fun c => c != 0)

/-- Does `s` begin with `t`? -/
def startsWith : List Nat → List Nat → Bool
  | _, [] => true
  | [], _ :: _ => false
  | x :: xs, y :: ys => x == y && startsWith xs ys

/-- `strstr(hay, needle) != NULL`. -/
def strstr_found : List Nat → List Nat → Bool
  | [], needle => startsWith [] needle
  | x :: rest, needle => startsWith (x :: rest) needle || strstr_found rest needle

/-- The bytes of the marker "PROXY". -/
def PROXY : List Nat := [80, 82, 79, 88, 89]

def checkIsProxyPacket (packet : List Nat) : Bool :=
  strstr_found (cstr packet) PROXY

/-- `isspace` in the C locale. -/
def isspace (c : Nat) : Bool :=
  c == 32 || (9 ≤ c && c ≤ 13)

def isdigit (c : Nat) : Bool :=
  48 ≤ c && c ≤ 57

/-- What a `%s` (or `%*s`) directive of `sscanf` leaves unread: white space is
skipped, then the run of non-space characters is consumed. -/
def after_field (s : List Nat) : List Nat :=
  (s.dropWhile isspace).dropWhile (fun c => !isspace c)

/-- What a `%s` directive of `sscanf` stores: the run of non-space characters
after the white space; nothing when the input has ended. -/
def field (s : List Nat) : List Nat :=
  (s.dropWhile isspace).takeWhile (fun c => !isspace c)

/-- The digits a `%d` directive consumes, folded into their value. -/
def scan_digits : List Nat → Nat → Nat × List Nat
  | [], acc => (acc, [])
  | c :: rest, acc =>
    if isdigit c then scan_digits rest (acc * 10 + (c - 48)) else (acc, c :: rest)

/-- A `%d` directive of `sscanf` whose target is a `uint32_t`: white space is
skipped, a sign is optional, at least one digit must follow; the result is the
bit pattern stored and the rest of the input, or `none` on a matching failure. -/
def scan_int (s : List Nat) : Option (Nat × List Nat) :=
  let s := s.dropWhile isspace
  let negative := s.head? == some 45
  let s := if s.head? == some 45 || s.head? == some 43 then s.tail else s
  if (s.head?.map isdigit).getD false then
    let (v, rest) := scan_digits s 0
    some (if negative then (4294967296 - v % 4294967296) % 4294967296 else v % 4294967296, rest)
  else none

/-- `ipStringToID`: `sscanf(packet, "%d.%d.%d.%d", ...)` on an unterminated copy
of `ip_string`, then `return iparray[2]`.  `iparray[2]` keeps its uninitialised
content unless the third conversion takes place. -/
def ipStringToID (st : Stack) (ip_string : List Nat) : Nat :=
  let packet := cstr (ip_string ++ st.past)
  match scan_int packet with
  | some (_, 46 :: s1) =>
    match scan_int s1 with
    | some (_, 46 :: s2) =>
      match scan_int s2 with
      | some (v, _) => v
      | none => st.iparray2
    | _ => st.iparray2
  | _ => st.iparray2

/-- `getIPfromProxyPacket`: `sscanf(packet, "%*s %*s %s", ip_string)` into the
zeroed `char ip_string[16]`, then `ipStringToID(ip_string)`.  The array has room
for 15 characters and the terminator.  `none`: the third field has 16 characters
or more, `sscanf` stores past the end of the array, and the behaviour of the C
program is undefined. -/
def getIPfromProxyPacket (st : Stack) (packet : List Nat) : Option Nat :=
  let ip_string := field (after_field (after_field (cstr packet)))
  if ip_string.length < 16 then some (ipStringToID st ip_string) else none

/-- The state of the line-reading loop when it is left. -/
structure ProxyLine where
  proxy_packet_buffer : List Nat
  should_close : Bool
  written : List Nat
  net : Net

/-- The inner `while(1)` of the proxy block: one byte per `SDLNet_TCP_Recv`
until a newline, a failed read, or a full buffer.  `written` collects the
indices of `proxy_packet_buffer` that were assigned.  `none`: the iteration
budget `fuel` ran out. -/
def readProxyLine (newConnection : TCPsocket) :
    Nat → Net → List Nat → Nat → List Nat → Option ProxyLine
  | 0, _, _, _, _ => none
  | fuel + 1, n, buffer, packet_index, written =>
    match SDLNet_TCP_Recv n newConnection 1 with
    | (length_recv, got, n) =>
      if length_recv ≤ 0 then some ⟨buffer, true, written, n⟩
      else
        let recv_c := got.headD 0
        if recv_c = 10 then
          some ⟨buffer.set packet_index 0, false, written ++ [packet_index], n⟩
        else
          let buffer := buffer.set packet_index recv_c
          let written := written ++ [packet_index]
          let packet_index := packet_index + 1
          if packet_index ≥ HAPROXY_MAX_BUF then some ⟨buffer, true, written, n⟩
          else readProxyLine newConnection fuel n buffer packet_index written

/-! ## Receiving -/

/-- The locals of `NET_SDL_RecvPacket` that live across loop iterations. -/
structure Locals where
  added : Bool
  actual_ip : Nat
  length_expected : Nat
deriving DecidableEq, Repr

/-- The slot-placement loop from slot `i` on, `fuel` slots left: `some` with the
new state when a `NULL` slot took the connection, `none` when the loop ran to
its end. -/
def placeLoop (newConnection : TCPsocket) (actual_ip : Nat) :
    Nat → Nat → Globals → Option Globals
  | 0, _, _ => none
  | fuel + 1, i, g =>
    match g.serverconnections.getD i none with
    | none =>
      some { g with serverconnections := g.serverconnections.set i (some newConnection)
                    actual_ip_list := g.actual_ip_list.set i actual_ip
                    serversocketSet := g.serversocketSet.map (fun set => set ++ [newConnection]) }
    | some _ => placeLoop newConnection actual_ip fuel (i + 1) g

/-- Slot placement and the `if (!added)` after it. -/
def placeConnection (newConnection : TCPsocket) (g : Globals) (n : Net) (l : Locals) :
    Globals × Net × Locals :=
  match placeLoop newConnection l.actual_ip MAX_SOCKETS 0 g with
  | some g1 => (g1, n, { l with added := true })
  | none => if !l.added then (g, SDLNet_TCP_Close n newConnection, l) else (g, n, l)

/-- How the accept loop is left: `SDLNet_TCP_Accept` returned `NULL`, the
duplicate check returned false from the function, the model ran out of its
iteration budget, or `getIPfromProxyPacket` stored past the end of `ip_string`. -/
inductive AcceptExit where
  | no_pending
  | returned_false
  | unfinished
  | out_of_bounds
deriving DecidableEq, Repr

/-- The duplicate check: is `actual_ip` the content of one of the
`MAX_SOCKETS` cells of `actual_ip_list`? -/
def duplicateOrigin (g : Globals) (actual_ip : Nat) : Bool :=
  (g.actual_ip_list.take MAX_SOCKETS).any (fun x => x == actual_ip)

/-- The outer `while (1)` of the server path over the connections
`SDLNet_TCP_Accept` hands out, in order. -/
def acceptLoop (b : Build) (st : Stack) :
    List TCPsocket → Globals → Net → Locals → AcceptExit × Globals × Net × Locals
  | [], g, n, l => (AcceptExit.no_pending, g, n, l)
  | newConnection :: pending, g, n, l =>
    let n := { n with backlog := pending }
    if b.ENFORCE_PROXY then
      let l := { l with added := false }
      match readProxyLine newConnection HAPROXY_MAX_BUF n
          (List.replicate HAPROXY_MAX_BUF 0) 0 [] with
      | none => (AcceptExit.unfinished, g, n, l)
      | some line =>
        if line.should_close || !checkIsProxyPacket line.proxy_packet_buffer then
          acceptLoop b st pending g (SDLNet_TCP_Close line.net newConnection) l
        else
          match getIPfromProxyPacket st line.proxy_packet_buffer with
          | none => (AcceptExit.out_of_bounds, g, line.net, l)
          | some actual_ip =>
            let l := { l with actual_ip := actual_ip }
            if duplicateOrigin g l.actual_ip then
              (AcceptExit.returned_false, g, SDLNet_TCP_Close line.net newConnection, l)
            else
              match placeConnection newConnection g line.net l with
              | (g, n, l) => acceptLoop b st pending g n l
    else
      match placeConnection newConnection g n l with
      | (g, n, l) => acceptLoop b st pending g n l

/-- The frame-reading loop of the server path from slot `i` on, `fuel` slots
left.  `length_expected` is carried from slot to slot as in C. -/
def recvLoop (b : Build) :
    Nat → Nat → Globals → Net → Registry → Nat → Outcome × Globals × Net × Registry
  | 0, _, g, n, reg, _ => (Outcome.no_packet, g, n, reg)
  | fuel + 1, i, g, n, reg, length_expected =>
    match g.serverconnections.getD i none with
    | none => recvLoop b fuel (i + 1) g n reg length_expected
    | some conn =>
      if !SDLNet_SocketReady n conn then recvLoop b fuel (i + 1) g n reg length_expected
      else
        match SDLNet_TCP_Recv n conn 4 with
        | (length_recv, got, n) =>
          let length_expected :=
            load32 b.big_endian (overlay (store32 b.big_endian length_expected) got)
          if to_size_t b length_recv < 4 || length_expected > MAX_PACKET_SIZE then
            match dropSlot b g n i conn with
            | (g, n) => recvLoop b fuel (i + 1) g n reg length_expected
          else
            let n := n.alloc (length_expected + 4)
            let data := (List.replicate (length_expected + 4) 0).set length_expected 0xCC
            match SDLNet_TCP_Recv n conn length_expected with
            | (length_recv, got, n) =>
              let data := overlay data got
              if to_uint32 length_recv < length_expected then
                match dropSlot b g n i conn with
                | (g, n) => recvLoop b fuel (i + 1) g n reg length_expected
              else if data.getD length_expected 0 ≠ 0xCC then
                (Outcome.assert_failed, g, n, reg)
              else
                let n := n.alloc length_expected
                let packet : net_packet_t :=
                  ⟨data.take length_expected, to_size_t b length_recv⟩
                match NET_SDL_FindAddress reg (SDLNet_TCP_GetPeerAddress n conn) with
                | (addr, reg) => (Outcome.received addr packet, g, n, reg)

/-- The client path of `NET_SDL_RecvPacket`. -/
def recvClient (b : Build) (g : Globals) (n : Net) (reg : Registry) :
    Outcome × Globals × Net × Registry :=
  let num_active := SDLNet_CheckSockets n (g.clientsocketSet.getD [])
  if num_active < 1 then (Outcome.no_packet, g, n, reg)
  else
    let length_expected := 0
    match SDLNet_TCP_Recv n g.tcpsocket 4 with
    | (length_recv, got, n) =>
      let length_expected :=
        load32 b.big_endian (overlay (store32 b.big_endian length_expected) got)
      if to_size_t b length_recv < 4 then (Outcome.fatal Fatal.receiving_1, g, n, reg)
      else if length_expected > MAX_PACKET_SIZE then
        (Outcome.fatal Fatal.receiving_2, g, n, reg)
      else
        let n := n.alloc (length_expected + 4)
        let data := (List.replicate (length_expected + 4) 0).set length_expected 0xCC
        match SDLNet_TCP_Recv n g.tcpsocket length_expected with
        | (length_recv, got, n) =>
          let data := overlay data got
          if to_uint32 length_recv ≠ length_expected then
            (Outcome.fatal Fatal.receiving_3, g, n, reg)
          else if data.getD length_expected 0 ≠ 0xCC then
            (Outcome.assert_failed, g, n, reg)
          else
            let n := n.alloc length_expected
            let packet : net_packet_t :=
              ⟨data.take length_expected, to_size_t b length_recv⟩
            match NET_SDL_FindAddress reg (SDLNet_TCP_GetPeerAddress n g.tcpsocket) with
            | (addr, reg) => (Outcome.received addr packet, g, n, reg)

/-- `NET_SDL_RecvPacket(&addr, &packet)`. -/
def NET_SDL_RecvPacket (b : Build) (st : Stack) (g : Globals) (n : Net) (reg : Registry) :
    Outcome × Globals × Net × Registry :=
  match g.serversocketSet with
  | none => recvClient b g n reg
  | some _ =>
    match acceptLoop b st n.backlog g n ⟨false, st.actual_ip, st.length_expected⟩ with
    | (AcceptExit.unfinished, g, n, _) => (Outcome.unfinished, g, n, reg)
    | (AcceptExit.out_of_bounds, g, n, _) => (Outcome.out_of_bounds, g, n, reg)
    | (AcceptExit.returned_false, g, n, _) => (Outcome.no_packet, g, n, reg)
    | (AcceptExit.no_pending, g, n, l) =>
      let numServerActiveConnections := SDLNet_CheckSockets n (g.serversocketSet.getD [])
      if numServerActiveConnections ≤ 0 then (Outcome.no_packet, g, n, reg)
      else recvLoop b MAX_SOCKETS 0 g n reg l.length_expected

/-! ## Sample states -/

/-- An LP64 little-endian build with the switches as `net_sdl.c` has them. -/
def lp64 : Build := ⟨64, false, false, false⟩

/-- The same build with `ENFORCE_PROXY 1`. -/
def lp64_proxy : Build := ⟨64, false, true, false⟩

/-- A network on which nothing is pending and nothing has happened. -/
def quiet : Net :=
  { backlog := []
    inbound := fun _ => []
    ready := fun _ => false
    peer := fun _ => ⟨0, 0⟩
    room := fun _ => none
    sent := fun _ => []
    closed := []
    allocs := [] }

/-- The address table before its first use (`addr_table_size = -1`). -/
def Registry.start : Registry := ⟨none, 0⟩

def zeroStack : Stack := ⟨0, 0, 0, []⟩

/-- A network on which every socket is ready and delivers the run `bs`. -/
def delivering (bs : List Nat) : Net :=
  { quiet with ready := fun _ => true, inbound := fun _ => [RecvEvent.bytes bs] }

/-- A client connected through socket 7. -/
def sampleClient : Globals := NET_SDL_InitClient 7 (NET_SDL_InitServer 0)

/-- A server whose slot 0 holds connection 5. -/
def sampleServer : Globals :=
  { NET_SDL_InitServer 1 with
    serverconnections := (List.replicate MAX_SOCKETS none).set 0 (some 5)
    serversocketSet := some [5] }

/-- A network on which every socket is ready and has `events` in store. -/
def scripted (events : List RecvEvent) : Net :=
  { quiet with ready := fun _ => true, inbound := fun _ => events }

/-! ## Sequences of table operations -/

/-- A call into the address table from outside. -/
inductive RegOp where
  | find (e : IPaddress)
  | release (h : Nat)
deriving DecidableEq, Repr

/-- The table after one call; `none` when the call ends in `I_Error`. -/
def RegOp.apply (r : Registry) : RegOp → Option Registry
  | RegOp.find e => some (NET_SDL_FindAddress r e).2
  | RegOp.release h => NET_SDL_FreeAddress r h

/-- The table after a sequence of calls, none of which ends in `I_Error`. -/
def runOps : Registry → List RegOp → Option Registry
  | r, [] => some r
  | r, op :: ops =>
    match op.apply r with
    | none => none
    | some r1 => runOps r1 ops

/-- The slots of the table; none before it is initialised. -/
def slots (r : Registry) : List (Option addrpair_t) :=
  r.addr_table.getD []

/-- Is the slot occupied by an entry for the endpoint `e`? -/
def holds (e : IPaddress) : Option addrpair_t → Bool
  | some p => AddressesEqual e p.sdl_addr
  | none => false

/-- Is the slot occupied by the entry whose handle is `h`? -/
def carries (h : Nat) : Option addrpair_t → Bool
  | some p => h == p.net_addr
  | none => false

/-- The handle of the first entry for `e`, if there is one. -/
def firstHandle (e : IPaddress) : List (Option addrpair_t) → Option Nat
  | [] => none
  | some p :: rest => if AddressesEqual e p.sdl_addr then some p.net_addr else firstHandle e rest
  | none :: rest => firstHandle e rest

/-- A server with connections 100 to 130 in slots 0 to 30 and slot 31 empty. -/
def crowded : Globals :=
  { NET_SDL_InitServer 1 with
    serverconnections := (List.range 31).map (fun i => some (100 + i)) ++ [none]
    serversocketSet := some ((List.range 31).map (fun i => 100 + i)) }

/-! ## Streams and proxy headers -/

/-- The bytes a connection delivers to successive one-byte reads before the
first read that fails: the runs in store up to the first error, end of stream or
empty run. -/
def arriving : List RecvEvent → List Nat
  | [] => []
  | RecvEvent.error :: _ => []
  | RecvEvent.bytes [] :: _ => []
  | RecvEvent.bytes (x :: xs) :: rest => (x :: xs) ++ arriving rest

/-- The line buffer after the bytes of `line` were stored from index `idx` on
and a zero byte behind them. -/
def putLine : List Nat → Nat → List Nat → List Nat
  | buffer, idx, [] => buffer.set idx 0
  | buffer, idx, x :: xs => putLine (buffer.set idx x) (idx + 1) xs

/-- The number a run of decimal digits denotes. -/
def digitsValue (ds : List Nat) : Nat :=
  ds.foldl (fun acc c => acc * 10 + (c - 48)) 0

/-- A run of one to three decimal digits denoting at most 255. -/
def isOctet (ds : List Nat) : Bool :=
  !ds.isEmpty && ds.all isdigit && decide (digitsValue ds ≤ 255) && decide (ds.length ≤ 3)

/-- The parts of a version-1 proxy header "PROXY <family> a.b.c.d <rest>": the
second field, the digits of the four octets of the source address, and what
follows the source address up to the end of the line. -/
structure ProxyHeader where
  family : List Nat
  a : List Nat
  b : List Nat
  c : List Nat
  d : List Nat
  rest : List Nat
deriving DecidableEq, Repr

/-- The header as the bytes of one line, without the newline. -/
def ProxyHeader.line (p : ProxyHeader) : List Nat :=
  PROXY ++ 32 :: (p.family ++ 32 :: (p.a ++ 46 :: (p.b ++ 46 :: (p.c ++ 46 :: (p.d ++ p.rest)))))

/-- A header is well formed when the second field is a non-empty word, the
source address is a dotted quad of octets of one to three digits (so that it
fits `ip_string` with its terminator), the remainder is empty or starts with
white space, the line has neither a zero byte nor a newline, and with its
newline it fits the line buffer. -/
def ProxyHeader.wellFormed (p : ProxyHeader) : Bool :=
  !p.family.isEmpty && p.family.all (fun x => !isspace x && x != 0)
  && isOctet p.a && isOctet p.b && isOctet p.c && isOctet p.d
  && (p.rest.head?.map isspace).getD true
  && p.rest.all (fun x => x != 10 && x != 0)
  && decide (p.line.length < HAPROXY_MAX_BUF)

/-- The source address a header carries, as four numbers. -/
def ProxyHeader.origin (p : ProxyHeader) : List Nat :=
  [digitsValue p.a, digitsValue p.b, digitsValue p.c, digitsValue p.d]

/-- The bytes of a text. -/
def ascii (s : String) : List Nat :=
  s.toList.map Char.toNat

/-- The header "PROXY TCP4 10.0.7.1 10.0.0.2 <port> 2342" with a carriage
return, as a proxy in front of the server sends it for the client 10.0.7.1. -/
def sampleHeader (port : String) : ProxyHeader :=
  { family := ascii "TCP4"
    a := ascii "10"
    b := ascii "0"
    c := ascii "7"
    d := ascii "1"
    rest := ascii " 10.0.0.2 " ++ ascii port ++ ascii " 2342" ++ [13] }

/-- A network on which connections 5 and 6 are pending, 5 sending the sample
header with port 5555 and every other socket the one with port 6666. -/
def twoProxied : Net :=
  { quiet with
    backlog := [5, 6]
    inbound := fun s =>
      if s = 5 then [RecvEvent.bytes ((sampleHeader "5555").line ++ [10])]
      else [RecvEvent.bytes ((sampleHeader "6666").line ++ [10])] }

/-- A network on which every socket sends an HTTP request line. -/
def strayClient : Net :=
  { quiet with inbound := fun _ => [RecvEvent.bytes (ascii "GET / HTTP/1.0" ++ [13, 10])] }

/-- A network on which connection 5 is pending and sends the sample header. -/
def arrival : Net :=
  { quiet with
    backlog := [5]
    inbound := fun _ => [RecvEvent.bytes ((sampleHeader "5555").line ++ [10])] }

/-- The server after connection 5, whose origin is 10.0.7.1, was admitted. -/
def admitted : Globals :=
  (NET_SDL_RecvPacket lp64_proxy zeroStack (NET_SDL_InitServer 1) arrival Registry.start).2.1

/-- The server after the peer of connection 5 closed the stream and the next
call read zero bytes for the length field. -/
def afterFailure : Globals :=
  (NET_SDL_RecvPacket lp64_proxy zeroStack admitted (scripted []) Registry.start).2.1

/-- A network on which connection 6 is pending and sends the sample header for
the same origin from another port. -/
def comeback : Net :=
  { quiet with
    backlog := [6]
    inbound := fun _ => [RecvEvent.bytes ((sampleHeader "6666").line ++ [10])] }

/-! ## Byte order on the wire -/

/-- The four bytes of an unsigned 32-bit value in network byte order, most
significant byte first (the order the specification names for the length
field). -/
def network_order32 (v : Nat) : List Nat :=
  [v / 16777216 % 256, v / 65536 % 256, v / 256 % 256, v % 256]

/-! ## Address text -/

/-- The two bytes of a `uint16_t` as they lie in memory. -/
def store16 (big_endian : Bool) (v : Nat) : List Nat :=
  if big_endian then [v / 256 % 256, v % 256] else [v % 256, v / 256 % 256]

/-- `SDLNet_Read32(&x)`: the four bytes at the address of `x`, read most
significant byte first. -/
def SDLNet_Read32 (b : Build) (x : Nat) : Nat :=
  load32 true (store32 b.big_endian x)

/-- `SDLNet_Read16(&x)`: the two bytes at the address of `x`, read most
significant byte first. -/
def SDLNet_Read16 (b : Build) (x : Nat) : Nat :=
  (store16 b.big_endian x).getD 0 0 * 256 + (store16 b.big_endian x).getD 1 0

/-- What `%i` prints for a value that is not negative: its decimal digits. -/
def decimal (v : Nat) : List Nat :=
  ascii (Nat.repr v)

/-- Modelled from the spec: `M_snprintf` of m_misc.c, which is not among the
sources; it is the bounded formatter of the address text: the C string left in
a buffer of `buf_len` bytes that held `buffer`, when `text` is what the format
expands to (cut to `buf_len - 1` characters; nothing is stored when `buf_len`
is 0). -/
def M_snprintf (buffer : List Nat) (buf_len : Nat) (text : List Nat) : List Nat :=
  if buf_len < 1 then buffer else text.take (buf_len - 1)

/-- Modelled from the spec: `M_StringConcat` of m_misc.c, which is not among the
sources; it appends the optional port segment to the address text: the C
string in `dest` afterwards, `src` appended as far as `dest_size` bytes allow. -/
def M_StringConcat (dest src : List Nat) (dest_size : Nat) : List Nat :=
  let offset := min dest.length dest_size
  if dest_size - offset < 1 then dest else dest ++ src.take (dest_size - offset - 1)

/-- `NET_SDL_AddrToString(addr, buffer, buffer_len)`: the C string in `buffer`
afterwards; `ip` is the `IPaddress` behind the handle. -/
def NET_SDL_AddrToString (b : Build) (ip : IPaddress) (buffer : List Nat) (buffer_len : Nat) :
    List Nat :=
  let host := SDLNet_Read32 b ip.host
  let port := SDLNet_Read16 b ip.port
  let buffer := M_snprintf buffer buffer_len
    (decimal (host / 16777216 % 256) ++ 46 :: (decimal (host / 65536 % 256)
      ++ 46 :: (decimal (host / 256 % 256) ++ 46 :: decimal (host % 256))))
  if port ≠ DEFAULT_PORT then
    let portbuf := M_snprintf [] 10 (58 :: decimal port)
    M_StringConcat buffer portbuf buffer_len
  else buffer

/-- The sample header for another client, 192.168.7.200: a different source
address with the same third octet. -/
def neighbourHeader : ProxyHeader :=
  { sampleHeader "5555" with a := ascii "192", b := ascii "168", d := ascii "200" }

/-- The sample header for the client 10.0.8.1: a source address with another
third octet. -/
def distantHeader : ProxyHeader :=
  { sampleHeader "5555" with c := ascii "8" }

/-- The sample header with the client 10.0.7.1 written "010.000.007.0001":
every octet is at most 255 and the third field has 16 characters. -/
def paddedHeader : ProxyHeader :=
  { sampleHeader "5555" with
    a := ascii "010", b := ascii "000", c := ascii "007", d := ascii "0001" }

/-- A network on which connection 5 is pending and sends the padded header. -/
def paddedArrival : Net :=
  { quiet with
    backlog := [5]
    inbound := fun _ => [RecvEvent.bytes (paddedHeader.line ++ [10])] }

/-! ## Arithmetic of the conversions -/

theorem to_size_t_natCast (b : Build) (k : Nat) (h : k < 2 ^ b.size_t_bits) :
    to_size_t b (k : Int) = k := by
  unfold to_size_t
  have h1 : ((k : Int)) % (2 : Int) ^ b.size_t_bits = (k : Int) := by
    apply Int.emod_eq_of_lt (Int.natCast_nonneg k)
    exact_mod_cast h
  rw [h1]
  exact Int.toNat_natCast k

theorem to_uint32_natCast (k : Nat) (h : k < 4294967296) : to_uint32 (k : Int) = k := by
  unfold to_uint32
  omega

theorem store32_length (be : Bool) (v : Nat) : (store32 be v).length = 4 := by
  unfold store32
  cases be <;> simp

theorem load32_store32 (be : Bool) (v : Nat) (h : v < 4294967296) :
    load32 be (store32 be v) = v := by
  unfold load32 store32
  cases be <;> simp <;> omega

theorem load32_lt (be : Bool) (bs : List Nat) : load32 be bs < 4294967296 := by
  unfold load32
  cases be <;> simp <;> omega

theorem two_pow_size_t_ge (b : Build) (hw : 32 ≤ b.size_t_bits) :
    4294967296 ≤ 2 ^ b.size_t_bits := by
  calc 4294967296 = 2 ^ 32 := by norm_num
    _ ≤ 2 ^ b.size_t_bits := Nat.pow_le_pow_right (by norm_num) hw

theorem to_size_t_four (b : Build) (hw : 32 ≤ b.size_t_bits) : to_size_t b 4 = 4 := by
  have h2 := two_pow_size_t_ge b hw
  have := to_size_t_natCast b 4 (by omega)
  simpa using this

theorem overlay_full (old got : List Nat) (h : got.length = old.length) :
    overlay old got = got := by
  unfold overlay
  rw [List.take_of_length_le (by omega), List.drop_of_length_le (by omega), List.append_nil]

/-! ## The read primitive -/

theorem setAt_same {α : Type} (f : TCPsocket → α) (sock : TCPsocket) (v : α) :
    setAt f sock v sock = v := by
  simp [setAt]

theorem recv_bytes_all (n : Net) (sock : TCPsocket) (maxlen : Nat) (bs : List Nat)
    (rest : List RecvEvent) (h : n.inbound sock = RecvEvent.bytes bs :: rest)
    (hle : bs.length ≤ maxlen) :
    SDLNet_TCP_Recv n sock maxlen
      = ((bs.length : Int), bs, { n with inbound := setAt n.inbound sock rest }) := by
  unfold SDLNet_TCP_Recv
  rw [h]
  simp [hle]

theorem recv_bytes_some (n : Net) (sock : TCPsocket) (maxlen : Nat) (bs : List Nat)
    (rest : List RecvEvent) (h : n.inbound sock = RecvEvent.bytes bs :: rest)
    (hlt : maxlen < bs.length) :
    SDLNet_TCP_Recv n sock maxlen
      = ((maxlen : Int), bs.take maxlen,
          { n with inbound := setAt n.inbound sock (RecvEvent.bytes (bs.drop maxlen) :: rest) }) := by
  unfold SDLNet_TCP_Recv
  rw [h]
  simp [Nat.not_le.mpr hlt]

/-- Reading `a.length` bytes from a socket whose next run is `a ++ c` yields `a`
and leaves `c`. -/
theorem recv_head (n : Net) (sock : TCPsocket) (a c : List Nat) (rest : List RecvEvent)
    (h : n.inbound sock = RecvEvent.bytes (a ++ c) :: rest) :
    ∃ n1, SDLNet_TCP_Recv n sock a.length = ((a.length : Int), a, n1)
      ∧ n1.allocs = n.allocs ∧ n1.peer = n.peer ∧ n1.closed = n.closed
      ∧ (c = [] → n1.inbound sock = rest)
      ∧ (c ≠ [] → n1.inbound sock = RecvEvent.bytes c :: rest) := by
  by_cases hc : c = []
  · subst hc
    rw [List.append_nil] at h
    refine ⟨_, recv_bytes_all n sock a.length a rest h (le_refl _), rfl, rfl, rfl, ?_, ?_⟩
    · intro _; simp [setAt]
    · intro hne; exact absurd rfl hne
  · have hlt : a.length < (a ++ c).length := by
      have : 0 < c.length := List.length_pos.mpr hc
      simp only [List.length_append]; omega
    have hr := recv_bytes_some n sock a.length (a ++ c) rest h hlt
    rw [List.take_left, List.drop_left] at hr
    refine ⟨_, hr, rfl, rfl, rfl, ?_, ?_⟩
    · intro he; exact absurd he hc
    · intro _; simp [setAt]

/-- Reading `k` bytes when at least `k` are there and nothing follows them. -/
theorem recv_take (n : Net) (sock : TCPsocket) (c : List Nat) (k : Nat) (hk : k ≤ c.length)
    (h : (c = [] → n.inbound sock = []) ∧ (c ≠ [] → n.inbound sock = [RecvEvent.bytes c])) :
    ∃ n1, SDLNet_TCP_Recv n sock k = ((k : Int), c.take k, n1)
      ∧ n1.allocs = n.allocs ∧ n1.peer = n.peer ∧ n1.closed = n.closed := by
  by_cases hc : c = []
  · subst hc
    have hk0 : k = 0 := by simpa using hk
    subst hk0
    refine ⟨n, ?_, rfl, rfl, rfl⟩
    unfold SDLNet_TCP_Recv
    rw [h.1 rfl]
    rfl
  · by_cases hle : c.length ≤ k
    · have hke : k = c.length := by omega
      subst hke
      rw [List.take_length]
      exact ⟨_, recv_bytes_all n sock c.length c [] (h.2 hc) (le_refl _), rfl, rfl, rfl⟩
    · exact ⟨_, recv_bytes_some n sock k c [] (h.2 hc) (by omega), rfl, rfl, rfl⟩

/-- The guard byte behind the payload buffer survives a read of at most
`L` bytes. -/
theorem frame_buffer_guard (L : Nat) (got : List Nat) (h : got.length ≤ L) :
    (overlay ((List.replicate (L + 4) 0).set L 204) got).getD L 0 = 204 := by
  unfold overlay
  have h1 : got.take ((List.replicate (L + 4) 0).set L 204).length = got := by
    apply List.take_of_length_le
    simp; omega
  rw [h1, List.getD_eq_getElem?_getD, List.getElem?_append_right h, List.getElem?_drop]
  have : got.length + (L - got.length) = L := by omega
  rw [this]
  simp

theorem frame_buffer_take (L : Nat) (got : List Nat) (h : got.length = L) :
    (overlay ((List.replicate (L + 4) 0).set L 204) got).take L = got := by
  subst h
  unfold overlay
  have h1 : got.take ((List.replicate (got.length + 4) 0).set got.length 204).length = got := by
    apply List.take_of_length_le
    simp
  rw [h1]
  simp

/-! ## Framing on the client -/

/-- The client receive path on a stream that holds a four-byte length `pre`
and at least that many bytes after it. -/
theorem recvClient_frame (b : Build) (g : Globals) (n : Net) (reg : Registry)
    (pre more : List Nat) (hw : 32 ≤ b.size_t_bits)
    (hready : 1 ≤ SDLNet_CheckSockets n (g.clientsocketSet.getD []))
    (hin : n.inbound g.tcpsocket = [RecvEvent.bytes (pre ++ more)])
    (hpre : pre.length = 4)
    (hmax : load32 b.big_endian pre ≤ MAX_PACKET_SIZE)
    (hmore : load32 b.big_endian pre ≤ more.length) :
    ∃ addr n1 reg1, recvClient b g n reg
        = (Outcome.received addr
            ⟨more.take (load32 b.big_endian pre), load32 b.big_endian pre⟩, g, n1, reg1)
      ∧ n1.allocs
        = n.allocs ++ [load32 b.big_endian pre + 4, load32 b.big_endian pre] := by
  have h2 := two_pow_size_t_ge b hw
  have hL := load32_lt b.big_endian pre
  generalize hLdef : load32 b.big_endian pre = L at *
  have e4 := to_size_t_four b hw
  have eL : to_size_t b (L : Int) = L := to_size_t_natCast b _ (by omega)
  have eU : to_uint32 (L : Int) = L := to_uint32_natCast _ hL
  obtain ⟨n1, hr1, ha1, -, -, hin1a, hin1b⟩ := recv_head n g.tcpsocket pre more [] hin
  rw [hpre] at hr1
  have hin2 : ((more = [] → (n1.alloc (L + 4)).inbound g.tcpsocket = [])
      ∧ (more ≠ [] → (n1.alloc (L + 4)).inbound g.tcpsocket = [RecvEvent.bytes more])) :=
    ⟨hin1a, hin1b⟩
  obtain ⟨n2, hr2, ha2, -, -⟩ := recv_take _ g.tcpsocket more L hmore hin2
  have hov : overlay (store32 b.big_endian 0) pre = pre :=
    overlay_full _ _ (by rw [hpre, store32_length])
  have hnot : ¬ L > MAX_PACKET_SIZE := by omega
  have htl : (more.take L).length = L := by simp; omega
  unfold recvClient
  simp only []
  rw [if_neg (show ¬ SDLNet_CheckSockets n (g.clientsocketSet.getD []) < 1 by omega), hr1]
  simp only [Nat.cast_ofNat, hov, hLdef, e4, lt_irrefl, if_false, hnot, hr2, eU, eL, ne_eq,
    not_true_eq_false, frame_buffer_guard _ _ (le_of_eq htl), frame_buffer_take _ _ htl]
  refine ⟨_, _, _, rfl, ?_⟩
  simp [Net.alloc, ha2, ha1]

/-- The client receive path on a stream whose four-byte length declares more
than `MAX_PACKET_SIZE`. -/
theorem recvClient_oversize (b : Build) (g : Globals) (n : Net) (reg : Registry)
    (pre more : List Nat) (rest : List RecvEvent) (hw : 32 ≤ b.size_t_bits)
    (hready : 1 ≤ SDLNet_CheckSockets n (g.clientsocketSet.getD []))
    (hin : n.inbound g.tcpsocket = RecvEvent.bytes (pre ++ more) :: rest)
    (hpre : pre.length = 4)
    (hbig : MAX_PACKET_SIZE < load32 b.big_endian pre) :
    ∃ n1, recvClient b g n reg = (Outcome.fatal Fatal.receiving_2, g, n1, reg)
      ∧ n1.allocs = n.allocs := by
  have e4 := to_size_t_four b hw
  obtain ⟨n1, hr1, ha1, -, -, -, -⟩ := recv_head n g.tcpsocket pre more rest hin
  rw [hpre] at hr1
  have hov : overlay (store32 b.big_endian 0) pre = pre :=
    overlay_full _ _ (by rw [hpre, store32_length])
  unfold recvClient
  simp only []
  rw [if_neg (show ¬ SDLNet_CheckSockets n (g.clientsocketSet.getD []) < 1 by omega), hr1]
  simp only [Nat.cast_ofNat, hov, e4, lt_irrefl, if_false, gt_iff_lt, hbig, if_true]
  exact ⟨n1, rfl, ha1⟩

/-- The client send path on a connection that takes every byte. -/
theorem sendClient_frame (b : Build) (g : Globals) (n : Net) (dest : IPaddress)
    (payload : List Nat) (hw : 32 ≤ b.size_t_bits) (hlen : payload.length < 4294967296)
    (hclient : g.serversocketSet = none) (hroom : n.room g.tcpsocket = none) :
    ∃ n1, NET_SDL_SendPacket b g n dest ⟨payload, payload.length⟩ = (none, g, n1)
      ∧ n1.sent g.tcpsocket
        = n.sent g.tcpsocket ++ (store32 b.big_endian payload.length ++ payload) := by
  have h2 := two_pow_size_t_ge b hw
  have e4 := to_size_t_four b hw
  have eL : to_size_t b (payload.length : Int) = payload.length :=
    to_size_t_natCast b _ (by omega)
  unfold NET_SDL_SendPacket
  rw [hclient]
  simp only [SDLNet_TCP_Send, hroom, setAt_same, Nat.mod_eq_of_lt hlen, store32_length,
    List.take_length]
  simp [e4, eL, setAt_same]

/-! ## What a call may allocate -/

theorem recv_allocs (n : Net) (sock : TCPsocket) (k : Nat) :
    (SDLNet_TCP_Recv n sock k).2.2.allocs = n.allocs
    ∧ (SDLNet_TCP_Recv n sock k).2.2.closed = n.closed := by
  unfold SDLNet_TCP_Recv
  split
  · exact ⟨rfl, rfl⟩
  · exact ⟨rfl, rfl⟩
  · split <;> exact ⟨rfl, rfl⟩

/-- Every size the frame-reading loop of the server requests is at most
`MAX_PACKET_SIZE + 4`. -/
theorem recvLoop_allocs (b : Build) (fuel : Nat) :
    ∀ (i : Nat) (g : Globals) (n : Net) (reg : Registry) (le : Nat),
      ∃ extra, (recvLoop b fuel i g n reg le).2.2.1.allocs = n.allocs ++ extra
        ∧ ∀ a ∈ extra, a ≤ MAX_PACKET_SIZE + 4 := by
  induction fuel with
  | zero => intro i g n reg le; exact ⟨[], by simp [recvLoop], by simp⟩
  | succ fuel ih =>
    intro i g n reg le
    unfold recvLoop
    split
    · exact ih _ _ _ _ _
    · rename_i conn hconn
      split
      · exact ih _ _ _ _ _
      · have ha := (recv_allocs n conn 4).1
        generalize SDLNet_TCP_Recv n conn 4 = r1 at ha
        obtain ⟨length_recv, got, n1⟩ := r1
        simp only at ha ⊢
        split
        · obtain ⟨extra, h1, h2⟩ := ih (i + 1) (dropSlot b g n1 i conn).1
            (dropSlot b g n1 i conn).2 reg
            (load32 b.big_endian (overlay (store32 b.big_endian le) got))
          refine ⟨extra, ?_, h2⟩
          rw [h1]
          simp [dropSlot, SDLNet_TCP_Close, ha]
        · rename_i hcheck
          simp only [Bool.or_eq_true, decide_eq_true_eq, not_or, not_lt] at hcheck
          generalize load32 b.big_endian (overlay (store32 b.big_endian le) got) = L at hcheck ⊢
          have hb := (recv_allocs (n1.alloc (L + 4)) conn L).1
          generalize SDLNet_TCP_Recv (n1.alloc (L + 4)) conn L = r2 at hb
          obtain ⟨length_recv2, got2, n2⟩ := r2
          simp only at hb ⊢
          have hLle : L ≤ MAX_PACKET_SIZE := by omega
          split
          · obtain ⟨extra, h1, h2⟩ := ih (i + 1) (dropSlot b g n2 i conn).1
              (dropSlot b g n2 i conn).2 reg L
            refine ⟨(L + 4) :: extra, ?_, ?_⟩
            · rw [h1]
              simp [dropSlot, SDLNet_TCP_Close, hb, Net.alloc, ha]
            · intro a hmem
              rcases List.mem_cons.mp hmem with h | h
              · omega
              · exact h2 a h
          · split
            · refine ⟨[L + 4], ?_, ?_⟩
              · simp [hb, Net.alloc, ha]
              · intro a hmem
                simp at hmem
                omega
            · refine ⟨[L + 4, L], ?_, ?_⟩
              · simp [hb, Net.alloc, ha]
              · intro a hmem
                simp at hmem
                omega

theorem readProxyLine_net (conn : TCPsocket) (fuel : Nat) :
    ∀ (n : Net) (buffer : List Nat) (idx : Nat) (written : List Nat) (line : ProxyLine),
      readProxyLine conn fuel n buffer idx written = some line →
      line.net.allocs = n.allocs ∧ line.net.closed = n.closed := by
  induction fuel with
  | zero => intro n buffer idx written line h; simp [readProxyLine] at h
  | succ fuel ih =>
    intro n buffer idx written line h
    unfold readProxyLine at h
    have hr := recv_allocs n conn 1
    generalize SDLNet_TCP_Recv n conn 1 = r at hr h
    obtain ⟨length_recv, got, n1⟩ := r
    simp only at hr h
    split at h
    · cases h; exact hr
    · split at h
      · cases h; exact hr
      · split at h
        · cases h; exact hr
        · have := ih _ _ _ _ _ h
          exact ⟨this.1.trans hr.1, this.2.trans hr.2⟩

theorem placeConnection_allocs (conn : TCPsocket) (g : Globals) (n : Net) (l : Locals) :
    (placeConnection conn g n l).2.1.allocs = n.allocs := by
  unfold placeConnection
  split
  · rfl
  · split <;> rfl

theorem acceptLoop_allocs (b : Build) (st : Stack) (pending : List TCPsocket) :
    ∀ (g : Globals) (n : Net) (l : Locals),
      (acceptLoop b st pending g n l).2.2.1.allocs = n.allocs := by
  induction pending with
  | nil => intro g n l; rfl
  | cons conn pending ih =>
    intro g n l
    unfold acceptLoop
    simp only
    split
    · split
      · rfl
      · rename_i line hline
        have hn := (readProxyLine_net conn _ _ _ _ _ _ hline).1
        split
        · rw [ih]; exact hn
        · split
          · exact hn
          · rename_i actual_ip hip
            split
            · exact hn
            · have hp := placeConnection_allocs conn g line.net
                { added := false, actual_ip := actual_ip,
                  length_expected := l.length_expected }
              generalize placeConnection conn g line.net _ = r at hp ⊢
              obtain ⟨g1, n1, l1⟩ := r
              simp only at hp ⊢
              rw [ih, hp]
              exact hn
    · have hp := placeConnection_allocs conn g { n with backlog := pending } l
      generalize placeConnection conn g _ l = r at hp ⊢
      obtain ⟨g1, n1, l1⟩ := r
      simp only at hp ⊢
      rw [ih, hp]

theorem recvClient_allocs (b : Build) (g : Globals) (n : Net) (reg : Registry) :
    ∃ extra, (recvClient b g n reg).2.2.1.allocs = n.allocs ++ extra
      ∧ ∀ a ∈ extra, a ≤ MAX_PACKET_SIZE + 4 := by
  unfold recvClient
  simp only
  split
  · exact ⟨[], by simp, by simp⟩
  · have ha := (recv_allocs n g.tcpsocket 4).1
    generalize SDLNet_TCP_Recv n g.tcpsocket 4 = r1 at ha
    obtain ⟨length_recv, got, n1⟩ := r1
    simp only at ha ⊢
    split
    · exact ⟨[], by simp [ha], by simp⟩
    · split
      · exact ⟨[], by simp [ha], by simp⟩
      · rename_i hcheck
        generalize load32 b.big_endian (overlay (store32 b.big_endian 0) got) = L at hcheck ⊢
        have hb := (recv_allocs (n1.alloc (L + 4)) g.tcpsocket L).1
        generalize SDLNet_TCP_Recv (n1.alloc (L + 4)) g.tcpsocket L = r2 at hb
        obtain ⟨length_recv2, got2, n2⟩ := r2
        simp only at hb ⊢
        have hLle : L ≤ MAX_PACKET_SIZE := by omega
        split
        · refine ⟨[L + 4], by simp [hb, Net.alloc, ha], ?_⟩
          intro a hmem
          simp at hmem
          omega
        · split
          · refine ⟨[L + 4], by simp [hb, Net.alloc, ha], ?_⟩
            intro a hmem
            simp at hmem
            omega
          · refine ⟨[L + 4, L], by simp [hb, Net.alloc, ha], ?_⟩
            intro a hmem
            simp at hmem
            omega

/-- Every size a call of `NET_SDL_RecvPacket` requests from `malloc` or
`NET_NewPacket` is at most `MAX_PACKET_SIZE + 4`, on the client and on the
server, whatever the peers send. -/
theorem recvPacket_allocs (b : Build) (st : Stack) (g : Globals) (n : Net) (reg : Registry) :
    ∃ extra, (NET_SDL_RecvPacket b st g n reg).2.2.1.allocs = n.allocs ++ extra
      ∧ ∀ a ∈ extra, a ≤ MAX_PACKET_SIZE + 4 := by
  unfold NET_SDL_RecvPacket
  split
  · exact recvClient_allocs b g n reg
  · have ha := acceptLoop_allocs b st n.backlog g n ⟨false, st.actual_ip, st.length_expected⟩
    generalize acceptLoop b st n.backlog g n _ = r at ha
    obtain ⟨ex, g1, n1, l1⟩ := r
    simp only at ha
    cases ex
    · simp only
      split
      · exact ⟨[], by simp [ha], by simp⟩
      · rw [← ha]
        exact recvLoop_allocs b _ _ _ _ _ _
    · exact ⟨[], by simp [ha], by simp⟩
    · exact ⟨[], by simp [ha], by simp⟩
    · exact ⟨[], by simp [ha], by simp⟩

/-! ## Framing on the server -/

/-- Slots that are `NULL` or not ready are passed over. -/
theorem recvLoop_skip (b : Build) (g : Globals) (n : Net) (reg : Registry) (le : Nat)
    (k : Nat) : ∀ (fuel i : Nat),
      (∀ j, i ≤ j → j < i + k → ∀ c, g.serverconnections.getD j none = some c →
        SDLNet_SocketReady n c = false) →
      recvLoop b (k + fuel) i g n reg le = recvLoop b fuel (i + k) g n reg le := by
  induction k with
  | zero => intro fuel i _; simp
  | succ k ih =>
    intro fuel i h
    have e1 : k + 1 + fuel = (k + fuel) + 1 := by omega
    have e2 : i + (k + 1) = (i + 1) + k := by omega
    rw [e1, e2]
    have hrest := ih fuel (i + 1) (fun j h1 h2 c hc => h j (by omega) (by omega) c hc)
    rw [← hrest]
    conv => lhs; unfold recvLoop
    split
    · rfl
    · rename_i conn hconn
      simp [h i (le_refl _) (by omega) conn hconn]

/-- One step of the server loop at a ready slot whose stream holds a four-byte
length `pre` and at least that many bytes after it. -/
theorem recvLoop_frame (b : Build) (g : Globals) (n : Net) (reg : Registry)
    (fuel i le : Nat) (conn : TCPsocket) (pre more : List Nat) (hw : 32 ≤ b.size_t_bits)
    (hslot : g.serverconnections.getD i none = some conn)
    (hready : SDLNet_SocketReady n conn = true)
    (hin : n.inbound conn = [RecvEvent.bytes (pre ++ more)])
    (hpre : pre.length = 4)
    (hmax : load32 b.big_endian pre ≤ MAX_PACKET_SIZE)
    (hmore : load32 b.big_endian pre ≤ more.length) :
    ∃ addr n1 reg1, recvLoop b (fuel + 1) i g n reg le
        = (Outcome.received addr
            ⟨more.take (load32 b.big_endian pre), load32 b.big_endian pre⟩, g, n1, reg1)
      ∧ n1.allocs = n.allocs ++ [load32 b.big_endian pre + 4, load32 b.big_endian pre]
      ∧ n1.closed = n.closed := by
  have h2 := two_pow_size_t_ge b hw
  have hL := load32_lt b.big_endian pre
  generalize hLdef : load32 b.big_endian pre = L at *
  have e4 := to_size_t_four b hw
  have eL : to_size_t b (L : Int) = L := to_size_t_natCast b _ (by omega)
  have eU : to_uint32 (L : Int) = L := to_uint32_natCast _ hL
  obtain ⟨n1, hr1, ha1, -, hc1, hin1a, hin1b⟩ := recv_head n conn pre more [] hin
  rw [hpre] at hr1
  have hin2 : ((more = [] → (n1.alloc (L + 4)).inbound conn = [])
      ∧ (more ≠ [] → (n1.alloc (L + 4)).inbound conn = [RecvEvent.bytes more])) :=
    ⟨hin1a, hin1b⟩
  obtain ⟨n2, hr2, ha2, -, hc2⟩ := recv_take _ conn more L hmore hin2
  have hov : overlay (store32 b.big_endian le) pre = pre :=
    overlay_full _ _ (by rw [hpre, store32_length])
  have hnot : ¬ L > MAX_PACKET_SIZE := by omega
  have htl : (more.take L).length = L := by simp; omega
  unfold recvLoop
  rw [hslot]
  simp only [hready, Bool.not_true, Bool.false_eq_true, if_false, hr1]
  simp only [Nat.cast_ofNat, hov, hLdef, e4, lt_irrefl, hnot, decide_False, Bool.or_self,
    Bool.false_eq_true, if_false, hr2, eU, eL, ne_eq,
    not_true_eq_false, frame_buffer_guard _ _ (le_of_eq htl), frame_buffer_take _ _ htl]
  refine ⟨_, _, _, rfl, ?_, ?_⟩
  · simp [Net.alloc, ha2, ha1]
  · simp [Net.alloc, hc2, hc1]

/-- One step of the server loop at a ready slot whose stream declares more than
`MAX_PACKET_SIZE`: the slot is dropped, nothing is allocated, and the loop goes
on with the next slot. -/
theorem recvLoop_oversize (b : Build) (g : Globals) (n : Net) (reg : Registry)
    (fuel i le : Nat) (conn : TCPsocket) (pre more : List Nat) (rest : List RecvEvent)
    (hslot : g.serverconnections.getD i none = some conn)
    (hready : SDLNet_SocketReady n conn = true)
    (hin : n.inbound conn = RecvEvent.bytes (pre ++ more) :: rest)
    (hpre : pre.length = 4)
    (hbig : MAX_PACKET_SIZE < load32 b.big_endian pre) :
    ∃ n1, n1.allocs = n.allocs ∧ n1.closed = n.closed
      ∧ recvLoop b (fuel + 1) i g n reg le
        = recvLoop b fuel (i + 1) (dropSlot b g n1 i conn).1 (dropSlot b g n1 i conn).2 reg
            (load32 b.big_endian pre) := by
  obtain ⟨n1, hr1, ha1, -, hc1, -, -⟩ := recv_head n conn pre more rest hin
  rw [hpre] at hr1
  have hov : overlay (store32 b.big_endian le) pre = pre :=
    overlay_full _ _ (by rw [hpre, store32_length])
  refine ⟨n1, ha1, hc1, ?_⟩
  conv => lhs; unfold recvLoop
  rw [hslot]
  simp only [hready, Bool.not_true, Bool.false_eq_true, if_false, hr1]
  simp only [Nat.cast_ofNat, hov, gt_iff_lt, hbig, decide_True, Bool.or_true, if_true]

/-- The server path of `NET_SDL_RecvPacket` when no connection is pending and
slot `i` is the first ready one, holding a whole frame. -/
theorem recvServer_frame (b : Build) (st : Stack) (g : Globals) (n : Net) (reg : Registry)
    (set : List TCPsocket) (i : Nat) (conn : TCPsocket) (pre more : List Nat)
    (hw : 32 ≤ b.size_t_bits)
    (hserver : g.serversocketSet = some set)
    (hbacklog : n.backlog = [])
    (hactive : 0 < SDLNet_CheckSockets n set)
    (hi : i < MAX_SOCKETS)
    (hslot : g.serverconnections.getD i none = some conn)
    (hready : SDLNet_SocketReady n conn = true)
    (hbefore : ∀ j, j < i → ∀ c, g.serverconnections.getD j none = some c →
      SDLNet_SocketReady n c = false)
    (hin : n.inbound conn = [RecvEvent.bytes (pre ++ more)])
    (hpre : pre.length = 4)
    (hmax : load32 b.big_endian pre ≤ MAX_PACKET_SIZE)
    (hmore : load32 b.big_endian pre ≤ more.length) :
    ∃ addr n1 reg1, NET_SDL_RecvPacket b st g n reg
        = (Outcome.received addr
            ⟨more.take (load32 b.big_endian pre), load32 b.big_endian pre⟩, g, n1, reg1)
      ∧ n1.allocs = n.allocs ++ [load32 b.big_endian pre + 4, load32 b.big_endian pre]
      ∧ n1.closed = n.closed := by
  unfold NET_SDL_RecvPacket
  simp only [hserver, hbacklog, acceptLoop, Option.getD_some]
  rw [if_neg (by omega)]
  have hsplit : MAX_SOCKETS = i + ((MAX_SOCKETS - i - 1) + 1) := by omega
  rw [hsplit, recvLoop_skip b g n reg st.length_expected i _ 0
    (fun j _ h2 c hc => hbefore j (by omega) c hc), Nat.zero_add]
  exact recvLoop_frame b g n reg _ i _ conn pre more hw hslot hready hin hpre hmax hmore

/-- What the frame-reading loop of the server leaves alone: the slots below the
one it starts at, the sockets already closed, the length of the slot table and,
when `ALLOW_REENTRY` is off, the recorded origins. -/
theorem recvLoop_keeps (b : Build) (fuel : Nat) :
    ∀ (i : Nat) (g : Globals) (n : Net) (reg : Registry) (le : Nat),
      (∀ j, j < i → (recvLoop b fuel i g n reg le).2.1.serverconnections.getD j none
          = g.serverconnections.getD j none)
      ∧ (∃ extra, (recvLoop b fuel i g n reg le).2.2.1.closed = n.closed ++ extra)
      ∧ (b.ALLOW_REENTRY = false →
          (recvLoop b fuel i g n reg le).2.1.actual_ip_list = g.actual_ip_list) := by
  induction fuel with
  | zero =>
    intro i g n reg le
    exact ⟨fun _ _ => rfl, ⟨[], by simp [recvLoop]⟩, fun _ => rfl⟩
  | succ fuel ih =>
    intro i g n reg le
    have hdrop : ∀ (n1 : Net) (conn : TCPsocket) (L : Nat), n1.closed = n.closed →
        (∀ j, j < i → (recvLoop b fuel (i + 1) (dropSlot b g n1 i conn).1
            (dropSlot b g n1 i conn).2 reg L).2.1.serverconnections.getD j none
          = g.serverconnections.getD j none)
        ∧ (∃ extra, (recvLoop b fuel (i + 1) (dropSlot b g n1 i conn).1
            (dropSlot b g n1 i conn).2 reg L).2.2.1.closed = n.closed ++ extra)
        ∧ (b.ALLOW_REENTRY = false →
            (recvLoop b fuel (i + 1) (dropSlot b g n1 i conn).1
              (dropSlot b g n1 i conn).2 reg L).2.1.actual_ip_list = g.actual_ip_list) := by
      intro n1 conn L hc
      obtain ⟨h1, ⟨extra, h2⟩, h3⟩ := ih (i + 1) (dropSlot b g n1 i conn).1
        (dropSlot b g n1 i conn).2 reg L
      refine ⟨?_, ⟨conn :: extra, ?_⟩, ?_⟩
      · intro j hj
        rw [h1 j (by omega)]
        simp only [dropSlot, List.getD_eq_getElem?_getD]
        rw [List.getElem?_set_ne (by omega)]
      · rw [h2]
        simp [dropSlot, SDLNet_TCP_Close, hc]
      · intro hre
        rw [h3 hre]
        simp [dropSlot, hre]
    unfold recvLoop
    split
    · obtain ⟨h1, h2, h3⟩ := ih (i + 1) g n reg le
      exact ⟨fun j hj => h1 j (by omega), h2, h3⟩
    · rename_i conn hconn
      split
      · obtain ⟨h1, h2, h3⟩ := ih (i + 1) g n reg le
        exact ⟨fun j hj => h1 j (by omega), h2, h3⟩
      · have ha := (recv_allocs n conn 4).2
        generalize SDLNet_TCP_Recv n conn 4 = r1 at ha
        obtain ⟨length_recv, got, n1⟩ := r1
        simp only at ha ⊢
        split
        · exact hdrop n1 conn _ ha
        · generalize load32 b.big_endian (overlay (store32 b.big_endian le) got) = L
          have hb := (recv_allocs (n1.alloc (L + 4)) conn L).2
          generalize SDLNet_TCP_Recv (n1.alloc (L + 4)) conn L = r2 at hb
          obtain ⟨length_recv2, got2, n2⟩ := r2
          simp only at hb ⊢
          have hc2 : n2.closed = n.closed := by rw [hb]; simpa [Net.alloc] using ha
          split
          · exact hdrop n2 conn _ hc2
          · split
            · exact ⟨fun _ _ => rfl, ⟨[], by simp [hc2]⟩, fun _ => rfl⟩
            · exact ⟨fun _ _ => rfl, ⟨[], by simp [Net.alloc, hc2]⟩, fun _ => rfl⟩

/-- The server path of `NET_SDL_RecvPacket` when no connection is pending and
slot `i` is the first ready one, its stream declaring more than
`MAX_PACKET_SIZE`: slot `i` is empty afterwards and its socket is closed. -/
theorem recvServer_oversize (b : Build) (st : Stack) (g : Globals) (n : Net) (reg : Registry)
    (set : List TCPsocket) (i : Nat) (conn : TCPsocket) (pre more : List Nat)
    (rest : List RecvEvent)
    (hserver : g.serversocketSet = some set)
    (hbacklog : n.backlog = [])
    (hactive : 0 < SDLNet_CheckSockets n set)
    (hi : i < MAX_SOCKETS)
    (hslot : g.serverconnections.getD i none = some conn)
    (hready : SDLNet_SocketReady n conn = true)
    (hbefore : ∀ j, j < i → ∀ c, g.serverconnections.getD j none = some c →
      SDLNet_SocketReady n c = false)
    (hin : n.inbound conn = RecvEvent.bytes (pre ++ more) :: rest)
    (hpre : pre.length = 4)
    (hbig : MAX_PACKET_SIZE < load32 b.big_endian pre) :
    (NET_SDL_RecvPacket b st g n reg).2.1.serverconnections.getD i none = none
    ∧ conn ∈ (NET_SDL_RecvPacket b st g n reg).2.2.1.closed
    ∧ ∃ n1, n1.allocs = n.allocs
        ∧ NET_SDL_RecvPacket b st g n reg
          = recvLoop b (MAX_SOCKETS - i - 1) (i + 1) (dropSlot b g n1 i conn).1
              (dropSlot b g n1 i conn).2 reg (load32 b.big_endian pre) := by
  obtain ⟨n1, ha1, hc1, hstep⟩ := recvLoop_oversize b g n reg (MAX_SOCKETS - i - 1) i
    st.length_expected conn pre more rest hslot hready hin hpre hbig
  have hcall : NET_SDL_RecvPacket b st g n reg
      = recvLoop b (MAX_SOCKETS - i - 1) (i + 1) (dropSlot b g n1 i conn).1
          (dropSlot b g n1 i conn).2 reg (load32 b.big_endian pre) := by
    rw [← hstep]
    unfold NET_SDL_RecvPacket
    simp only [hserver, hbacklog, acceptLoop, Option.getD_some]
    rw [if_neg (by omega)]
    have hsplit : MAX_SOCKETS = i + ((MAX_SOCKETS - i - 1) + 1) := by omega
    conv => lhs; rw [hsplit]
    rw [recvLoop_skip b g n reg st.length_expected i _ 0
      (fun j _ h2 c hc => hbefore j (by omega) c hc), Nat.zero_add]
  obtain ⟨h1, ⟨extra, h2⟩, -⟩ := recvLoop_keeps b (MAX_SOCKETS - i - 1) (i + 1)
    (dropSlot b g n1 i conn).1 (dropSlot b g n1 i conn).2 reg (load32 b.big_endian pre)
  have hlen : i < g.serverconnections.length := by
    by_contra hge
    rw [List.getD_eq_getElem?_getD, List.getElem?_eq_none (by omega)] at hslot
    simp at hslot
  refine ⟨?_, ?_, n1, ha1, hcall⟩
  · rw [hcall, h1 i (by omega)]
    simp [dropSlot, List.getD_eq_getElem?_getD, List.getElem?_set_self hlen]
  · rw [hcall, h2]
    simp [dropSlot, SDLNet_TCP_Close]

/-! ## Claims on framing -/

/-- C1. Frame round trip: for every payload of length `n` with `n ≤ 1500`, the
bytes `NET_SDL_SendPacket` writes on the client path are the four bytes of `n`
followed by the payload, and when exactly these bytes are what the receiving
socket delivers, `NET_SDL_RecvPacket` returns a packet whose `len` is `n` and
whose data are the payload, on the client path and on the server path.  (Sender
and receiver are built alike: the length field travels in the byte order of the
host.) -/
theorem frame_round_trip (b : Build) (st : Stack) (payload : List Nat)
    (gs gr gv : Globals) (ns nr nv : Net) (dest : IPaddress) (reg : Registry)
    (set : List TCPsocket) (i : Nat) (conn : TCPsocket)
    (hw : 32 ≤ b.size_t_bits)
    (hlen : payload.length ≤ MAX_PACKET_SIZE)
    (hs_client : gs.serversocketSet = none)
    (hs_room : ns.room gs.tcpsocket = none)
    (hs_sent : ns.sent gs.tcpsocket = [])
    (hr_client : gr.serversocketSet = none)
    (hr_ready : 1 ≤ SDLNet_CheckSockets nr (gr.clientsocketSet.getD []))
    (hr_in : nr.inbound gr.tcpsocket = [RecvEvent.bytes
      ((NET_SDL_SendPacket b gs ns dest ⟨payload, payload.length⟩).2.2.sent gs.tcpsocket)])
    (hv_server : gv.serversocketSet = some set)
    (hv_backlog : nv.backlog = [])
    (hv_active : 0 < SDLNet_CheckSockets nv set)
    (hv_i : i < MAX_SOCKETS)
    (hv_slot : gv.serverconnections.getD i none = some conn)
    (hv_ready : SDLNet_SocketReady nv conn = true)
    (hv_before : ∀ j, j < i → ∀ c, gv.serverconnections.getD j none = some c →
      SDLNet_SocketReady nv c = false)
    (hv_in : nv.inbound conn = [RecvEvent.bytes
      ((NET_SDL_SendPacket b gs ns dest ⟨payload, payload.length⟩).2.2.sent gs.tcpsocket)]) :
    (NET_SDL_SendPacket b gs ns dest ⟨payload, payload.length⟩).1 = none
    ∧ (NET_SDL_SendPacket b gs ns dest ⟨payload, payload.length⟩).2.2.sent gs.tcpsocket
        = store32 b.big_endian payload.length ++ payload
    ∧ (∃ addr, (NET_SDL_RecvPacket b st gr nr reg).1
        = Outcome.received addr ⟨payload, payload.length⟩)
    ∧ (∃ addr, (NET_SDL_RecvPacket b st gv nv reg).1
        = Outcome.received addr ⟨payload, payload.length⟩) := by
  have hL : payload.length < 4294967296 := by unfold MAX_PACKET_SIZE at hlen; omega
  obtain ⟨n1, hsend, hsent⟩ := sendClient_frame b gs ns dest payload hw hL hs_client hs_room
  rw [hs_sent, List.nil_append] at hsent
  rw [hsend] at hr_in hv_in
  simp only [hsent] at hr_in hv_in
  have hld : load32 b.big_endian (store32 b.big_endian payload.length) = payload.length :=
    load32_store32 _ _ hL
  refine ⟨by rw [hsend], by rw [hsend]; exact hsent, ?_, ?_⟩
  · obtain ⟨addr, n2, reg2, h, -⟩ := recvClient_frame b gr nr reg
      (store32 b.big_endian payload.length) payload hw hr_ready hr_in (store32_length _ _)
      (by rw [hld]; exact hlen) (by rw [hld])
    refine ⟨addr, ?_⟩
    unfold NET_SDL_RecvPacket
    rw [hr_client]
    simp only [h, hld, List.take_length]
  · obtain ⟨addr, n2, reg2, h, -⟩ := recvServer_frame b st gv nv reg set i conn
      (store32 b.big_endian payload.length) payload hw hv_server hv_backlog hv_active hv_i
      hv_slot hv_ready hv_before hv_in (store32_length _ _)
      (by rw [hld]; exact hlen) (by rw [hld])
    exact ⟨addr, by simp only [h, hld, List.take_length]⟩

theorem frame_round_trip_witness :
    (NET_SDL_SendPacket lp64 sampleClient quiet ⟨0, 0⟩ ⟨[72, 105], 2⟩).2.2.sent 7
        = [2, 0, 0, 0, 72, 105]
    ∧ (∃ addr, (NET_SDL_RecvPacket lp64 zeroStack sampleClient
          (delivering [2, 0, 0, 0, 72, 105]) Registry.start).1
        = Outcome.received addr ⟨[72, 105], 2⟩)
    ∧ (∃ addr, (NET_SDL_RecvPacket lp64 zeroStack sampleServer
          (delivering [2, 0, 0, 0, 72, 105]) Registry.start).1
        = Outcome.received addr ⟨[72, 105], 2⟩) :=
  (frame_round_trip lp64 zeroStack [72, 105] sampleClient sampleClient sampleServer
    quiet (delivering [2, 0, 0, 0, 72, 105]) (delivering [2, 0, 0, 0, 72, 105]) ⟨0, 0⟩
    Registry.start [5] 0 5
    (by decide) (by decide) rfl rfl rfl rfl (by decide) (by decide) rfl rfl (by decide)
    (by decide) (by decide) rfl (fun j hj => absurd hj (Nat.not_lt_zero j)) (by decide)).2

/-- C2. Oversize rejection: let `L` be the length the four-byte field `pre`
declares.  When `L > 1500` the client path ends in the fatal error with nothing
allocated, and the server path empties the slot and closes its socket with
nothing allocated before it goes on to the later slots; a packet is returned
from that stream only if `L ≤ 1500`; when `L ≤ 1500` (so also for `L = 1500`)
and the payload is there, the frame is returned; and no call ever requests a
buffer larger than `MAX_PACKET_SIZE + 4`, whatever the peers declare. -/
theorem oversize_rejection (b : Build) (st : Stack) (gc gv : Globals) (nc nv : Net)
    (reg : Registry) (set : List TCPsocket) (i : Nat) (conn : TCPsocket)
    (pre more : List Nat)
    (hw : 32 ≤ b.size_t_bits)
    (hpre : pre.length = 4)
    (hc_client : gc.serversocketSet = none)
    (hc_ready : 1 ≤ SDLNet_CheckSockets nc (gc.clientsocketSet.getD []))
    (hc_in : nc.inbound gc.tcpsocket = [RecvEvent.bytes (pre ++ more)])
    (hv_server : gv.serversocketSet = some set)
    (hv_backlog : nv.backlog = [])
    (hv_active : 0 < SDLNet_CheckSockets nv set)
    (hv_i : i < MAX_SOCKETS)
    (hv_slot : gv.serverconnections.getD i none = some conn)
    (hv_ready : SDLNet_SocketReady nv conn = true)
    (hv_before : ∀ j, j < i → ∀ c, gv.serverconnections.getD j none = some c →
      SDLNet_SocketReady nv c = false)
    (hv_in : nv.inbound conn = [RecvEvent.bytes (pre ++ more)]) :
    (MAX_PACKET_SIZE < load32 b.big_endian pre →
      (∃ n1, NET_SDL_RecvPacket b st gc nc reg = (Outcome.fatal Fatal.receiving_2, gc, n1, reg)
        ∧ n1.allocs = nc.allocs)
      ∧ (NET_SDL_RecvPacket b st gv nv reg).2.1.serverconnections.getD i none = none
      ∧ conn ∈ (NET_SDL_RecvPacket b st gv nv reg).2.2.1.closed
      ∧ ∃ n1, n1.allocs = nv.allocs
          ∧ NET_SDL_RecvPacket b st gv nv reg
            = recvLoop b (MAX_SOCKETS - i - 1) (i + 1) (dropSlot b gv n1 i conn).1
                (dropSlot b gv n1 i conn).2 reg (load32 b.big_endian pre))
    ∧ (∀ addr packet, (NET_SDL_RecvPacket b st gc nc reg).1 = Outcome.received addr packet →
        load32 b.big_endian pre ≤ MAX_PACKET_SIZE)
    ∧ (load32 b.big_endian pre ≤ MAX_PACKET_SIZE → load32 b.big_endian pre ≤ more.length →
        (∃ addr, (NET_SDL_RecvPacket b st gc nc reg).1 = Outcome.received addr
          ⟨more.take (load32 b.big_endian pre), load32 b.big_endian pre⟩)
        ∧ (∃ addr, (NET_SDL_RecvPacket b st gv nv reg).1 = Outcome.received addr
          ⟨more.take (load32 b.big_endian pre), load32 b.big_endian pre⟩))
    ∧ (∀ (g : Globals) (n : Net),
        ∃ extra, (NET_SDL_RecvPacket b st g n reg).2.2.1.allocs = n.allocs ++ extra
          ∧ ∀ a ∈ extra, a ≤ MAX_PACKET_SIZE + 4) := by
  have hclient : NET_SDL_RecvPacket b st gc nc reg = recvClient b gc nc reg := by
    unfold NET_SDL_RecvPacket
    rw [hc_client]
  have hover : MAX_PACKET_SIZE < load32 b.big_endian pre →
      ∃ n1, NET_SDL_RecvPacket b st gc nc reg = (Outcome.fatal Fatal.receiving_2, gc, n1, reg)
        ∧ n1.allocs = nc.allocs := by
    intro hbig
    rw [hclient]
    exact recvClient_oversize b gc nc reg pre more [] hw hc_ready hc_in hpre hbig
  refine ⟨?_, ?_, ?_, ?_⟩
  · intro hbig
    exact ⟨hover hbig, recvServer_oversize b st gv nv reg set i conn pre more [] hv_server
      hv_backlog hv_active hv_i hv_slot hv_ready hv_before hv_in hpre hbig⟩
  · intro addr packet hrecv
    by_contra hbig
    obtain ⟨n1, h, -⟩ := hover (by omega)
    rw [h] at hrecv
    cases hrecv
  · intro hmax hmore
    constructor
    · obtain ⟨addr, n1, reg1, h, -⟩ :=
        recvClient_frame b gc nc reg pre more hw hc_ready hc_in hpre hmax hmore
      exact ⟨addr, by rw [hclient, h]⟩
    · obtain ⟨addr, n1, reg1, h, -⟩ := recvServer_frame b st gv nv reg set i conn pre more hw
        hv_server hv_backlog hv_active hv_i hv_slot hv_ready hv_before hv_in hpre hmax hmore
      exact ⟨addr, by rw [h]⟩
  · intro g n
    exact recvPacket_allocs b st g n reg

theorem oversize_rejection_witness :
    ((∃ n1, NET_SDL_RecvPacket lp64 zeroStack sampleClient (delivering [221, 5, 0, 0])
          Registry.start
        = (Outcome.fatal Fatal.receiving_2, sampleClient, n1, Registry.start)
      ∧ n1.allocs = [])
    ∧ (NET_SDL_RecvPacket lp64 zeroStack sampleServer (delivering [221, 5, 0, 0])
        Registry.start).2.1.serverconnections.getD 0 none = none
    ∧ 5 ∈ (NET_SDL_RecvPacket lp64 zeroStack sampleServer (delivering [221, 5, 0, 0])
        Registry.start).2.2.1.closed)
    ∧ ((∃ addr, (NET_SDL_RecvPacket lp64 zeroStack sampleClient
          (delivering ([220, 5, 0, 0] ++ List.replicate 1500 0)) Registry.start).1
        = Outcome.received addr ⟨(List.replicate 1500 0).take 1500, 1500⟩)
      ∧ (∃ addr, (NET_SDL_RecvPacket lp64 zeroStack sampleServer
          (delivering ([220, 5, 0, 0] ++ List.replicate 1500 0)) Registry.start).1
        = Outcome.received addr ⟨(List.replicate 1500 0).take 1500, 1500⟩)) :=
  have h := (oversize_rejection lp64 zeroStack sampleClient sampleServer
    (delivering [221, 5, 0, 0]) (delivering [221, 5, 0, 0]) Registry.start [5] 0 5
    [221, 5, 0, 0] [] (by decide) rfl rfl (by decide) rfl rfl rfl (by decide) (by decide)
    rfl rfl (fun j hj => absurd hj (Nat.not_lt_zero j)) rfl).1 (by decide)
  have k := (oversize_rejection lp64 zeroStack sampleClient sampleServer
    (delivering ([220, 5, 0, 0] ++ List.replicate 1500 0))
    (delivering ([220, 5, 0, 0] ++ List.replicate 1500 0)) Registry.start [5] 0 5
    [220, 5, 0, 0] (List.replicate 1500 0) (by decide) rfl rfl (by decide) rfl rfl rfl
    (by decide) (by decide) rfl rfl (fun j hj => absurd hj (Nat.not_lt_zero j)) rfl).2.2.1
    (by decide) (by rw [List.length_replicate]; decide)
  ⟨⟨h.1, h.2.1, h.2.2.1⟩, k⟩

/-! ## Short reads on the server -/

theorem to_size_t_nonneg (b : Build) (hw : 32 ≤ b.size_t_bits) (r : Int) (h0 : 0 ≤ r)
    (h4 : r < 4) : to_size_t b r < 4 := by
  have h2 := two_pow_size_t_ge b hw
  obtain ⟨k, hk⟩ := Int.eq_ofNat_of_zero_le h0
  subst hk
  rw [to_size_t_natCast b k (by omega)]
  omega

/-- A length read that returns a count from 0 to 3 drops the slot: nothing is
returned from it and the loop goes on with the next slot. -/
theorem recvLoop_short_length (b : Build) (g : Globals) (n : Net) (reg : Registry)
    (fuel i le : Nat) (conn : TCPsocket) (hw : 32 ≤ b.size_t_bits)
    (hslot : g.serverconnections.getD i none = some conn)
    (hready : SDLNet_SocketReady n conn = true)
    (h0 : 0 ≤ (SDLNet_TCP_Recv n conn 4).1) (h4 : (SDLNet_TCP_Recv n conn 4).1 < 4) :
    recvLoop b (fuel + 1) i g n reg le
      = recvLoop b fuel (i + 1) (dropSlot b g (SDLNet_TCP_Recv n conn 4).2.2 i conn).1
          (dropSlot b g (SDLNet_TCP_Recv n conn 4).2.2 i conn).2 reg
          (load32 b.big_endian
            (overlay (store32 b.big_endian le) (SDLNet_TCP_Recv n conn 4).2.1)) := by
  have hlt := to_size_t_nonneg b hw _ h0 h4
  conv => lhs; unfold recvLoop
  rw [hslot]
  simp only [hready, Bool.not_true, Bool.false_eq_true, if_false]
  generalize SDLNet_TCP_Recv n conn 4 = r at hlt ⊢
  obtain ⟨length_recv, got, n1⟩ := r
  simp only at hlt ⊢
  simp only [hlt, decide_True, Bool.true_or, if_true]

/-- A payload read that returns a count from 0 to one less than the declared
length drops the slot: nothing is returned from it and the loop goes on with
the next slot. -/
theorem recvLoop_short_payload (b : Build) (g : Globals) (n n1 n2 : Net) (reg : Registry)
    (fuel i le : Nat) (conn : TCPsocket) (pre got : List Nat) (r : Int)
    (hw : 32 ≤ b.size_t_bits)
    (hslot : g.serverconnections.getD i none = some conn)
    (hready : SDLNet_SocketReady n conn = true)
    (hpre : pre.length = 4)
    (hmax : load32 b.big_endian pre ≤ MAX_PACKET_SIZE)
    (hread1 : SDLNet_TCP_Recv n conn 4 = (4, pre, n1))
    (hread2 : SDLNet_TCP_Recv (n1.alloc (load32 b.big_endian pre + 4)) conn
      (load32 b.big_endian pre) = (r, got, n2))
    (h0 : 0 ≤ r) (hshort : r < (load32 b.big_endian pre : Int)) :
    recvLoop b (fuel + 1) i g n reg le
      = recvLoop b fuel (i + 1) (dropSlot b g n2 i conn).1 (dropSlot b g n2 i conn).2 reg
          (load32 b.big_endian pre) := by
  have e4 := to_size_t_four b hw
  have hL := load32_lt b.big_endian pre
  have hov : overlay (store32 b.big_endian le) pre = pre :=
    overlay_full _ _ (by rw [hpre, store32_length])
  have hnot : ¬ load32 b.big_endian pre > MAX_PACKET_SIZE := by omega
  obtain ⟨k, hk⟩ := Int.eq_ofNat_of_zero_le h0
  subst hk
  have hlt : to_uint32 (k : Int) < load32 b.big_endian pre := by
    rw [to_uint32_natCast k (by omega)]
    omega
  conv => lhs; unfold recvLoop
  rw [hslot]
  simp only [hready, Bool.not_true, Bool.false_eq_true, if_false, hread1]
  simp only [hov, e4, lt_irrefl, hnot, decide_False, Bool.or_self, Bool.false_eq_true, if_false,
    hread2, hlt, if_true]

/-! ## Claims on the server's error handling -/

/-- C3. Server frame-error isolation fails for the error return of the read
primitive.  Slot 0 holds a ready connection.  (1) Its stream declares ten bytes
and the payload read returns `-1`: the `int` is compared as a `uint32_t`, the
slot is not closed and a packet with `len = 2^64 - 1` is returned from it.
(2) Its length read and its payload read both return `-1`: the first `int` is
compared as a `size_t`, and again the slot is not closed and a packet is
returned from it. -/
theorem server_error_return_not_isolated :
    ((NET_SDL_RecvPacket lp64 zeroStack sampleServer
        (scripted [RecvEvent.bytes [10, 0, 0, 0], RecvEvent.error]) Registry.start).1
      = Outcome.received 1 ⟨List.replicate 10 0, 18446744073709551615⟩
    ∧ (NET_SDL_RecvPacket lp64 zeroStack sampleServer
        (scripted [RecvEvent.bytes [10, 0, 0, 0], RecvEvent.error])
        Registry.start).2.1.serverconnections.getD 0 none = some 5
    ∧ (NET_SDL_RecvPacket lp64 zeroStack sampleServer
        (scripted [RecvEvent.bytes [10, 0, 0, 0], RecvEvent.error])
        Registry.start).2.2.1.closed = [])
    ∧ ((NET_SDL_RecvPacket lp64 zeroStack sampleServer
        (scripted [RecvEvent.error, RecvEvent.error]) Registry.start).1
      = Outcome.received 1 ⟨[], 18446744073709551615⟩
    ∧ (NET_SDL_RecvPacket lp64 zeroStack sampleServer
        (scripted [RecvEvent.error, RecvEvent.error])
        Registry.start).2.1.serverconnections.getD 0 none = some 5
    ∧ (NET_SDL_RecvPacket lp64 zeroStack sampleServer
        (scripted [RecvEvent.error, RecvEvent.error]) Registry.start).2.2.1.closed = []) := by
  decide

/-! ## Lemmas on the address table -/

theorem AddressesEqual_iff (a b : IPaddress) : AddressesEqual a b = true ↔ a = b := by
  cases a; cases b
  simp [AddressesEqual]

theorem findLoop_inl_iff (e : IPaddress) (t : List (Option addrpair_t)) :
    ∀ (i : Nat) (em : Int) (h : Nat),
      findLoop e t i em = Sum.inl h ↔ firstHandle e t = some h := by
  induction t with
  | nil => intro i em h; simp [findLoop, firstHandle]
  | cons s rest ih =>
    intro i em h
    cases s with
    | none => simp only [findLoop, firstHandle]; exact ih _ _ _
    | some p =>
      simp only [findLoop, firstHandle]
      split
      · simp
      · exact ih _ _ _

theorem findLoop_inr (e : IPaddress) (t : List (Option addrpair_t)) :
    ∀ (i : Nat) (em x : Int), findLoop e t i em = Sum.inr x →
      firstHandle e t = none ∧ (∀ s ∈ t, holds e s = false)
      ∧ (0 ≤ em → x = em)
      ∧ (em < 0 → (x < 0 ∧ ∀ s ∈ t, s ≠ none)
          ∨ ∃ k : Nat, x = (i : Int) + k ∧ t.getD k (some ⟨0, e⟩) = none) := by
  induction t with
  | nil =>
    intro i em x h
    simp only [findLoop, Sum.inr.injEq] at h
    subst h
    refine ⟨rfl, by simp, fun _ => rfl, fun hneg => Or.inl ⟨hneg, by simp⟩⟩
  | cons s rest ih =>
    intro i em x h
    cases s with
    | none =>
      simp only [findLoop] at h
      obtain ⟨h1, h2, h3, h4⟩ := ih _ _ _ h
      refine ⟨h1, ?_, ?_, ?_⟩
      · intro s hs
        rcases List.mem_cons.mp hs with hs | hs
        · subst hs; rfl
        · exact h2 s hs
      · intro hem
        rw [if_neg (by omega)] at h3
        exact h3 hem
      · intro hem
        rw [if_pos hem] at h3
        refine Or.inr ⟨0, ?_, rfl⟩
        have := h3 (Int.natCast_nonneg i)
        omega
    | some p =>
      simp only [findLoop] at h
      split at h
      · cases h
      · rename_i hne
        obtain ⟨h1, h2, h3, h4⟩ := ih _ _ _ h
        refine ⟨?_, ?_, h3, ?_⟩
        · simp only [firstHandle, hne]
          exact h1
        · intro s hs
          rcases List.mem_cons.mp hs with hs | hs
          · subst hs; simpa [holds] using hne
          · exact h2 s hs
        · intro hem
          rcases h4 hem with ⟨hx, hall⟩ | ⟨k, hk, hget⟩
          · refine Or.inl ⟨hx, ?_⟩
            intro s hs
            rcases List.mem_cons.mp hs with hs | hs
            · subst hs; simp
            · exact hall s hs
          · refine Or.inr ⟨k + 1, ?_, ?_⟩
            · push_cast at hk ⊢; omega
            · simpa using hget

theorem findLoop_full (e : IPaddress) (t : List (Option addrpair_t)) :
    ∀ (i : Nat) (em : Int), (∀ s ∈ t, s ≠ none ∧ holds e s = false) →
      findLoop e t i em = Sum.inr em := by
  induction t with
  | nil => intro i em _; rfl
  | cons s rest ih =>
    intro i em h
    have hs := h s (List.mem_cons_self _ _)
    cases s with
    | none => exact absurd rfl hs.1
    | some p =>
      have hp : AddressesEqual e p.sdl_addr = false := by simpa [holds] using hs.2
      simp only [findLoop, hp, Bool.false_eq_true, if_false]
      exact ih _ _ (fun s hs => h s (List.mem_cons_of_mem _ hs))

theorem firstHandle_set (e : IPaddress) (q : addrpair_t) (hq : holds e (some q) = false)
    (t : List (Option addrpair_t)) :
    ∀ (k : Nat), t.getD k none = none →
      firstHandle e (t.set k (some q)) = firstHandle e t := by
  induction t with
  | nil => intro k _; rfl
  | cons s rest ih =>
    intro k hk
    cases k with
    | zero =>
      simp only [List.getD_cons_zero] at hk
      subst hk
      have hq1 : AddressesEqual e q.sdl_addr = false := by simpa [holds] using hq
      simp [firstHandle, hq1]
    | succ k =>
      simp only [List.getD_cons_succ] at hk
      cases s with
      | none => simp only [List.set_cons_succ, firstHandle]; exact ih k hk
      | some p => simp only [List.set_cons_succ, firstHandle]; rw [ih k hk]

theorem firstHandle_append_none (e : IPaddress) (m : Nat) (t : List (Option addrpair_t)) :
    firstHandle e (t ++ List.replicate m none) = firstHandle e t := by
  induction t with
  | nil =>
    induction m with
    | zero => rfl
    | succ m ihm => simpa [List.replicate_succ, firstHandle] using ihm
  | cons s rest ih =>
    cases s with
    | none => simpa [firstHandle] using ih
    | some p => simp [firstHandle, ih]

theorem firstHandle_set_new (e : IPaddress) (z : Nat) (t : List (Option addrpair_t)) :
    ∀ (k : Nat), t.getD k (some ⟨0, e⟩) = none → firstHandle e t = none →
      firstHandle e (t.set k (some ⟨z, e⟩)) = some z := by
  induction t with
  | nil => intro k hk _; simp at hk
  | cons s rest ih =>
    intro k hk hnone
    cases k with
    | zero =>
      have hee : AddressesEqual e e = true := (AddressesEqual_iff e e).mpr rfl
      simp [firstHandle, hee]
    | succ k =>
      simp only [List.getD_cons_succ] at hk
      cases s with
      | none =>
        simp only [firstHandle] at hnone
        simp only [List.set_cons_succ, firstHandle]
        exact ih k hk hnone
      | some p =>
        simp only [firstHandle] at hnone
        split at hnone
        · cases hnone
        · rename_i hne
          simp only [List.set_cons_succ, firstHandle, hne]
          exact ih k hk hnone

theorem getD_none_of_getD_some (t : List (Option addrpair_t)) (k : Nat) (d : addrpair_t)
    (h : t.getD k (some d) = none) : t.getD k none = none ∧ k < t.length := by
  rw [List.getD_eq_getElem?_getD] at h ⊢
  cases hk : t[k]? with
  | none => rw [hk] at h; simp at h
  | some v =>
    rw [hk] at h
    simp only [Option.getD_some] at h ⊢
    exact ⟨h, (List.getElem?_eq_some_iff.mp hk).1⟩

theorem countP_holds_set (e : IPaddress) (v : Option addrpair_t)
    (t : List (Option addrpair_t)) :
    ∀ (k : Nat), t.getD k none = none →
      (t.set k v).countP (holds e) ≤ t.countP (holds e) + 1
      ∧ (holds e v = false → (t.set k v).countP (holds e) = t.countP (holds e)) := by
  induction t with
  | nil => intro k _; simp
  | cons s rest ih =>
    intro k hk
    cases k with
    | zero =>
      simp only [List.getD_cons_zero] at hk
      subst hk
      have hn : holds e none = false := rfl
      simp only [List.set_cons_zero, List.countP_cons, hn]
      constructor
      · split <;> simp
      · intro hv; simp [hv]
    | succ k =>
      simp only [List.getD_cons_succ] at hk
      obtain ⟨h1, h2⟩ := ih k hk
      simp only [List.set_cons_succ, List.countP_cons]
      exact ⟨by omega, fun hv => by rw [h2 hv]⟩

theorem countP_holds_append_none (e : IPaddress) (m : Nat) (t : List (Option addrpair_t)) :
    (t ++ List.replicate m none).countP (holds e) = t.countP (holds e) := by
  rw [List.countP_append]
  have : (List.replicate m (none : Option addrpair_t)).countP (holds e) = 0 := by
    rw [List.countP_eq_zero]
    intro s hs
    rw [List.eq_of_mem_replicate hs]
    simp [holds]
  omega

/-- What the loop of `NET_SDL_FreeAddress` does when it finds the handle: the
first slot that carries it is cleared, the rest is as before. -/
theorem freeLoop_some (h : Nat) (t : List (Option addrpair_t)) :
    ∀ (t1 : List (Option addrpair_t)), freeLoop h t = some t1 →
      ∃ k, k < t.length ∧ carries h (t.getD k none) = true
        ∧ (∀ j, j < k → carries h (t.getD j none) = false)
        ∧ t1 = t.set k none := by
  induction t with
  | nil => intro t1 ht; simp [freeLoop] at ht
  | cons s rest ih =>
    intro t1 ht
    have hnext : ∀ (t2 : List (Option addrpair_t)), carries h s = false →
        freeLoop h rest = some t2 → t1 = s :: t2 →
        ∃ k, k < (s :: rest).length ∧ carries h ((s :: rest).getD k none) = true
          ∧ (∀ j, j < k → carries h ((s :: rest).getD j none) = false)
          ∧ t1 = (s :: rest).set k none := by
      intro t2 hs h2 ht1
      obtain ⟨k, hk1, hk2, hk3, hk4⟩ := ih t2 h2
      refine ⟨k + 1, by simp; omega, by simpa using hk2, ?_, by simp [ht1, hk4]⟩
      intro j hj
      cases j with
      | zero => simpa using hs
      | succ j => simpa using hk3 j (by omega)
    cases s with
    | none =>
      simp only [freeLoop, Option.map_eq_some'] at ht
      obtain ⟨t2, h2, ht1⟩ := ht
      exact hnext t2 rfl h2 ht1.symm
    | some p =>
      simp only [freeLoop] at ht
      split at ht
      · rename_i heq
        cases ht
        exact ⟨0, by simp, by simp [carries, heq], fun j hj => absurd hj (Nat.not_lt_zero j),
          rfl⟩
      · rename_i hne
        simp only [Option.map_eq_some'] at ht
        obtain ⟨t2, h2, ht1⟩ := ht
        exact hnext t2 (by simpa [carries] using hne) h2 ht1.symm

theorem freeLoop_none_iff (h : Nat) (t : List (Option addrpair_t)) :
    freeLoop h t = none ↔ ∀ s ∈ t, carries h s = false := by
  induction t with
  | nil => simp [freeLoop]
  | cons s rest ih =>
    cases s with
    | none => simp [freeLoop, ih, carries]
    | some p =>
      simp only [freeLoop]
      split
      · rename_i heq
        simp [carries, heq]
      · rename_i hne
        simp [ih, carries, hne]

theorem firstHandle_clear (e : IPaddress) (h : Nat) (t : List (Option addrpair_t)) :
    ∀ (k : Nat), firstHandle e t = some h → carries h (t.getD k none) = false →
      firstHandle e (t.set k none) = some h := by
  induction t with
  | nil => intro k hf _; simp [firstHandle] at hf
  | cons s rest ih =>
    intro k hf hk
    cases k with
    | zero =>
      simp only [List.getD_cons_zero] at hk
      cases s with
      | none => simpa [firstHandle] using hf
      | some p =>
        simp only [firstHandle] at hf
        split at hf
        · cases hf
          simp [carries] at hk
        · simpa [firstHandle] using hf
    | succ k =>
      simp only [List.getD_cons_succ] at hk
      cases s with
      | none =>
        simp only [firstHandle] at hf
        simp only [List.set_cons_succ, firstHandle]
        exact ih k hf hk
      | some p =>
        simp only [firstHandle] at hf
        simp only [List.set_cons_succ, firstHandle]
        split
        · rename_i heq
          simpa [heq] using hf
        · rename_i hne
          rw [if_neg hne] at hf
          exact ih k hf hk

theorem countP_holds_clear (e : IPaddress) (t : List (Option addrpair_t)) (k : Nat) :
    (t.set k none).countP (holds e) ≤ t.countP (holds e) := by
  induction t generalizing k with
  | nil => simp
  | cons s rest ih =>
    cases k with
    | zero =>
      simp only [List.set_cons_zero, List.countP_cons]
      have : holds e none = false := rfl
      simp [this]
    | succ k =>
      simp only [List.set_cons_succ, List.countP_cons]
      have := ih k
      omega

theorem find_uninit (r : Registry) (e : IPaddress) (h : r.addr_table = none) :
    NET_SDL_FindAddress r e = NET_SDL_FindAddress (NET_SDL_InitAddrTable r) e := by
  have h1 : addr_table_size r < 0 := by simp [addr_table_size, h]
  have h2 : ¬ addr_table_size (NET_SDL_InitAddrTable r) < 0 := by
    simp [addr_table_size, NET_SDL_InitAddrTable, Z_Malloc]
  unfold NET_SDL_FindAddress
  simp only [h1, h2, if_true, if_false]

theorem find_found (r : Registry) (e : IPaddress) (t : List (Option addrpair_t)) (h : Nat)
    (ht : r.addr_table = some t) (hf : firstHandle e t = some h) :
    NET_SDL_FindAddress r e = (h, r) := by
  have h1 : ¬ addr_table_size r < 0 := by simp [addr_table_size, ht]
  unfold NET_SDL_FindAddress
  simp only [h1, if_false, ht, Option.getD_some]
  rw [(findLoop_inl_iff e t 0 (-1) h).mpr hf]

/-- `NET_SDL_FindAddress` for an endpoint the table has no entry for: a new
entry goes to a slot that was `NULL`, in the table itself or in the table grown
to twice its size. -/
theorem find_new (r : Registry) (e : IPaddress) (t : List (Option addrpair_t))
    (ht : r.addr_table = some t) (hf : firstHandle e t = none) :
    ∃ (T : List (Option addrpair_t)) (k z : Nat),
      NET_SDL_FindAddress r e = (z, ⟨some (T.set k (some ⟨z, e⟩)), z + 1⟩)
      ∧ T.getD k none = none
      ∧ (t ≠ [] → T.getD k (some ⟨0, e⟩) = none)
      ∧ (T = t ∨ (T = t ++ List.replicate (t.length * 2 - t.length) none ∧ k = t.length
          ∧ ∀ s ∈ t, s ≠ none))
      ∧ (∀ s ∈ t, holds e s = false) := by
  have h1 : ¬ addr_table_size r < 0 := by simp [addr_table_size, ht]
  cases hloop : findLoop e t 0 (-1) with
  | inl h =>
    rw [(findLoop_inl_iff e t 0 (-1) h).mp hloop] at hf
    cases hf
  | inr x =>
    obtain ⟨-, hall, -, hx⟩ := findLoop_inr e t 0 (-1) x hloop
    rcases hx (by omega) with ⟨hneg, hfull⟩ | ⟨k, hk, hget⟩
    · refine ⟨t ++ List.replicate (t.length * 2 - t.length) none, t.length, r.zone + 1, ?_, ?_,
        ?_, Or.inr ⟨rfl, rfl, hfull⟩, hall⟩
      · unfold NET_SDL_FindAddress
        simp only [h1, if_false, ht, Option.getD_some, hloop, hneg, if_true, Z_Malloc, addEntry]
      · rw [List.getD_eq_getElem?_getD]
        cases hq : (t ++ List.replicate (t.length * 2 - t.length) none)[t.length]? with
        | none => rfl
        | some v =>
          rw [List.getElem?_append_right (le_refl _)] at hq
          simp only [Nat.sub_self] at hq
          have := List.getElem?_eq_some_iff.mp hq
          obtain ⟨hlt, hv⟩ := this
          simp only [List.getElem_replicate] at hv
          simp [← hv]
      · intro hne
        have hpos : 0 < t.length := List.length_pos.mpr hne
        rw [List.getD_eq_getElem?_getD, List.getElem?_append_right (le_refl _)]
        simp only [Nat.sub_self]
        rw [List.getElem?_replicate]
        have hlt : 0 < t.length * 2 - t.length := by omega
        simp [hlt]
    · have hxk : x = (k : Int) := by simpa using hk
      subst hxk
      obtain ⟨hk1, hk2⟩ := getD_none_of_getD_some t k _ hget
      refine ⟨t, k, r.zone, ?_, hk1, fun _ => hget, Or.inl rfl, hall⟩
      unfold NET_SDL_FindAddress
      simp only [h1, if_false, ht, Option.getD_some, hloop, Z_Malloc, addEntry]
      rw [if_neg (by omega)]
      simp

theorem firstHandle_replicate_none (e : IPaddress) (m : Nat) :
    firstHandle e (List.replicate m none) = none := by
  have := firstHandle_append_none e m []
  simpa [firstHandle] using this

/-- After `NET_SDL_FindAddress(e)` the table is initialised and its first entry
for `e` is the one whose handle was returned. -/
theorem find_live (r : Registry) (e : IPaddress) (hsize : addr_table_size r ≠ 0) :
    ∃ t1, (NET_SDL_FindAddress r e).2.addr_table = some t1
      ∧ firstHandle e t1 = some (NET_SDL_FindAddress r e).1 := by
  have hinit : ∀ (r0 : Registry) (t : List (Option addrpair_t)), r0.addr_table = some t →
      t ≠ [] → ∃ t1, (NET_SDL_FindAddress r0 e).2.addr_table = some t1
        ∧ firstHandle e t1 = some (NET_SDL_FindAddress r0 e).1 := by
    intro r0 t ht hne
    cases hf : firstHandle e t with
    | some h =>
      rw [find_found r0 e t h ht hf]
      exact ⟨t, ht, hf⟩
    | none =>
      obtain ⟨T, k, z, hres, -, hget, hT, -⟩ := find_new r0 e t ht hf
      rw [hres]
      refine ⟨_, rfl, ?_⟩
      apply firstHandle_set_new e z T k (hget hne)
      rcases hT with hT | ⟨hT, -, -⟩
      · rw [hT]; exact hf
      · rw [hT, firstHandle_append_none]; exact hf
  cases ht : r.addr_table with
  | none =>
    rw [find_uninit r e ht]
    exact hinit (NET_SDL_InitAddrTable r) (List.replicate 16 none) rfl (by simp)
  | some t =>
    apply hinit r t ht
    intro hnil
    apply hsize
    simp [addr_table_size, ht, hnil]

/-- A call other than the release of `h` leaves the first entry for `e` in
place when that entry has handle `h`. -/
theorem apply_keeps (r r1 : Registry) (op : RegOp) (e : IPaddress) (h : Nat)
    (t : List (Option addrpair_t)) (ht : r.addr_table = some t)
    (hf : firstHandle e t = some h) (hop : op ≠ RegOp.release h)
    (happ : op.apply r = some r1) :
    ∃ t1, r1.addr_table = some t1 ∧ firstHandle e t1 = some h := by
  cases op with
  | find x =>
    simp only [RegOp.apply, Option.some.injEq] at happ
    subst happ
    cases hx : firstHandle x t with
    | some hx1 =>
      rw [find_found r x t hx1 ht hx]
      exact ⟨t, ht, hf⟩
    | none =>
      obtain ⟨T, k, z, hres, hget, -, hT, hall⟩ := find_new r x t ht hx
      rw [hres]
      refine ⟨_, rfl, ?_⟩
      have hq : holds e (some ⟨z, x⟩) = false := by
        cases hq : holds e (some ⟨z, x⟩) with
        | false => rfl
        | true =>
          have hex : e = x := (AddressesEqual_iff e x).mp (by simpa [holds] using hq)
          rw [hex, hx] at hf
          cases hf
      rw [firstHandle_set e ⟨z, x⟩ hq T k hget]
      rcases hT with hT | ⟨hT, -, -⟩
      · rw [hT]; exact hf
      · rw [hT, firstHandle_append_none]; exact hf
  | release h1 =>
    simp only [RegOp.apply, NET_SDL_FreeAddress, ht, Option.map_eq_some'] at happ
    obtain ⟨t1, hfree, hr1⟩ := happ
    subst hr1
    refine ⟨t1, rfl, ?_⟩
    obtain ⟨k, -, hk, -, hset⟩ := freeLoop_some h1 t t1 hfree
    rw [hset]
    apply firstHandle_clear e h t k hf
    cases hs : t.getD k none with
    | none => rfl
    | some p =>
      rw [hs] at hk
      have h1p : h1 = p.net_addr := by simpa [carries] using hk
      have hne : h ≠ h1 := fun heq => hop (by rw [heq])
      simp only [carries, beq_eq_false_iff_ne, ne_eq]
      rw [← h1p]
      exact hne

theorem runOps_keeps (e : IPaddress) (h : Nat) (ops : List RegOp) :
    ∀ (r r2 : Registry) (t : List (Option addrpair_t)), r.addr_table = some t →
      firstHandle e t = some h → (∀ op ∈ ops, op ≠ RegOp.release h) →
      runOps r ops = some r2 →
      ∃ t2, r2.addr_table = some t2 ∧ firstHandle e t2 = some h := by
  induction ops with
  | nil =>
    intro r r2 t ht hf _ hrun
    simp only [runOps, Option.some.injEq] at hrun
    subst hrun
    exact ⟨t, ht, hf⟩
  | cons op ops ih =>
    intro r r2 t ht hf hops hrun
    simp only [runOps] at hrun
    cases happ : op.apply r with
    | none => rw [happ] at hrun; cases hrun
    | some r1 =>
      rw [happ] at hrun
      obtain ⟨t1, ht1, hf1⟩ := apply_keeps r r1 op e h t ht hf
        (hops op (List.mem_cons_self _ _)) happ
      exact ih r1 r2 t1 ht1 hf1 (fun o ho => hops o (List.mem_cons_of_mem _ ho)) hrun

/-- One call keeps "at most one entry per endpoint". -/
theorem apply_count (r r1 : Registry) (op : RegOp)
    (hinv : ∀ x, (slots r).countP (holds x) ≤ 1) (happ : op.apply r = some r1) :
    ∀ x, (slots r1).countP (holds x) ≤ 1 := by
  have hinit : ∀ (r0 : Registry) (t : List (Option addrpair_t)) (e : IPaddress),
      r0.addr_table = some t → (∀ x, t.countP (holds x) ≤ 1) →
      ∀ x, (slots (NET_SDL_FindAddress r0 e).2).countP (holds x) ≤ 1 := by
    intro r0 t e ht hcount x
    cases hf : firstHandle e t with
    | some h =>
      rw [find_found r0 e t h ht hf]
      simpa [slots, ht] using hcount x
    | none =>
      obtain ⟨T, k, z, hres, hget, -, hT, hall⟩ := find_new r0 e t ht hf
      rw [hres]
      simp only [slots, Option.getD_some]
      have hTc : T.countP (holds x) = t.countP (holds x) := by
        rcases hT with hT | ⟨hT, -, -⟩
        · rw [hT]
        · rw [hT, countP_holds_append_none]
      obtain ⟨hle, heq⟩ := countP_holds_set x (some ⟨z, e⟩) T k hget
      cases hq : holds x (some ⟨z, e⟩) with
      | false =>
        rw [heq hq, hTc]
        exact hcount x
      | true =>
        have hxe : x = e := (AddressesEqual_iff x e).mp (by simpa [holds] using hq)
        have hzero : t.countP (holds x) = 0 := by
          rw [List.countP_eq_zero]
          intro s hs
          rw [hxe, hall s hs]
          simp
        omega
  cases op with
  | find e =>
    simp only [RegOp.apply, Option.some.injEq] at happ
    subst happ
    cases ht : r.addr_table with
    | none =>
      rw [find_uninit r e ht]
      apply hinit (NET_SDL_InitAddrTable r) (List.replicate 16 none) e rfl
      intro x
      have := countP_holds_append_none x 16 []
      simp only [List.nil_append, List.countP_nil] at this
      omega
    | some t =>
      apply hinit r t e ht
      intro x
      simpa [slots, ht] using hinv x
  | release h =>
    cases ht : r.addr_table with
    | none => simp [RegOp.apply, NET_SDL_FreeAddress, ht] at happ
    | some t =>
      simp only [RegOp.apply, NET_SDL_FreeAddress, ht, Option.map_eq_some'] at happ
      obtain ⟨t1, hfree, hr1⟩ := happ
      subst hr1
      obtain ⟨k, -, -, -, hset⟩ := freeLoop_some h t t1 hfree
      intro x
      simp only [slots, Option.getD_some]
      rw [hset]
      have h1 := countP_holds_clear x t k
      have h2 := hinv x
      simp only [slots, ht, Option.getD_some] at h2
      omega

theorem runOps_count (ops : List RegOp) :
    ∀ (r r2 : Registry), (∀ x, (slots r).countP (holds x) ≤ 1) → runOps r ops = some r2 →
      ∀ x, (slots r2).countP (holds x) ≤ 1 := by
  induction ops with
  | nil =>
    intro r r2 hinv hrun
    simp only [runOps, Option.some.injEq] at hrun
    subst hrun
    exact hinv
  | cons op ops ih =>
    intro r r2 hinv hrun
    simp only [runOps] at hrun
    cases happ : op.apply r with
    | none => rw [happ] at hrun; cases hrun
    | some r1 =>
      rw [happ] at hrun
      exact ih r1 r2 (apply_count r r1 op hinv happ) hrun

/-! ## Claims on the address table -/

/-- C4. Dedup: if `NET_SDL_FindAddress(e)` returns the handle `h`, then after
any further calls of find and release among which `h` is not released, a
`NET_SDL_FindAddress(e1)` with the same host and port returns `h` again and
leaves the table as it is; and after any sequence of find and release calls
from the start of the program the table has at most one entry per endpoint.
(`r` is any table state the program can have: size `-1` or positive.) -/
theorem find_dedup (r r2 : Registry) (e e1 : IPaddress) (ops : List RegOp)
    (hsize : addr_table_size r ≠ 0)
    (hhost : e1.host = e.host) (hport : e1.port = e.port)
    (hops : ∀ op ∈ ops, op ≠ RegOp.release (NET_SDL_FindAddress r e).1)
    (hrun : runOps (NET_SDL_FindAddress r e).2 ops = some r2) :
    NET_SDL_FindAddress r2 e1 = ((NET_SDL_FindAddress r e).1, r2)
    ∧ ∀ (calls : List RegOp) (r3 : Registry), runOps Registry.start calls = some r3 →
        ∀ x, (slots r3).countP (holds x) ≤ 1 := by
  constructor
  · have hee : e1 = e := by
      cases e; cases e1
      simp only at hhost hport
      rw [hhost, hport]
    subst hee
    obtain ⟨t1, ht1, hf1⟩ := find_live r e1 hsize
    obtain ⟨t2, ht2, hf2⟩ := runOps_keeps e1 _ ops _ r2 t1 ht1 hf1 hops hrun
    exact find_found r2 e1 t2 _ ht2 hf2
  · intro calls r3 hrun3
    exact runOps_count calls Registry.start r3 (by intro x; simp [slots, Registry.start]) hrun3

theorem find_dedup_witness :
    NET_SDL_FindAddress
        ((NET_SDL_FindAddress (NET_SDL_FindAddress Registry.start ⟨167772161, 2342⟩).2
          ⟨167772162, 2342⟩).2)
        ⟨167772161, 2342⟩
      = (1, (NET_SDL_FindAddress (NET_SDL_FindAddress Registry.start ⟨167772161, 2342⟩).2
          ⟨167772162, 2342⟩).2) :=
  (find_dedup Registry.start
    (NET_SDL_FindAddress (NET_SDL_FindAddress Registry.start ⟨167772161, 2342⟩).2
      ⟨167772162, 2342⟩).2
    ⟨167772161, 2342⟩ ⟨167772161, 2342⟩ [RegOp.find ⟨167772162, 2342⟩]
    (by decide) rfl rfl (by decide) rfl).1

theorem addr_table_size_ge (r : Registry) : -1 ≤ addr_table_size r := by
  unfold addr_table_size
  cases r.addr_table with
  | none => simp
  | some t => simp only; omega

/-- One call never makes the table smaller. -/
theorem apply_size (r r1 : Registry) (op : RegOp) (happ : op.apply r = some r1) :
    addr_table_size r ≤ addr_table_size r1 := by
  cases ht : r.addr_table with
  | none =>
    have : addr_table_size r = -1 := by simp [addr_table_size, ht]
    rw [this]
    exact addr_table_size_ge r1
  | some t =>
    cases op with
    | find e =>
      simp only [RegOp.apply, Option.some.injEq] at happ
      subst happ
      cases hf : firstHandle e t with
      | some h => rw [find_found r e t h ht hf]
      | none =>
        obtain ⟨T, k, z, hres, -, -, hT, -⟩ := find_new r e t ht hf
        rw [hres]
        simp only [addr_table_size, ht, List.length_set]
        rcases hT with hT | ⟨hT, -, -⟩
        · rw [hT]
        · rw [hT]; simp
    | release h =>
      simp only [RegOp.apply, NET_SDL_FreeAddress, ht, Option.map_eq_some'] at happ
      obtain ⟨t1, hfree, hr1⟩ := happ
      subst hr1
      obtain ⟨k, -, -, -, hset⟩ := freeLoop_some h t t1 hfree
      simp [addr_table_size, ht, hset]

/-- C5. Growth: when the table has no empty slot and no entry for `e`,
`NET_SDL_FindAddress(e)` returns, the table is twice as long, every old slot
holds the entry it held (same handle, same endpoint), the new entry with the
returned handle is at index `old size`, and the slots after it are empty; and
no call of find or release makes the table smaller. -/
theorem find_growth (r r0 r1 : Registry) (t : List (Option addrpair_t)) (e : IPaddress)
    (op : RegOp)
    (ht : r.addr_table = some t) (hne : t ≠ [])
    (hfull : ∀ s ∈ t, s ≠ none) (hnew : ∀ s ∈ t, holds e s = false)
    (happ : op.apply r0 = some r1) :
    (∃ T, (NET_SDL_FindAddress r e).2.addr_table = some T
      ∧ T.length = 2 * t.length
      ∧ (∀ i, i < t.length → T[i]? = t[i]?)
      ∧ T[t.length]? = some (some ⟨(NET_SDL_FindAddress r e).1, e⟩)
      ∧ (∀ j, t.length < j → j < 2 * t.length → T[j]? = some none))
    ∧ addr_table_size r0 ≤ addr_table_size r1 := by
  refine ⟨?_, apply_size r0 r1 op happ⟩
  have hpos : 0 < t.length := List.length_pos.mpr hne
  have h1 : ¬ addr_table_size r < 0 := by simp [addr_table_size, ht]
  have hloop := findLoop_full e t 0 (-1) (fun s hs => ⟨hfull s hs, hnew s hs⟩)
  have hres : NET_SDL_FindAddress r e
      = (r.zone + 1, ⟨some ((t ++ List.replicate (t.length * 2 - t.length) none).set t.length
          (some ⟨r.zone + 1, e⟩)), r.zone + 1 + 1⟩) := by
    unfold NET_SDL_FindAddress
    simp only [h1, if_false, ht, Option.getD_some, hloop, Z_Malloc, addEntry]
    simp
  rw [hres]
  refine ⟨_, rfl, ?_, ?_, ?_, ?_⟩
  · simp only [List.length_set, List.length_append, List.length_replicate]
    omega
  · intro i hi
    rw [List.getElem?_set_ne (by omega), List.getElem?_append_left hi]
  · rw [List.getElem?_set_self (by simp; omega)]
  · intro j hj1 hj2
    rw [List.getElem?_set_ne (by omega), List.getElem?_append_right (by omega),
      List.getElem?_replicate]
    have : j - t.length < t.length * 2 - t.length := by omega
    simp [this]

theorem find_growth_witness :
    ∃ T, (NET_SDL_FindAddress ⟨some [some ⟨1, ⟨10, 1⟩⟩, some ⟨2, ⟨10, 2⟩⟩], 3⟩
        ⟨10, 3⟩).2.addr_table = some T
      ∧ T.length = 2 * 2
      ∧ T[2]? = some (some ⟨4, ⟨10, 3⟩⟩) :=
  have h := (find_growth ⟨some [some ⟨1, ⟨10, 1⟩⟩, some ⟨2, ⟨10, 2⟩⟩], 3⟩ Registry.start
    (NET_SDL_FindAddress Registry.start ⟨10, 1⟩).2
    [some ⟨1, ⟨10, 1⟩⟩, some ⟨2, ⟨10, 2⟩⟩] ⟨10, 3⟩ (RegOp.find ⟨10, 1⟩)
    rfl (by decide) (by decide) (by decide) rfl).1
  h.elim (fun T hT => ⟨T, hT.1, hT.2.1, hT.2.2.2.1⟩)

/-- C6. Release raises iff absent: `NET_SDL_FreeAddress(h)` ends in `I_Error`
exactly when no occupied slot holds the handle `h` (so also when the table has
empty slots, and when it was never initialised); when some slot holds `h`, the
call returns, the first such slot `k` is empty afterwards and every other slot
is as before. -/
theorem free_raises_iff_absent (r : Registry) (h : Nat) :
    (NET_SDL_FreeAddress r h = none ↔ ¬ ∃ p, some p ∈ slots r ∧ p.net_addr = h)
    ∧ ((∃ p, some p ∈ slots r ∧ p.net_addr = h) →
        ∃ (k : Nat) (p : addrpair_t) (r1 : Registry), NET_SDL_FreeAddress r h = some r1
          ∧ (slots r)[k]? = some (some p) ∧ p.net_addr = h
          ∧ (∀ (j : Nat) (q : addrpair_t), j < k → (slots r)[j]? = some (some q) →
              q.net_addr ≠ h)
          ∧ (slots r1).length = (slots r).length
          ∧ (slots r1)[k]? = some none
          ∧ (∀ j, j ≠ k → (slots r1)[j]? = (slots r)[j]?)
          ∧ addr_table_size r1 = addr_table_size r) := by
  have hcar : ∀ (t : List (Option addrpair_t)),
      (∀ s ∈ t, carries h s = false) ↔ ¬ ∃ p, some p ∈ t ∧ p.net_addr = h := by
    intro t
    constructor
    · rintro hall ⟨p, hp, hph⟩
      have := hall (some p) hp
      simp [carries, hph] at this
    · intro hno s hs
      cases s with
      | none => rfl
      | some p =>
        simp only [carries, beq_eq_false_iff_ne, ne_eq]
        intro heq
        exact hno ⟨p, hs, heq.symm⟩
  have hiff : NET_SDL_FreeAddress r h = none ↔ ¬ ∃ p, some p ∈ slots r ∧ p.net_addr = h := by
    cases ht : r.addr_table with
    | none => simp [NET_SDL_FreeAddress, ht, slots]
    | some t =>
      simp only [NET_SDL_FreeAddress, ht, slots, Option.getD_some, Option.map_eq_none']
      rw [freeLoop_none_iff, hcar]
  refine ⟨hiff, ?_⟩
  intro hex
  cases hfree : NET_SDL_FreeAddress r h with
  | none => exact absurd hex (hiff.mp hfree)
  | some r1 =>
    cases ht : r.addr_table with
    | none => simp [NET_SDL_FreeAddress, ht] at hfree
    | some t =>
      simp only [NET_SDL_FreeAddress, ht, Option.map_eq_some'] at hfree
      obtain ⟨t1, hloop, hr1⟩ := hfree
      subst hr1
      obtain ⟨k, hk, hcarry, hbefore, hset⟩ := freeLoop_some h t t1 hloop
      subst hset
      have hget : t.getD k none = t[k] := by
        rw [List.getD_eq_getElem?_getD, List.getElem?_eq_getElem hk]
        rfl
      rw [hget] at hcarry
      cases hs : t[k] with
      | none => rw [hs] at hcarry; simp [carries] at hcarry
      | some p =>
        rw [hs] at hcarry
        refine ⟨k, p, _, rfl, ?_, ?_, ?_, ?_, ?_, ?_, ?_⟩
        · simp [slots, ht, List.getElem?_eq_getElem hk, hs]
        · have : h = p.net_addr := by simpa [carries] using hcarry
          exact this.symm
        · intro j q hj hq
          have hb := hbefore j hj
          simp only [slots, ht, Option.getD_some] at hq
          rw [List.getD_eq_getElem?_getD, hq] at hb
          simp only [Option.getD_some, carries, beq_eq_false_iff_ne, ne_eq] at hb
          exact fun heq => hb heq.symm
        · simp [slots, ht]
        · simp [slots, List.getElem?_set_self hk]
        · intro j hj
          simp [slots, ht, List.getElem?_set_ne (Ne.symm hj)]
        · simp [addr_table_size, ht]

/-! ## Slot placement on a full table -/

theorem placeLoop_full (conn : TCPsocket) (ip : Nat) (g : Globals) (fuel : Nat) :
    ∀ (i : Nat), (∀ j, i ≤ j → j < i + fuel → g.serverconnections.getD j none ≠ none) →
      placeLoop conn ip fuel i g = none := by
  induction fuel with
  | zero => intro i _; rfl
  | succ fuel ih =>
    intro i h
    unfold placeLoop
    split
    · rename_i hnone
      exact absurd hnone (h i (le_refl _) (by omega))
    · exact ih (i + 1) (fun j h1 h2 => h j (by omega) (by omega))

/-- Slot placement when all `MAX_SOCKETS` slots are occupied: no slot, origin
or socket set changes, and the connection is closed provided `added` is 0 when
placement is reached. -/
theorem placeConnection_full (conn : TCPsocket) (g : Globals) (n : Net) (l : Locals)
    (hfull : ∀ j, j < MAX_SOCKETS → g.serverconnections.getD j none ≠ none) :
    (placeConnection conn g n l).1 = g
    ∧ (l.added = false → (placeConnection conn g n l).2.1 = SDLNet_TCP_Close n conn)
    ∧ (l.added = true → (placeConnection conn g n l).2.1 = n) := by
  have hloop := placeLoop_full conn l.actual_ip g MAX_SOCKETS 0
    (fun j _ h2 => hfull j (by omega))
  unfold placeConnection
  rw [hloop]
  cases hadd : l.added <;> simp

/-! ## Claims on admission -/

/-- C7. Slot exhaustion with the switches as `net_sdl.c` has them
(`ENFORCE_PROXY 0`): 31 slots are occupied and connections 1 and 2 are pending
in one call.  Connection 1 takes slot 31.  Connection 2 reaches slot placement
with all 32 slots occupied and is not stored, not added to the socket set, and
not closed: `added` still holds the 1 left by connection 1. -/
theorem full_table_connection_not_closed :
    (NET_SDL_RecvPacket lp64 zeroStack crowded { quiet with backlog := [1, 2] }
        Registry.start).2.1.serverconnections
      = (List.range 31).map (fun i => some (100 + i)) ++ [some 1]
    ∧ (NET_SDL_RecvPacket lp64 zeroStack crowded { quiet with backlog := [1, 2] }
        Registry.start).2.1.serversocketSet
      = some ((List.range 31).map (fun i => 100 + i) ++ [1])
    ∧ (NET_SDL_RecvPacket lp64 zeroStack crowded { quiet with backlog := [1, 2] }
        Registry.start).2.2.1.backlog = []
    ∧ (NET_SDL_RecvPacket lp64 zeroStack crowded { quiet with backlog := [1, 2] }
        Registry.start).2.2.1.closed = [] := by
  decide

/-! ## Reading the proxy line -/

theorem recv_one_none (n : Net) (conn : TCPsocket) (h : arriving (n.inbound conn) = []) :
    (SDLNet_TCP_Recv n conn 1).1 ≤ 0 := by
  unfold SDLNet_TCP_Recv
  cases hin : n.inbound conn with
  | nil => simp
  | cons ev rest =>
    cases ev with
    | error => simp
    | bytes bs =>
      cases bs with
      | nil => simp
      | cons x xs => rw [hin] at h; simp [arriving] at h

theorem recv_one_some (n : Net) (conn : TCPsocket) (x : Nat) (xs : List Nat)
    (h : arriving (n.inbound conn) = x :: xs) :
    ∃ n1, SDLNet_TCP_Recv n conn 1 = (1, [x], n1) ∧ arriving (n1.inbound conn) = xs
      ∧ n1.backlog = n.backlog := by
  cases hin : n.inbound conn with
  | nil => rw [hin] at h; simp [arriving] at h
  | cons ev rest =>
    cases ev with
    | error => rw [hin] at h; simp [arriving] at h
    | bytes bs =>
      cases bs with
      | nil => rw [hin] at h; simp [arriving] at h
      | cons y ys =>
        rw [hin] at h
        simp only [arriving, List.cons_append, List.cons.injEq] at h
        obtain ⟨hy, hys⟩ := h
        subst hy
        cases ys with
        | nil =>
          refine ⟨_, recv_bytes_all n conn 1 [y] rest hin (le_refl _), ?_, rfl⟩
          simpa [setAt] using hys
        | cons z zs =>
          refine ⟨_, recv_bytes_some n conn 1 (y :: z :: zs) rest hin (by simp), ?_, rfl⟩
          simpa [setAt, arriving] using hys

/-- The line-reading loop ends within `HAPROXY_MAX_BUF` iterations and stores
only at indices below `HAPROXY_MAX_BUF`. -/
theorem readProxyLine_total (conn : TCPsocket) (fuel : Nat) :
    ∀ (n : Net) (buffer : List Nat) (idx : Nat) (written : List Nat),
      idx < HAPROXY_MAX_BUF → HAPROXY_MAX_BUF ≤ idx + fuel →
      ∃ line, readProxyLine conn fuel n buffer idx written = some line
        ∧ ∀ i ∈ line.written, i ∈ written ∨ i < HAPROXY_MAX_BUF := by
  induction fuel with
  | zero => intro n buffer idx written h1 h2; omega
  | succ fuel ih =>
    intro n buffer idx written h1 h2
    unfold readProxyLine
    generalize SDLNet_TCP_Recv n conn 1 = r
    obtain ⟨length_recv, got, n1⟩ := r
    simp only
    split
    · exact ⟨_, rfl, fun i hi => Or.inl hi⟩
    · split
      · refine ⟨_, rfl, ?_⟩
        intro i hi
        rcases List.mem_append.mp hi with hi | hi
        · exact Or.inl hi
        · simp only [List.mem_singleton] at hi
          exact Or.inr (hi ▸ h1)
      · split
        · refine ⟨_, rfl, ?_⟩
          intro i hi
          rcases List.mem_append.mp hi with hi | hi
          · exact Or.inl hi
          · simp only [List.mem_singleton] at hi
            exact Or.inr (hi ▸ h1)
        · rename_i hlt
          obtain ⟨line, hline, hw⟩ := ih n1 (buffer.set idx (got.headD 0)) (idx + 1)
            (written ++ [idx]) (by omega) (by omega)
          refine ⟨line, hline, ?_⟩
          intro i hi
          rcases hw i hi with hi | hi
          · rcases List.mem_append.mp hi with hi | hi
            · exact Or.inl hi
            · simp only [List.mem_singleton] at hi
              exact Or.inr (hi ▸ h1)
          · exact Or.inr hi

/-- When no newline is among the bytes that fit the buffer, the loop is left
with `should_close` set. -/
theorem readProxyLine_no_newline (conn : TCPsocket) (fuel : Nat) :
    ∀ (n : Net) (buffer : List Nat) (idx : Nat) (written : List Nat) (line : ProxyLine),
      readProxyLine conn fuel n buffer idx written = some line →
      10 ∉ (arriving (n.inbound conn)).take (HAPROXY_MAX_BUF - idx) →
      idx < HAPROXY_MAX_BUF →
      line.should_close = true := by
  induction fuel with
  | zero => intro n buffer idx written line h; simp [readProxyLine] at h
  | succ fuel ih =>
    intro n buffer idx written line h hno hidx
    unfold readProxyLine at h
    cases harr : arriving (n.inbound conn) with
    | nil =>
      have hle := recv_one_none n conn harr
      generalize SDLNet_TCP_Recv n conn 1 = r at h hle
      obtain ⟨length_recv, got, n1⟩ := r
      simp only at h hle
      rw [if_pos hle] at h
      cases h
      rfl
    | cons x xs =>
      obtain ⟨n1, hr, harr1, -⟩ := recv_one_some n conn x xs harr
      rw [hr] at h
      simp only [List.headD_cons] at h
      rw [if_neg (by omega)] at h
      have hsplit : HAPROXY_MAX_BUF - idx = (HAPROXY_MAX_BUF - (idx + 1)) + 1 := by omega
      rw [harr, hsplit, List.take_succ_cons] at hno
      simp only [List.mem_cons, not_or] at hno
      rw [if_neg (fun hx => hno.1 hx.symm)] at h
      split at h
      · cases h; rfl
      · rename_i hlt
        apply ih n1 _ _ _ line h
        · rw [harr1]; exact hno.2
        · omega

theorem putLine_zeros (line : List Nat) :
    ∀ (pre : List Nat) (m : Nat), line.length < m →
      putLine (pre ++ List.replicate m 0) pre.length line
        = pre ++ line ++ List.replicate (m - line.length) 0 := by
  induction line with
  | nil =>
    intro pre m hm
    simp only [putLine, List.append_nil, List.length_nil, Nat.sub_zero]
    cases m with
    | zero => omega
    | succ m => simp [List.replicate_succ]
  | cons x xs ih =>
    intro pre m hm
    simp only [List.length_cons] at hm
    cases m with
    | zero => omega
    | succ m =>
      simp only [putLine]
      have hset : (pre ++ List.replicate (m + 1) 0).set pre.length x
          = (pre ++ [x]) ++ List.replicate m 0 := by
        simp [List.replicate_succ]
      rw [hset]
      have hlen : pre.length + 1 = (pre ++ [x]).length := by simp
      rw [hlen, ih (pre ++ [x]) m (by omega)]
      simp

/-- When the stream holds a line and its newline within the room the buffer
has, the loop is left with the line in the buffer, a zero byte behind it, and
`should_close` clear. -/
theorem readProxyLine_newline (conn : TCPsocket) (text : List Nat) :
    ∀ (fuel : Nat) (n : Net) (buffer : List Nat) (idx : Nat) (written : List Nat)
      (rest : List Nat),
      arriving (n.inbound conn) = text ++ 10 :: rest → 10 ∉ text →
      idx + text.length < HAPROXY_MAX_BUF → text.length < fuel →
      ∃ line, readProxyLine conn fuel n buffer idx written = some line
        ∧ line.proxy_packet_buffer = putLine buffer idx text
        ∧ line.should_close = false := by
  induction text with
  | nil =>
    intro fuel n buffer idx written rest harr _ hidx hfuel
    cases fuel with
    | zero => simp at hfuel
    | succ fuel =>
      obtain ⟨n1, hr, -, -⟩ := recv_one_some n conn 10 rest (by simpa using harr)
      unfold readProxyLine
      rw [hr]
      simp [putLine]
  | cons x xs ih =>
    intro fuel n buffer idx written rest harr hno hidx hfuel
    simp only [List.length_cons] at hidx hfuel
    simp only [List.mem_cons, not_or] at hno
    cases fuel with
    | zero => omega
    | succ fuel =>
      obtain ⟨n1, hr, harr1, -⟩ := recv_one_some n conn x (xs ++ 10 :: rest)
        (by simpa using harr)
      unfold readProxyLine
      rw [hr]
      simp only [List.headD_cons]
      rw [if_neg (by omega), if_neg (fun hx => hno.1 hx.symm), if_neg (by omega)]
      obtain ⟨line, hline, hbuf, hclose⟩ := ih fuel n1 (buffer.set idx x) (idx + 1)
        (written ++ [idx]) rest harr1 hno.2 (by omega) (by omega)
      exact ⟨line, hline, by simpa [putLine] using hbuf, hclose⟩

/-- The accept loop never runs out of its iteration budget. -/
theorem acceptLoop_finishes (b : Build) (st : Stack) (pending : List TCPsocket) :
    ∀ (g : Globals) (n : Net) (l : Locals),
      (acceptLoop b st pending g n l).1 ≠ AcceptExit.unfinished := by
  induction pending with
  | nil => intro g n l; simp [acceptLoop]
  | cons conn pending ih =>
    intro g n l
    unfold acceptLoop
    simp only
    split
    · obtain ⟨line, hline, -⟩ := readProxyLine_total conn HAPROXY_MAX_BUF
        { n with backlog := pending } (List.replicate HAPROXY_MAX_BUF 0) 0 [] (by decide)
        (by omega)
      rw [hline]
      simp only
      split
      · exact ih _ _ _
      · split
        · simp
        · split
          · simp
          · exact ih _ _ _
    · exact ih _ _ _

/-- In `NET_SDL_RecvPacket` no loop of the model runs out of its iteration
budget. -/
theorem recvPacket_finishes (b : Build) (st : Stack) (g : Globals) (n : Net) (reg : Registry) :
    (NET_SDL_RecvPacket b st g n reg).1 ≠ Outcome.unfinished := by
  have hloop : ∀ (fuel i : Nat) (g : Globals) (n : Net) (reg : Registry) (le : Nat),
      (recvLoop b fuel i g n reg le).1 ≠ Outcome.unfinished := by
    intro fuel
    induction fuel with
    | zero => intro i g n reg le; simp [recvLoop]
    | succ fuel ih =>
      intro i g n reg le
      unfold recvLoop
      split
      · exact ih _ _ _ _ _
      · split
        · exact ih _ _ _ _ _
        · simp only
          split
          · exact ih _ _ _ _ _
          · split
            · exact ih _ _ _ _ _
            · split <;> simp
  unfold NET_SDL_RecvPacket
  split
  · unfold recvClient
    simp only
    split
    · simp
    · split
      · simp
      · split
        · simp
        · split
          · simp
          · split <;> simp
  · have hfin := acceptLoop_finishes b st n.backlog g n ⟨false, st.actual_ip, st.length_expected⟩
    generalize acceptLoop b st n.backlog g n _ = r at hfin
    obtain ⟨ex, g1, n1, l1⟩ := r
    cases ex
    · simp only
      split
      · simp
      · exact hloop _ _ _ _ _ _
    · simp
    · exact absurd rfl hfin
    · simp

/-! ## Scanning the proxy line -/

theorem startsWith_iff (t : List Nat) : ∀ (s : List Nat),
    startsWith s t = true ↔ ∃ post, s = t ++ post := by
  induction t with
  | nil => intro s; cases s <;> simp [startsWith]
  | cons y ys ih =>
    intro s
    cases s with
    | nil => simp [startsWith]
    | cons x xs =>
      simp only [startsWith, Bool.and_eq_true, beq_iff_eq, ih xs, List.cons_append,
        List.cons.injEq]
      constructor
      · rintro ⟨hxy, post, hpost⟩
        exact ⟨post, hxy, hpost⟩
      · rintro ⟨post, hxy, hpost⟩
        exact ⟨hxy, post, hpost⟩

theorem strstr_found_sound (t : List Nat) : ∀ (s : List Nat),
    strstr_found s t = true → ∃ pre post, s = pre ++ t ++ post := by
  intro s
  induction s with
  | nil =>
    intro h
    simp only [strstr_found] at h
    obtain ⟨post, hpost⟩ := (startsWith_iff t []).mp h
    exact ⟨[], post, by simpa using hpost⟩
  | cons x xs ih =>
    intro h
    simp only [strstr_found, Bool.or_eq_true] at h
    rcases h with h | h
    · obtain ⟨post, hpost⟩ := (startsWith_iff t (x :: xs)).mp h
      exact ⟨[], post, by simpa using hpost⟩
    · obtain ⟨pre, post, hpp⟩ := ih h
      exact ⟨x :: pre, post, by simp [hpp]⟩

theorem strstr_found_head (t post : List Nat) : strstr_found (t ++ post) t = true := by
  have h : startsWith (t ++ post) t = true := (startsWith_iff t _).mpr ⟨post, rfl⟩
  cases hs : t ++ post with
  | nil => rw [hs] at h; simpa [strstr_found] using h
  | cons x xs => rw [hs] at h; simp [strstr_found, h]

theorem strstr_found_complete (s t : List Nat) (h : ∃ pre post, s = pre ++ t ++ post) :
    strstr_found s t = true := by
  obtain ⟨pre, post, hs⟩ := h
  subst hs
  induction pre with
  | nil => simpa using strstr_found_head t post
  | cons x xs ih =>
    simp only [List.cons_append, strstr_found, Bool.or_eq_true]
    exact Or.inr ih

theorem cstr_append_zero (l r : List Nat) : cstr (l ++ 0 :: r) = cstr l := by
  induction l with
  | nil => simp [cstr]
  | cons x xs ih =>
    unfold cstr at ih ⊢
    simp only [List.cons_append, List.takeWhile_cons]
    split
    · rw [ih]
    · rfl

theorem cstr_no_zero (l : List Nat) (h : ∀ x ∈ l, x ≠ 0) : cstr l = l := by
  induction l with
  | nil => rfl
  | cons x xs ih =>
    have hx : x ≠ 0 := h x (List.mem_cons_self _ _)
    unfold cstr at ih ⊢
    simp only [List.takeWhile_cons, bne_iff_ne, ne_eq, hx, not_false_eq_true, ↓reduceIte]
    rw [ih (fun y hy => h y (List.mem_cons_of_mem _ hy))]

theorem cstr_append_no_zero (l r : List Nat) (h : ∀ x ∈ l, x ≠ 0) :
    cstr (l ++ r) = l ++ cstr r := by
  induction l with
  | nil => rfl
  | cons x xs ih =>
    have hx : x ≠ 0 := h x (List.mem_cons_self _ _)
    unfold cstr at ih ⊢
    simp only [List.cons_append, List.takeWhile_cons, bne_iff_ne, ne_eq, hx, not_false_eq_true,
      ↓reduceIte]
    rw [ih (fun y hy => h y (List.mem_cons_of_mem _ hy))]

theorem cstr_part (l : List Nat) : ∃ tail, l = cstr l ++ tail :=
  ⟨l.dropWhile (fun c => c != 0), (List.takeWhile_append_dropWhile _ l).symm⟩

/-- A line that does not contain the marker is not taken for a proxy line,
whatever lies behind its terminating zero byte. -/
theorem checkIsProxyPacket_absent (text tail : List Nat)
    (h : ¬ ∃ pre post, text = pre ++ PROXY ++ post) :
    checkIsProxyPacket (text ++ 0 :: tail) = false := by
  cases hc : checkIsProxyPacket (text ++ 0 :: tail) with
  | false => rfl
  | true =>
    exfalso
    unfold checkIsProxyPacket at hc
    rw [cstr_append_zero] at hc
    obtain ⟨pre, post, hpp⟩ := strstr_found_sound PROXY _ hc
    obtain ⟨rest, hrest⟩ := cstr_part text
    exact h ⟨pre, post ++ rest, by rw [hrest, hpp]; simp⟩

theorem dropWhile_append_stop (p : Nat → Bool) (l r : List Nat)
    (hl : ∀ x ∈ l, p x = true) (hr : (r.head?.map p).getD false = false) :
    (l ++ r).dropWhile p = r := by
  induction l with
  | nil =>
    cases r with
    | nil => rfl
    | cons y ys =>
      have : p y = false := by simpa using hr
      simp [List.dropWhile_cons, this]
  | cons x xs ih =>
    have hx := hl x (List.mem_cons_self _ _)
    simp only [List.cons_append, List.dropWhile_cons, hx, ↓reduceIte]
    exact ih (fun y hy => hl y (List.mem_cons_of_mem _ hy))

theorem takeWhile_append_stop (p : Nat → Bool) (l r : List Nat)
    (hl : ∀ x ∈ l, p x = true) (hr : (r.head?.map p).getD false = false) :
    (l ++ r).takeWhile p = l := by
  induction l with
  | nil =>
    cases r with
    | nil => rfl
    | cons y ys =>
      have : p y = false := by simpa using hr
      simp [List.takeWhile_cons, this]
  | cons x xs ih =>
    have hx := hl x (List.mem_cons_self _ _)
    simp only [List.cons_append, List.takeWhile_cons, hx, ↓reduceIte]
    rw [ih (fun y hy => hl y (List.mem_cons_of_mem _ hy))]

theorem scan_digits_append (ds : List Nat) (hd : ∀ x ∈ ds, isdigit x = true) :
    ∀ (acc : Nat) (r : List Nat), (r.head?.map isdigit).getD false = false →
      scan_digits (ds ++ r) acc = (ds.foldl (fun a c => a * 10 + (c - 48)) acc, r) := by
  induction ds with
  | nil =>
    intro acc r hr
    cases r with
    | nil => rfl
    | cons y ys =>
      have : isdigit y = false := by simpa using hr
      simp [scan_digits, this]
  | cons x xs ih =>
    intro acc r hr
    have hx := hd x (List.mem_cons_self _ _)
    simp only [List.cons_append, scan_digits, hx, ↓reduceIte, List.foldl_cons]
    exact ih (fun y hy => hd y (List.mem_cons_of_mem _ hy)) _ r hr

theorem isdigit_not_space (x : Nat) (h : isdigit x = true) : isspace x = false := by
  simp only [isdigit, Bool.and_eq_true, decide_eq_true_eq] at h
  simp only [isspace, Bool.or_eq_false_iff, beq_eq_false_iff_ne, ne_eq, Bool.and_eq_false_iff,
    decide_eq_false_iff_not, not_le]
  omega

/-- A `%d` directive on a run of digits followed by something that is not a
digit. -/
theorem scan_int_digits (ds r : List Nat) (hne : ds ≠ []) (hd : ∀ x ∈ ds, isdigit x = true)
    (hr : (r.head?.map isdigit).getD false = false) :
    scan_int (ds ++ r) = some (digitsValue ds % 4294967296, r) := by
  cases ds with
  | nil => exact absurd rfl hne
  | cons x xs =>
    have hx := hd x (List.mem_cons_self _ _)
    have hsp := isdigit_not_space x hx
    have hx45 : x ≠ 45 := by
      intro h; subst h; simp [isdigit] at hx
    have hx43 : x ≠ 43 := by
      intro h; subst h; simp [isdigit] at hx
    have hscan := scan_digits_append (x :: xs) hd 0 r hr
    have h45 : (some x == some (45 : Nat)) = false := by simp [hx45]
    have h43 : (some x == some (43 : Nat)) = false := by simp [hx43]
    unfold scan_int
    simp only [List.cons_append, List.dropWhile_cons, hsp, Bool.false_eq_true, ↓reduceIte,
      List.head?_cons, h45, h43, Bool.or_self, Option.map_some', Option.getD_some, hx]
    simp only [List.cons_append] at hscan
    rw [hscan]
    simp [digitsValue]

/-- A `%s` directive on white space, a word, and something that is empty or
starts with white space: the word is stored and the input after it is left. -/
theorem field_word (lead w r : List Nat) (hlead : ∀ x ∈ lead, isspace x = true)
    (hw : w ≠ []) (hall : ∀ x ∈ w, isspace x = false)
    (hr : (r.head?.map isspace).getD true = true) :
    after_field (lead ++ (w ++ r)) = r ∧ field (lead ++ (w ++ r)) = w := by
  have hhead : (((w ++ r).head?).map isspace).getD false = false := by
    cases w with
    | nil => exact absurd rfl hw
    | cons x xs => simpa using hall x (List.mem_cons_self _ _)
  have h1 : (lead ++ (w ++ r)).dropWhile isspace = w ++ r :=
    dropWhile_append_stop isspace lead (w ++ r) hlead hhead
  have hw2 : ∀ x ∈ w, (fun c => !isspace c) x = true := by
    intro x hx
    simp [hall x hx]
  have hr2 : ((r.head?).map (fun c => !isspace c)).getD false = false := by
    cases r with
    | nil => rfl
    | cons y ys =>
      have : isspace y = true := by simpa using hr
      simp [this]
  unfold after_field field
  rw [h1]
  exact ⟨dropWhile_append_stop _ w r hw2 hr2, takeWhile_append_stop _ w r hw2 hr2⟩

theorem isOctet_parts (ds : List Nat) (h : isOctet ds = true) :
    ds ≠ [] ∧ (∀ x ∈ ds, isdigit x = true) ∧ digitsValue ds ≤ 255 := by
  simp only [isOctet, Bool.and_eq_true, Bool.not_eq_true', List.isEmpty_eq_false,
    List.all_eq_true, decide_eq_true_eq] at h
  exact ⟨h.1.1.1, h.1.1.2, h.1.2⟩

theorem isOctet_length (ds : List Nat) (h : isOctet ds = true) : ds.length ≤ 3 := by
  simp only [isOctet, Bool.and_eq_true, decide_eq_true_eq] at h
  exact h.2

theorem isdigit_facts (x : Nat) (h : isdigit x = true) :
    isspace x = false ∧ x ≠ 0 ∧ x ≠ 10 := by
  refine ⟨isdigit_not_space x h, ?_, ?_⟩ <;>
  · simp only [isdigit, Bool.and_eq_true, decide_eq_true_eq] at h
    omega

/-- The dotted quad of a well-formed header, as it is laid out in the line. -/
theorem quad_facts (a b c d : List Nat) (ha : isOctet a = true) (hb : isOctet b = true)
    (hc : isOctet c = true) (hd : isOctet d = true) :
    (a ++ 46 :: (b ++ 46 :: (c ++ 46 :: d))) ≠ []
    ∧ ∀ x ∈ a ++ 46 :: (b ++ 46 :: (c ++ 46 :: d)), isspace x = false ∧ x ≠ 0 ∧ x ≠ 10 := by
  obtain ⟨hane, had, -⟩ := isOctet_parts a ha
  obtain ⟨-, hbd, -⟩ := isOctet_parts b hb
  obtain ⟨-, hcd, -⟩ := isOctet_parts c hc
  obtain ⟨-, hdd, -⟩ := isOctet_parts d hd
  have hdot : isspace 46 = false ∧ (46 : Nat) ≠ 0 ∧ (46 : Nat) ≠ 10 := by decide
  refine ⟨by simp [hane], ?_⟩
  intro x hx
  simp only [List.mem_append, List.mem_cons] at hx
  rcases hx with hx | hx | hx | hx | hx | hx | hx
  · exact isdigit_facts x (had x hx)
  · rw [hx]; exact hdot
  · exact isdigit_facts x (hbd x hx)
  · rw [hx]; exact hdot
  · exact isdigit_facts x (hcd x hx)
  · rw [hx]; exact hdot
  · exact isdigit_facts x (hdd x hx)

/-- `ipStringToID` on a dotted quad of octets returns the third octet, whatever
lies behind the unterminated copy and whatever `iparray` held. -/
theorem ipStringToID_quad (st : Stack) (a b c d : List Nat) (ha : isOctet a = true)
    (hb : isOctet b = true) (hc : isOctet c = true) (hd : isOctet d = true) :
    ipStringToID st (a ++ 46 :: (b ++ 46 :: (c ++ 46 :: d))) = digitsValue c := by
  obtain ⟨hane, had, -⟩ := isOctet_parts a ha
  obtain ⟨hbne, hbd, -⟩ := isOctet_parts b hb
  obtain ⟨hcne, hcd, hc255⟩ := isOctet_parts c hc
  have hz := (quad_facts a b c d ha hb hc hd).2
  have hcstr : cstr ((a ++ 46 :: (b ++ 46 :: (c ++ 46 :: d))) ++ st.past)
      = a ++ 46 :: (b ++ 46 :: (c ++ 46 :: (d ++ cstr st.past))) := by
    rw [cstr_append_no_zero _ _ (fun x hx => (hz x hx).2.1)]
    simp
  have hdot : ∀ (r : List Nat), (((46 :: r).head?).map isdigit).getD false = false := by
    intro r; rfl
  unfold ipStringToID
  simp only [hcstr]
  rw [scan_int_digits a _ hane had (hdot _)]
  simp only
  rw [scan_int_digits b _ hbne hbd (hdot _)]
  simp only
  rw [scan_int_digits c _ hcne hcd (hdot _)]
  simp only
  omega

theorem wellFormed_parts (p : ProxyHeader) (h : p.wellFormed = true) :
    p.family ≠ [] ∧ (∀ x ∈ p.family, isspace x = false ∧ x ≠ 0)
    ∧ isOctet p.a = true ∧ isOctet p.b = true ∧ isOctet p.c = true ∧ isOctet p.d = true
    ∧ (p.rest.head?.map isspace).getD true = true
    ∧ (∀ x ∈ p.rest, x ≠ 10 ∧ x ≠ 0)
    ∧ p.line.length < HAPROXY_MAX_BUF := by
  simp only [ProxyHeader.wellFormed, Bool.and_eq_true, Bool.not_eq_true', List.isEmpty_eq_false,
    List.all_eq_true, decide_eq_true_eq, bne_iff_ne, ne_eq] at h
  obtain ⟨⟨⟨⟨⟨⟨⟨⟨h1, h2⟩, h3⟩, h4⟩, h5⟩, h6⟩, h7⟩, h8⟩, h9⟩ := h
  exact ⟨h1, fun x hx => h2 x hx, h3, h4, h5, h6, h7, h8, h9⟩

/-- In a well-formed header no byte is zero and none is a newline. -/
theorem line_bytes (p : ProxyHeader) (h : p.wellFormed = true) :
    ∀ x ∈ p.line, x ≠ 0 ∧ x ≠ 10 := by
  obtain ⟨-, hfam, ha, hb, hc, hd, -, hrest, -⟩ := wellFormed_parts p h
  have hq := (quad_facts p.a p.b p.c p.d ha hb hc hd).2
  intro x hx
  have hx1 : x ∈ PROXY ∨ x = 32 ∨ x ∈ p.family ∨ x = 32
      ∨ x ∈ p.a ++ 46 :: (p.b ++ 46 :: (p.c ++ 46 :: p.d)) ∨ x ∈ p.rest := by
    simp only [ProxyHeader.line, List.mem_append, List.mem_cons] at hx ⊢
    tauto
  rcases hx1 with hx | hx | hx | hx | hx | hx
  · simp only [PROXY, List.mem_cons, List.mem_singleton, List.not_mem_nil, or_false] at hx
    omega
  · omega
  · have := hfam x hx
    refine ⟨this.2, ?_⟩
    intro h10
    rw [h10] at this
    simp [isspace] at this
  · omega
  · exact (hq x hx).2
  · exact ⟨(hrest x hx).2, (hrest x hx).1⟩

/-- For a well-formed header in the line buffer the marker is found, the third
field fits `ip_string`, and the identifier extracted is the third octet of the
source address. -/
theorem header_scan (st : Stack) (p : ProxyHeader) (tail : List Nat)
    (h : p.wellFormed = true) :
    checkIsProxyPacket (p.line ++ 0 :: tail) = true
    ∧ getIPfromProxyPacket st (p.line ++ 0 :: tail) = some (digitsValue p.c) := by
  obtain ⟨hfne, hfam, ha, hb, hc, hd, hrest, -, -⟩ := wellFormed_parts p h
  have hfits : (p.a ++ 46 :: (p.b ++ 46 :: (p.c ++ 46 :: p.d))).length < 16 := by
    have la := isOctet_length p.a ha
    have lb := isOctet_length p.b hb
    have lc := isOctet_length p.c hc
    have ld := isOctet_length p.d hd
    simp only [List.length_append, List.length_cons]
    omega
  have hbytes := line_bytes p h
  have hcstr : cstr (p.line ++ 0 :: tail) = p.line := by
    rw [cstr_append_zero, cstr_no_zero _ (fun x hx => (hbytes x hx).1)]
  obtain ⟨hqne, hq⟩ := quad_facts p.a p.b p.c p.d ha hb hc hd
  constructor
  · unfold checkIsProxyPacket
    rw [hcstr]
    exact strstr_found_head PROXY _
  · unfold getIPfromProxyPacket
    rw [hcstr]
    have e1 : p.line = [] ++ (PROXY ++ ([32] ++ (p.family
        ++ ([32] ++ ((p.a ++ 46 :: (p.b ++ 46 :: (p.c ++ 46 :: p.d))) ++ p.rest))))) := by
      simp [ProxyHeader.line]
    have hsp : ∀ x ∈ [32], isspace x = true := by
      intro x hx
      simp only [List.mem_singleton] at hx
      subst hx
      rfl
    have s1 := (field_word [] PROXY _ (by simp) (by decide) (by decide)
      (show ((([32] ++ (p.family ++ ([32] ++ ((p.a ++ 46 :: (p.b ++ 46 :: (p.c ++ 46 :: p.d)))
        ++ p.rest)))).head?).map isspace).getD true = true by rfl)).1
    have s2 := (field_word [32] p.family _ hsp hfne (fun x hx => (hfam x hx).1)
      (show ((([32] ++ ((p.a ++ 46 :: (p.b ++ 46 :: (p.c ++ 46 :: p.d))) ++ p.rest)).head?).map
        isspace).getD true = true by rfl)).1
    have s3 := (field_word [32] (p.a ++ 46 :: (p.b ++ 46 :: (p.c ++ 46 :: p.d))) p.rest hsp hqne
      (fun x hx => (hq x hx).1) hrest).2
    rw [e1, s1, s2, s3, if_pos hfits, ipStringToID_quad st p.a p.b p.c p.d ha hb hc hd]

/-! ## One connection in the accept loop -/

theorem recv_frame_effect (n : Net) (sock other : TCPsocket) (k : Nat) (hne : other ≠ sock) :
    (SDLNet_TCP_Recv n sock k).2.2.backlog = n.backlog
    ∧ (SDLNet_TCP_Recv n sock k).2.2.inbound other = n.inbound other := by
  unfold SDLNet_TCP_Recv
  split
  · exact ⟨rfl, rfl⟩
  · exact ⟨rfl, by simp [setAt, hne]⟩
  · split <;> exact ⟨rfl, by simp [setAt, hne]⟩

theorem readProxyLine_frame_effect (conn other : TCPsocket) (hne : other ≠ conn) (fuel : Nat) :
    ∀ (n : Net) (buffer : List Nat) (idx : Nat) (written : List Nat) (line : ProxyLine),
      readProxyLine conn fuel n buffer idx written = some line →
      line.net.backlog = n.backlog ∧ line.net.inbound other = n.inbound other := by
  induction fuel with
  | zero => intro n buffer idx written line h; simp [readProxyLine] at h
  | succ fuel ih =>
    intro n buffer idx written line h
    unfold readProxyLine at h
    have hr := recv_frame_effect n conn other 1 hne
    generalize SDLNet_TCP_Recv n conn 1 = r at hr h
    obtain ⟨length_recv, got, n1⟩ := r
    simp only at hr h
    split at h
    · cases h; exact hr
    · split at h
      · cases h; exact hr
      · split at h
        · cases h; exact hr
        · have := ih _ _ _ _ _ h
          exact ⟨this.1.trans hr.1, this.2.trans hr.2⟩

theorem duplicateOrigin_iff (g : Globals) (x : Nat) :
    duplicateOrigin g x = true ↔ ∃ i, i < MAX_SOCKETS ∧ g.actual_ip_list[i]? = some x := by
  unfold duplicateOrigin
  simp only [List.any_eq_true, beq_iff_eq]
  constructor
  · rintro ⟨y, hy, hyx⟩
    subst hyx
    obtain ⟨i, hi, hget⟩ := List.getElem_of_mem hy
    have hlen : i < MAX_SOCKETS ∧ i < g.actual_ip_list.length := by
      simpa [List.length_take] using hi
    refine ⟨i, hlen.1, ?_⟩
    rw [List.getElem_take] at hget
    rw [List.getElem?_eq_getElem hlen.2, hget]
  · rintro ⟨i, hi, hget⟩
    obtain ⟨hlen, hval⟩ := List.getElem?_eq_some_iff.mp hget
    refine ⟨x, ?_, rfl⟩
    rw [List.mem_iff_getElem]
    refine ⟨i, by simp [List.length_take]; omega, ?_⟩
    rw [List.getElem_take]
    exact hval

/-- The step of the accept loop for a connection that sends a well-formed
header: it is closed and the call returns when its third octet is recorded for
some slot, and goes to slot placement otherwise. -/
theorem accept_header (b : Build) (st : Stack) (g : Globals) (n : Net) (l : Locals)
    (conn : TCPsocket) (pending : List TCPsocket) (p : ProxyHeader) (rest : List Nat)
    (hproxy : b.ENFORCE_PROXY = true) (hwf : p.wellFormed = true)
    (harr : arriving (n.inbound conn) = p.line ++ 10 :: rest) :
    ∃ n1, n1.closed = n.closed ∧ n1.allocs = n.allocs ∧ n1.backlog = pending
      ∧ (∀ other, other ≠ conn → n1.inbound other = n.inbound other)
      ∧ acceptLoop b st (conn :: pending) g n l
        = if duplicateOrigin g (digitsValue p.c) then
            (AcceptExit.returned_false, g, SDLNet_TCP_Close n1 conn,
              ⟨false, digitsValue p.c, l.length_expected⟩)
          else
            acceptLoop b st pending
              (placeConnection conn g n1 ⟨false, digitsValue p.c, l.length_expected⟩).1
              (placeConnection conn g n1 ⟨false, digitsValue p.c, l.length_expected⟩).2.1
              (placeConnection conn g n1 ⟨false, digitsValue p.c, l.length_expected⟩).2.2 := by
  obtain ⟨-, -, -, -, -, -, -, -, hlen⟩ := wellFormed_parts p hwf
  have hnl : 10 ∉ p.line := fun hmem => (line_bytes p hwf 10 hmem).2 rfl
  obtain ⟨line, hline, hbuf, hclose⟩ := readProxyLine_newline conn p.line HAPROXY_MAX_BUF
    { n with backlog := pending } (List.replicate HAPROXY_MAX_BUF 0) 0 [] rest harr hnl
    (by omega) hlen
  have hput := putLine_zeros p.line [] HAPROXY_MAX_BUF hlen
  simp only [List.nil_append, List.length_nil] at hput
  have hzeros : List.replicate (HAPROXY_MAX_BUF - p.line.length) 0
      = 0 :: List.replicate (HAPROXY_MAX_BUF - p.line.length - 1) 0 := by
    have : HAPROXY_MAX_BUF - p.line.length = (HAPROXY_MAX_BUF - p.line.length - 1) + 1 := by
      omega
    conv => lhs; rw [this, List.replicate_succ]
  rw [hput, hzeros] at hbuf
  obtain ⟨hcheck, hip⟩ := header_scan st p _ hwf
  rw [← hbuf] at hcheck hip
  obtain ⟨hal, hcl⟩ := readProxyLine_net conn _ _ _ _ _ _ hline
  refine ⟨line.net, hcl, hal, (readProxyLine_frame_effect conn conn.succ (Nat.succ_ne_self _) _ _
    _ _ _ _ hline).1, ?_, ?_⟩
  · intro other hother
    exact (readProxyLine_frame_effect conn other hother _ _ _ _ _ _ hline).2
  · conv => lhs; unfold acceptLoop
    simp only [hproxy, if_true, hline, hclose, hcheck, Bool.not_true, Bool.or_self,
      Bool.false_eq_true, if_false, hip]

theorem placeLoop_start (conn : TCPsocket) (ip : Nat) (listening : TCPsocket) :
    placeLoop conn ip MAX_SOCKETS 0 (NET_SDL_InitServer listening)
      = some { NET_SDL_InitServer listening with
          serverconnections := (List.replicate MAX_SOCKETS none).set 0 (some conn)
          actual_ip_list := (List.replicate MAX_SOCKETS 0xFFFF).set 0 ip
          serversocketSet := some [conn] } := by
  simp [MAX_SOCKETS, placeLoop, NET_SDL_InitServer]

theorem duplicateOrigin_start (listening : TCPsocket) (x : Nat) (hx : x ≤ 255) :
    duplicateOrigin (NET_SDL_InitServer listening) x = false := by
  cases h : duplicateOrigin (NET_SDL_InitServer listening) x with
  | false => rfl
  | true =>
    obtain ⟨i, hi, hget⟩ := (duplicateOrigin_iff _ x).mp h
    simp only [NET_SDL_InitServer, List.getElem?_replicate] at hget
    rw [if_pos hi] at hget
    simp only [Option.some.injEq] at hget
    omega

/-- A call of the server path whose first pending connection sends a
well-formed header with an origin already recorded: the connection is closed,
the call returns false, and the module state is as before. -/
theorem recv_duplicate (b : Build) (st : Stack) (g : Globals) (n : Net) (reg : Registry)
    (set : List TCPsocket) (conn : TCPsocket) (pending : List TCPsocket) (p : ProxyHeader)
    (rest : List Nat)
    (hproxy : b.ENFORCE_PROXY = true) (hwf : p.wellFormed = true)
    (hserver : g.serversocketSet = some set)
    (hdup : duplicateOrigin g (digitsValue p.c) = true)
    (hbacklog : n.backlog = conn :: pending)
    (harr : arriving (n.inbound conn) = p.line ++ 10 :: rest) :
    ∃ n1, n1.closed = n.closed ++ [conn] ∧ n1.backlog = pending
      ∧ NET_SDL_RecvPacket b st g n reg = (Outcome.no_packet, g, n1, reg) := by
  obtain ⟨n1, hcl, -, hbl, -, hstep⟩ := accept_header b st g n
    ⟨false, st.actual_ip, st.length_expected⟩ conn pending p rest hproxy hwf harr
  rw [hdup] at hstep
  simp only [if_true] at hstep
  refine ⟨SDLNet_TCP_Close n1 conn, by simp [SDLNet_TCP_Close, hcl],
    by simp [SDLNet_TCP_Close, hbl], ?_⟩
  unfold NET_SDL_RecvPacket
  rw [hserver]
  simp only
  rw [hbacklog, hstep]

/-- C8. Duplicate-origin rejection: with `ENFORCE_PROXY` on, on a freshly
initialised server, when two accepted connections send well-formed headers
(octets of one to three digits, so that the address fits `ip_string`) with the
same source address, the first takes slot 0 and the second is closed; no other
slot changes, and the call returns false.  This holds when both are
pending in one call (network `n`), and also when the second arrives in a later
call (network `n2`) while the first holds its slot. -/
theorem duplicate_origin_rejected (b : Build) (st : Stack) (listening : TCPsocket)
    (conn1 conn2 : TCPsocket) (pending pending2 : List TCPsocket) (p1 p2 : ProxyHeader)
    (rest1 rest2 rest3 : List Nat) (n n2 : Net) (reg : Registry)
    (hproxy : b.ENFORCE_PROXY = true)
    (hwf1 : p1.wellFormed = true) (hwf2 : p2.wellFormed = true)
    (horigin : p1.origin = p2.origin)
    (hne : conn1 ≠ conn2)
    (hbacklog : n.backlog = conn1 :: conn2 :: pending)
    (harr1 : arriving (n.inbound conn1) = p1.line ++ 10 :: rest1)
    (harr2 : arriving (n.inbound conn2) = p2.line ++ 10 :: rest2)
    (hbacklog2 : n2.backlog = conn2 :: pending2)
    (harr3 : arriving (n2.inbound conn2) = p2.line ++ 10 :: rest3) :
    (NET_SDL_RecvPacket b st (NET_SDL_InitServer listening) n reg).1 = Outcome.no_packet
    ∧ (NET_SDL_RecvPacket b st (NET_SDL_InitServer listening) n reg).2.1
      = { NET_SDL_InitServer listening with
          serverconnections := (List.replicate MAX_SOCKETS none).set 0 (some conn1)
          actual_ip_list := (List.replicate MAX_SOCKETS 0xFFFF).set 0 (digitsValue p1.c)
          serversocketSet := some [conn1] }
    ∧ (NET_SDL_RecvPacket b st (NET_SDL_InitServer listening) n reg).2.2.1.closed
      = n.closed ++ [conn2]
    ∧ (NET_SDL_RecvPacket b st (NET_SDL_InitServer listening) n reg).2.2.1.backlog
      = pending
    ∧ ∃ n3, n3.closed = n2.closed ++ [conn2] ∧ n3.backlog = pending2
        ∧ NET_SDL_RecvPacket b st
            { NET_SDL_InitServer listening with
              serverconnections := (List.replicate MAX_SOCKETS none).set 0 (some conn1)
              actual_ip_list := (List.replicate MAX_SOCKETS 0xFFFF).set 0 (digitsValue p1.c)
              serversocketSet := some [conn1] } n2 reg
          = (Outcome.no_packet,
              { NET_SDL_InitServer listening with
                serverconnections := (List.replicate MAX_SOCKETS none).set 0 (some conn1)
                actual_ip_list := (List.replicate MAX_SOCKETS 0xFFFF).set 0 (digitsValue p1.c)
                serversocketSet := some [conn1] }, n3, reg) := by
  have hc : digitsValue p1.c = digitsValue p2.c := by
    simp only [ProxyHeader.origin, List.cons.injEq, and_true] at horigin
    exact horigin.2.2.1
  obtain ⟨-, -, -, -, hoct, -, -, -, -⟩ := wellFormed_parts p1 hwf1
  obtain ⟨-, -, h255⟩ := isOctet_parts p1.c hoct
  obtain ⟨n1, hcl1, -, hbl1, hin1, hstep1⟩ := accept_header b st (NET_SDL_InitServer listening)
    n ⟨false, st.actual_ip, st.length_expected⟩ conn1 (conn2 :: pending) p1 rest1 hproxy hwf1
    harr1
  rw [duplicateOrigin_start listening _ h255] at hstep1
  simp only [Bool.false_eq_true, if_false, placeConnection, placeLoop_start] at hstep1
  have harr2a : arriving (n1.inbound conn2) = p2.line ++ 10 :: rest2 := by
    rw [hin1 conn2 (Ne.symm hne)]
    exact harr2
  obtain ⟨n2a, hcl2, -, hbl2, -, hstep2⟩ := accept_header b st
    { NET_SDL_InitServer listening with
      serverconnections := (List.replicate MAX_SOCKETS none).set 0 (some conn1)
      actual_ip_list := (List.replicate MAX_SOCKETS 0xFFFF).set 0 (digitsValue p1.c)
      serversocketSet := some [conn1] }
    n1 ⟨true, digitsValue p1.c, st.length_expected⟩ conn2 pending p2 rest2 hproxy hwf2 harr2a
  have hdup : duplicateOrigin
      { NET_SDL_InitServer listening with
        serverconnections := (List.replicate MAX_SOCKETS none).set 0 (some conn1)
        actual_ip_list := (List.replicate MAX_SOCKETS 0xFFFF).set 0 (digitsValue p1.c)
        serversocketSet := some [conn1] } (digitsValue p2.c) = true := by
    rw [duplicateOrigin_iff]
    exact ⟨0, by decide, by simp [MAX_SOCKETS, hc]⟩
  rw [hdup] at hstep2
  simp only [if_true] at hstep2
  have hcall : NET_SDL_RecvPacket b st (NET_SDL_InitServer listening) n reg
      = (Outcome.no_packet,
          { NET_SDL_InitServer listening with
            serverconnections := (List.replicate MAX_SOCKETS none).set 0 (some conn1)
            actual_ip_list := (List.replicate MAX_SOCKETS 0xFFFF).set 0 (digitsValue p1.c)
            serversocketSet := some [conn1] },
          SDLNet_TCP_Close n2a conn2, reg) := by
    unfold NET_SDL_RecvPacket
    simp only [NET_SDL_InitServer] at hstep1 hstep2 ⊢
    rw [hbacklog, hstep1, hstep2]
  rw [hcall]
  refine ⟨rfl, rfl, ?_, ?_, ?_⟩
  · simp [SDLNet_TCP_Close, hcl2, hcl1]
  · simp [SDLNet_TCP_Close, hbl2]
  · exact recv_duplicate b st _ n2 reg [conn1] conn2 pending2 p2 rest3 hproxy hwf2 rfl hdup
      hbacklog2 harr3

theorem duplicate_origin_rejected_witness :
    (NET_SDL_RecvPacket lp64_proxy zeroStack (NET_SDL_InitServer 1) twoProxied
        Registry.start).2.1
      = { NET_SDL_InitServer 1 with
          serverconnections := (List.replicate MAX_SOCKETS none).set 0 (some 5)
          actual_ip_list := (List.replicate MAX_SOCKETS 0xFFFF).set 0 7
          serversocketSet := some [5] }
    ∧ (NET_SDL_RecvPacket lp64_proxy zeroStack (NET_SDL_InitServer 1) twoProxied
        Registry.start).2.2.1.closed = [6] :=
  have h := duplicate_origin_rejected lp64_proxy zeroStack 1 5 6 [] [] (sampleHeader "5555")
    (sampleHeader "6666") [] [] [] twoProxied comeback Registry.start rfl (by decide)
    (by decide) (by decide) (by decide) rfl (by decide) (by decide) rfl (by decide)
  ⟨h.2.1, h.2.2.1⟩

theorem sendLoop_origins (b : Build) (addr : IPaddress) (packet : net_packet_t)
    (hre : b.ALLOW_REENTRY = false) (fuel : Nat) :
    ∀ (i : Nat) (g : Globals) (n : Net),
      (sendLoop b addr packet fuel i g n).1.actual_ip_list = g.actual_ip_list := by
  induction fuel with
  | zero => intro i g n; rfl
  | succ fuel ih =>
    intro i g n
    unfold sendLoop
    split
    · exact ih _ _ _
    · split
      · simp only
        split
        · simp [dropSlot, hre]
        · split
          · simp [dropSlot, hre]
          · rfl
      · exact ih _ _ _

/-- C9, as stated, fails: connection 5 with origin 10.0.7.1 is admitted to
slot 0; its stream ends and the next call drops the slot, so that all 32 slots
are empty; connection 6 then presents a well-formed header with the same origin
and is closed without being given a slot. -/
theorem reentry_after_failure_rejected :
    admitted.serverconnections.getD 0 none = some 5
    ∧ afterFailure.serverconnections = List.replicate MAX_SOCKETS none
    ∧ (sampleHeader "6666").wellFormed = true
    ∧ (sampleHeader "6666").origin = (sampleHeader "5555").origin
    ∧ (NET_SDL_RecvPacket lp64_proxy zeroStack afterFailure comeback
        Registry.start).2.1.serverconnections = List.replicate MAX_SOCKETS none
    ∧ (NET_SDL_RecvPacket lp64_proxy zeroStack afterFailure comeback
        Registry.start).2.2.1.closed = [6] := by
  decide

/-- C9, amended.  With `ENFORCE_PROXY` on, a connection with a well-formed
header (octets of one to three digits, so that the address fits `ip_string`)
is rejected as a duplicate exactly when the identifier extracted from
its origin is the `actual_ip_list` entry of one of the `MAX_SOCKETS` slots.
With `ALLOW_REENTRY` off, as in the source, dropping a slot (after a failure
in send or in receive) empties `serverconnections[i]` and keeps
`actual_ip_list[i]`; so a later connection presenting the origin recorded for
that slot is closed and the call returns, whether or not a slot is free. -/
theorem duplicate_check_scope (b : Build) (st : Stack) (g : Globals) (n n0 : Net) (l : Locals)
    (conn c0 : TCPsocket) (i : Nat) (p : ProxyHeader) (rest : List Nat)
    (hproxy : b.ENFORCE_PROXY = true) (hre : b.ALLOW_REENTRY = false)
    (hwf : p.wellFormed = true)
    (harr : arriving (n.inbound conn) = p.line ++ 10 :: rest) :
    ((acceptLoop b st [conn] g n l).1 = AcceptExit.returned_false
      ↔ ∃ j, j < MAX_SOCKETS ∧ g.actual_ip_list[j]? = some (digitsValue p.c))
    ∧ (dropSlot b g n0 i c0).1.serverconnections = g.serverconnections.set i none
    ∧ (dropSlot b g n0 i c0).1.actual_ip_list = g.actual_ip_list
    ∧ (∀ (addr : IPaddress) (packet : net_packet_t) (ns : Net),
        (NET_SDL_SendPacket b g ns addr packet).2.1.actual_ip_list = g.actual_ip_list)
    ∧ (∀ (fuel k : Nat) (nr : Net) (reg : Registry) (le : Nat),
        (recvLoop b fuel k g nr reg le).2.1.actual_ip_list = g.actual_ip_list)
    ∧ (i < MAX_SOCKETS → g.actual_ip_list[i]? = some (digitsValue p.c) →
        ∃ n1, n1.closed = n.closed
          ∧ acceptLoop b st [conn] (dropSlot b g n0 i c0).1 n l
            = (AcceptExit.returned_false, (dropSlot b g n0 i c0).1, SDLNet_TCP_Close n1 conn,
                ⟨false, digitsValue p.c, l.length_expected⟩)) := by
  have hkeep : (dropSlot b g n0 i c0).1.actual_ip_list = g.actual_ip_list := by
    simp [dropSlot, hre]
  refine ⟨?_, rfl, hkeep, ?_, ?_, ?_⟩
  · obtain ⟨n1, -, -, -, -, hstep⟩ := accept_header b st g n l conn [] p rest hproxy hwf harr
    rw [hstep, ← duplicateOrigin_iff]
    cases hdup : duplicateOrigin g (digitsValue p.c) with
    | true => simp
    | false => simp [acceptLoop]
  · intro addr packet ns
    unfold NET_SDL_SendPacket
    split
    · simp only
      split
      · rfl
      · split <;> rfl
    · exact sendLoop_origins b addr packet hre _ _ _ _
  · intro fuel k nr reg le
    exact (recvLoop_keeps b fuel k g nr reg le).2.2 hre
  · intro hi hrec
    obtain ⟨n1, hcl, -, -, -, hstep⟩ := accept_header b st (dropSlot b g n0 i c0).1 n l conn []
      p rest hproxy hwf harr
    have hdup : duplicateOrigin (dropSlot b g n0 i c0).1 (digitsValue p.c) = true := by
      rw [duplicateOrigin_iff]
      exact ⟨i, hi, by rw [hkeep]; exact hrec⟩
    rw [hdup] at hstep
    exact ⟨n1, hcl, by rw [hstep]; rfl⟩

theorem duplicate_check_scope_witness :
    ∃ n1, n1.closed = []
      ∧ acceptLoop lp64_proxy zeroStack [6] (dropSlot lp64_proxy admitted quiet 0 5).1 comeback
          ⟨false, 0, 0⟩
        = (AcceptExit.returned_false, (dropSlot lp64_proxy admitted quiet 0 5).1,
            SDLNet_TCP_Close n1 6, ⟨false, digitsValue (sampleHeader "6666").c, 0⟩) :=
  (duplicate_check_scope lp64_proxy zeroStack admitted comeback quiet ⟨false, 0, 0⟩ 6 5 0
    (sampleHeader "6666") [] rfl rfl (by decide) (by decide)).2.2.2.2.2 (by decide) (by decide)

/-- C10. Malformed preamble rejection: with `ENFORCE_PROXY` on, when the first
`HAPROXY_MAX_BUF` bytes of an accepted connection hold no newline, or a read
fails before a newline, or the newline-terminated first line does not contain
"PROXY", the connection is closed and the accept loop goes on with
`serverconnections`, `actual_ip_list` and the socket set as they were; and for
every connection the line-reading loop ends and stores only at indices below
`HAPROXY_MAX_BUF`. -/
theorem malformed_preamble_rejected (b : Build) (st : Stack) (g : Globals) (n : Net)
    (l : Locals) (conn : TCPsocket) (pending : List TCPsocket)
    (hproxy : b.ENFORCE_PROXY = true)
    (hbad : (HAPROXY_MAX_BUF ≤ (arriving (n.inbound conn)).length
          ∧ 10 ∉ (arriving (n.inbound conn)).take HAPROXY_MAX_BUF)
        ∨ ((arriving (n.inbound conn)).length < HAPROXY_MAX_BUF
          ∧ 10 ∉ arriving (n.inbound conn))
        ∨ (∃ text rest, arriving (n.inbound conn) = text ++ 10 :: rest ∧ 10 ∉ text
          ∧ text.length < HAPROXY_MAX_BUF ∧ ¬ ∃ pre post, text = pre ++ PROXY ++ post)) :
    (∃ n1, n1.closed = n.closed ∧ n1.allocs = n.allocs
      ∧ acceptLoop b st (conn :: pending) g n l
        = acceptLoop b st pending g (SDLNet_TCP_Close n1 conn)
            ⟨false, l.actual_ip, l.length_expected⟩)
    ∧ (∀ (n0 : Net), ∃ line,
        readProxyLine conn HAPROXY_MAX_BUF n0 (List.replicate HAPROXY_MAX_BUF 0) 0 []
          = some line
        ∧ ∀ i ∈ line.written, i < HAPROXY_MAX_BUF) := by
  have htotal : ∀ (n0 : Net), ∃ line,
      readProxyLine conn HAPROXY_MAX_BUF n0 (List.replicate HAPROXY_MAX_BUF 0) 0 [] = some line
      ∧ ∀ i ∈ line.written, i < HAPROXY_MAX_BUF := by
    intro n0
    obtain ⟨line, hline, hw⟩ := readProxyLine_total conn HAPROXY_MAX_BUF n0
      (List.replicate HAPROXY_MAX_BUF 0) 0 [] (by decide) (by omega)
    refine ⟨line, hline, ?_⟩
    intro i hi
    rcases hw i hi with h | h
    · simp at h
    · exact h
  refine ⟨?_, htotal⟩
  obtain ⟨line, hline, -⟩ := htotal { n with backlog := pending }
  obtain ⟨hal, hcl⟩ := readProxyLine_net conn _ _ _ _ _ _ hline
  have hreject : (line.should_close || !checkIsProxyPacket line.proxy_packet_buffer) = true := by
    have hnone : 10 ∉ (arriving (n.inbound conn)).take HAPROXY_MAX_BUF →
        line.should_close = true := by
      intro hno
      exact readProxyLine_no_newline conn _ _ _ _ _ line hline (by simpa using hno)
        (by decide)
    rcases hbad with ⟨-, hno⟩ | ⟨hshort, hno⟩ | ⟨text, rest, harr, hnl, hlen, hmark⟩
    · rw [hnone hno]; rfl
    · rw [hnone (fun hmem => hno (List.mem_of_mem_take hmem))]; rfl
    · obtain ⟨line1, hline1, hbuf, -⟩ := readProxyLine_newline conn text HAPROXY_MAX_BUF
        { n with backlog := pending } (List.replicate HAPROXY_MAX_BUF 0) 0 [] rest harr hnl
        (by omega) hlen
      rw [hline] at hline1
      cases hline1
      have hput := putLine_zeros text [] HAPROXY_MAX_BUF hlen
      simp only [List.nil_append, List.length_nil] at hput
      have hzeros : List.replicate (HAPROXY_MAX_BUF - text.length) 0
          = 0 :: List.replicate (HAPROXY_MAX_BUF - text.length - 1) 0 := by
        have : HAPROXY_MAX_BUF - text.length = (HAPROXY_MAX_BUF - text.length - 1) + 1 := by
          omega
        conv => lhs; rw [this, List.replicate_succ]
      rw [hbuf, hput, hzeros, checkIsProxyPacket_absent text _ hmark]
      simp
  refine ⟨line.net, hcl, hal, ?_⟩
  conv => lhs; unfold acceptLoop
  simp only [hproxy, if_true, hline, hreject]


theorem malformed_preamble_rejected_witness :
    ∃ n1, n1.closed = [] ∧ n1.allocs = []
      ∧ acceptLoop lp64_proxy zeroStack [5] (NET_SDL_InitServer 1) strayClient ⟨false, 0, 0⟩
        = acceptLoop lp64_proxy zeroStack [] (NET_SDL_InitServer 1)
            (SDLNet_TCP_Close n1 5) ⟨false, 0, 0⟩ :=
  (malformed_preamble_rejected lp64_proxy zeroStack (NET_SDL_InitServer 1) strayClient
    ⟨false, 0, 0⟩ 5 [] rfl
    (Or.inr (Or.inr ⟨ascii "GET / HTTP/1.0" ++ [13], [], rfl, by decide, by decide,
      fun h => absurd (strstr_found_complete _ _ h) (by decide)⟩))).1

/-! ## The bytes of a sent frame -/

/-- Slots that are `NULL` or whose peer is another endpoint are passed over by
the server send loop. -/
theorem sendLoop_skip (b : Build) (addr : IPaddress) (packet : net_packet_t) (g : Globals)
    (n : Net) (k : Nat) : ∀ (fuel i : Nat),
      (∀ j, i ≤ j → j < i + k → ∀ c, g.serverconnections.getD j none = some c →
        AddressesEqual addr (SDLNet_TCP_GetPeerAddress n c) = false) →
      sendLoop b addr packet (k + fuel) i g n = sendLoop b addr packet fuel (i + k) g n := by
  induction k with
  | zero => intro fuel i _; simp
  | succ k ih =>
    intro fuel i h
    have e1 : k + 1 + fuel = (k + fuel) + 1 := by omega
    have e2 : i + (k + 1) = (i + 1) + k := by omega
    rw [e1, e2]
    have hrest := ih fuel (i + 1) (fun j h1 h2 c hc => h j (by omega) (by omega) c hc)
    rw [← hrest]
    conv => lhs; unfold sendLoop
    split
    · rfl
    · rename_i conn hconn
      simp [h i (le_refl _) (by omega) conn hconn]

/-- The server send path when slot `i` is the first whose peer is `dest` and
its connection takes every byte. -/
theorem sendServer_frame (b : Build) (g : Globals) (n : Net) (dest : IPaddress)
    (payload : List Nat) (set : List TCPsocket) (i : Nat) (conn : TCPsocket)
    (hw : 32 ≤ b.size_t_bits) (hlen : payload.length < 4294967296)
    (hserver : g.serversocketSet = some set)
    (hi : i < MAX_SOCKETS)
    (hslot : g.serverconnections.getD i none = some conn)
    (hpeer : AddressesEqual dest (SDLNet_TCP_GetPeerAddress n conn) = true)
    (hbefore : ∀ j, j < i → ∀ c, g.serverconnections.getD j none = some c →
      AddressesEqual dest (SDLNet_TCP_GetPeerAddress n c) = false)
    (hroom : n.room conn = none) :
    ∃ n1, NET_SDL_SendPacket b g n dest ⟨payload, payload.length⟩ = (none, g, n1)
      ∧ n1.sent conn = n.sent conn ++ (store32 b.big_endian payload.length ++ payload) := by
  have h2 := two_pow_size_t_ge b hw
  have e4 := to_size_t_four b hw
  have eL : to_size_t b (payload.length : Int) = payload.length :=
    to_size_t_natCast b _ (by omega)
  have hsplit : MAX_SOCKETS = i + ((MAX_SOCKETS - i - 1) + 1) := by omega
  unfold NET_SDL_SendPacket
  rw [hserver]
  simp only
  rw [hsplit, sendLoop_skip b dest _ g n i _ 0
    (fun j _ hj2 c hc => hbefore j (by omega) c hc), Nat.zero_add]
  unfold sendLoop
  rw [hslot]
  simp only [hpeer, if_true, SDLNet_TCP_Send, hroom, setAt_same, Nat.mod_eq_of_lt hlen,
    store32_length, List.take_length]
  simp [e4, eL, setAt_same]

/-! ## Claim on the byte order of the length field -/

/-- C11, as stated, fails on a little-endian build: for a packet of length 2
the first four bytes written are 02 00 00 00, on the client path and on the
server path, and not the value 2 in network byte order. -/
theorem length_field_not_network_order :
    ((NET_SDL_SendPacket lp64 sampleClient quiet ⟨0, 0⟩ ⟨[72, 105], 2⟩).2.2.sent 7).take 4
      = [2, 0, 0, 0]
    ∧ ((NET_SDL_SendPacket lp64 sampleClient quiet ⟨0, 0⟩ ⟨[72, 105], 2⟩).2.2.sent 7).take 4
      ≠ network_order32 2
    ∧ ((NET_SDL_SendPacket lp64 sampleServer quiet ⟨0, 0⟩ ⟨[72, 105], 2⟩).2.2.sent 5).take 4
      = [2, 0, 0, 0]
    ∧ ((NET_SDL_SendPacket lp64 sampleServer quiet ⟨0, 0⟩ ⟨[72, 105], 2⟩).2.2.sent 5).take 4
      ≠ network_order32 2 := by
  decide

/-- C11, amended.  For every packet of length `n` (below `2^31`, so that it
fits the `int` argument of the send primitive), the bytes `NET_SDL_SendPacket`
writes to the connection are the unsigned 32-bit value `n` in the byte order
of the host, immediately followed by the `n` payload bytes, on the client path
and on the server path; the four bytes are most significant byte first on a
big-endian build and least significant byte first on a little-endian one. -/
theorem length_field_host_order (b : Build) (payload : List Nat) (gc gs : Globals)
    (nc ns : Net) (dest : IPaddress) (set : List TCPsocket) (i : Nat) (conn : TCPsocket)
    (hw : 32 ≤ b.size_t_bits) (hlen : payload.length < 2147483648)
    (hc_client : gc.serversocketSet = none)
    (hc_room : nc.room gc.tcpsocket = none)
    (hs_server : gs.serversocketSet = some set)
    (hs_i : i < MAX_SOCKETS)
    (hs_slot : gs.serverconnections.getD i none = some conn)
    (hs_peer : AddressesEqual dest (SDLNet_TCP_GetPeerAddress ns conn) = true)
    (hs_before : ∀ j, j < i → ∀ c, gs.serverconnections.getD j none = some c →
      AddressesEqual dest (SDLNet_TCP_GetPeerAddress ns c) = false)
    (hs_room : ns.room conn = none) :
    (NET_SDL_SendPacket b gc nc dest ⟨payload, payload.length⟩).1 = none
    ∧ (NET_SDL_SendPacket b gc nc dest ⟨payload, payload.length⟩).2.2.sent gc.tcpsocket
      = nc.sent gc.tcpsocket ++ (store32 b.big_endian payload.length ++ payload)
    ∧ (NET_SDL_SendPacket b gs ns dest ⟨payload, payload.length⟩).1 = none
    ∧ (NET_SDL_SendPacket b gs ns dest ⟨payload, payload.length⟩).2.2.sent conn
      = ns.sent conn ++ (store32 b.big_endian payload.length ++ payload)
    ∧ (b.big_endian = true → store32 b.big_endian payload.length
        = network_order32 payload.length)
    ∧ (b.big_endian = false → store32 b.big_endian payload.length
        = (network_order32 payload.length).reverse) := by
  obtain ⟨n1, hsend1, hsent1⟩ := sendClient_frame b gc nc dest payload hw (by omega) hc_client
    hc_room
  obtain ⟨n2, hsend2, hsent2⟩ := sendServer_frame b gs ns dest payload set i conn hw
    (by omega) hs_server hs_i hs_slot hs_peer hs_before hs_room
  rw [hsend1, hsend2]
  refine ⟨rfl, hsent1, rfl, hsent2, ?_, ?_⟩
  · intro hbe
    simp [store32, network_order32, hbe]
  · intro hle
    simp [store32, network_order32, hle]

theorem length_field_host_order_witness :
    (NET_SDL_SendPacket lp64 sampleClient quiet ⟨0, 0⟩ ⟨[1, 2, 3], 3⟩).2.2.sent 7
      = [] ++ (store32 false 3 ++ [1, 2, 3])
    ∧ (NET_SDL_SendPacket lp64 sampleServer quiet ⟨0, 0⟩ ⟨[1, 2, 3], 3⟩).2.2.sent 5
      = [] ++ (store32 false 3 ++ [1, 2, 3]) :=
  have h := length_field_host_order lp64 [1, 2, 3] sampleClient sampleServer quiet quiet
    ⟨0, 0⟩ [5] 0 5 (by decide) (by decide) rfl rfl rfl (by decide) rfl rfl
    (fun j hj => absurd hj (Nat.not_lt_zero j)) rfl
  ⟨h.2.1, h.2.2.2.1⟩

/-! ## Claim on the address text -/

theorem decimal_length (v e : Nat) (he : 0 < e) (hv : v < 10 ^ e) : (decimal v).length ≤ e := by
  have h := Nat.repr_length v e he hv
  unfold decimal ascii
  rw [List.length_map]
  exact h

/-- The bytes a 32-bit field holds in memory are read back by `SDLNet_Read32`
as the number they spell most significant byte first. -/
theorem read32_bytes (b : Build) (x a0 a1 a2 a3 : Nat)
    (h : store32 b.big_endian x = [a0, a1, a2, a3]) :
    SDLNet_Read32 b x = a0 * 16777216 + a1 * 65536 + a2 * 256 + a3
    ∧ a0 < 256 ∧ a1 < 256 ∧ a2 < 256 ∧ a3 < 256 := by
  have hb : a0 < 256 ∧ a1 < 256 ∧ a2 < 256 ∧ a3 < 256 := by
    unfold store32 at h
    cases hbe : b.big_endian <;> rw [hbe] at h <;>
      simp only [Bool.false_eq_true, if_false, if_true, List.cons.injEq, and_true] at h <;>
      omega
  refine ⟨?_, hb⟩
  unfold SDLNet_Read32
  rw [h]
  simp only [load32, List.getD_cons_zero, List.getD_cons_succ, if_true]
  omega

theorem read16_bytes (b : Build) (x hi lo : Nat) (h : store16 b.big_endian x = [hi, lo]) :
    SDLNet_Read16 b x = hi * 256 + lo ∧ hi < 256 ∧ lo < 256 := by
  have hb : hi < 256 ∧ lo < 256 := by
    unfold store16 at h
    cases hbe : b.big_endian <;> rw [hbe] at h <;>
      simp only [Bool.false_eq_true, if_false, if_true, List.cons.injEq, and_true] at h <;>
      omega
  refine ⟨?_, hb⟩
  unfold SDLNet_Read16
  rw [h]
  simp

/-- C12. Address text: when the host field holds the bytes `a0 a1 a2 a3` in
memory and the port field the bytes `hi lo` (so that the port is
`p = 256 * hi + lo`), and the buffer has room for the text and its terminator,
`NET_SDL_AddrToString` leaves exactly the dotted quad "a0.a1.a2.a3" in decimal,
followed by ":p" in decimal if and only if `p` differs from `DEFAULT_PORT`
(2342); for `p = DEFAULT_PORT` the text is the dotted quad alone. -/
theorem addr_to_string (b : Build) (ip : IPaddress) (buffer : List Nat) (buffer_len : Nat)
    (a0 a1 a2 a3 hi lo : Nat)
    (hhost : store32 b.big_endian ip.host = [a0, a1, a2, a3])
    (hport : store16 b.big_endian ip.port = [hi, lo])
    (hroom : (decimal a0 ++ 46 :: (decimal a1 ++ 46 :: (decimal a2 ++ 46 :: decimal a3))
      ++ 58 :: decimal (hi * 256 + lo)).length < buffer_len) :
    (hi * 256 + lo ≠ DEFAULT_PORT →
      NET_SDL_AddrToString b ip buffer buffer_len
        = decimal a0 ++ 46 :: (decimal a1 ++ 46 :: (decimal a2 ++ 46 :: decimal a3))
          ++ 58 :: decimal (hi * 256 + lo))
    ∧ (hi * 256 + lo = DEFAULT_PORT →
      NET_SDL_AddrToString b ip buffer buffer_len
        = decimal a0 ++ 46 :: (decimal a1 ++ 46 :: (decimal a2 ++ 46 :: decimal a3))) := by
  obtain ⟨hh, h0, h1, h2, h3⟩ := read32_bytes b ip.host a0 a1 a2 a3 hhost
  obtain ⟨hp, hhi, hlo⟩ := read16_bytes b ip.port hi lo hport
  have e0 : SDLNet_Read32 b ip.host / 16777216 % 256 = a0 := by rw [hh]; omega
  have e1 : SDLNet_Read32 b ip.host / 65536 % 256 = a1 := by rw [hh]; omega
  have e2 : SDLNet_Read32 b ip.host / 256 % 256 = a2 := by rw [hh]; omega
  have e3 : SDLNet_Read32 b ip.host % 256 = a3 := by rw [hh]; omega
  generalize hq : decimal a0 ++ 46 :: (decimal a1 ++ 46 :: (decimal a2 ++ 46 :: decimal a3))
    = quad at hroom ⊢
  have hplen : (decimal (hi * 256 + lo)).length ≤ 5 :=
    decimal_length _ 5 (by decide) (by norm_num; omega)
  simp only [List.length_append, List.length_cons] at hroom
  have hfirst : M_snprintf buffer buffer_len quad = quad := by
    unfold M_snprintf
    rw [if_neg (by omega), List.take_of_length_le (by omega)]
  have hportbuf : M_snprintf [] 10 (58 :: decimal (hi * 256 + lo))
      = 58 :: decimal (hi * 256 + lo) := by
    unfold M_snprintf
    rw [if_neg (by omega), List.take_of_length_le (by simp; omega)]
  unfold NET_SDL_AddrToString
  simp only [e0, e1, e2, e3, hq, hp, hfirst, hportbuf]
  constructor
  · intro hne
    rw [if_pos hne]
    unfold M_StringConcat
    simp only
    have hmin : min quad.length buffer_len = quad.length := by omega
    rw [hmin, if_neg (by omega), List.take_of_length_le (by simp; omega)]
  · intro heq
    rw [if_neg (by simpa using heq)]

theorem addr_to_string_witness :
    NET_SDL_AddrToString lp64 ⟨17235978, 36895⟩ [] 64 = ascii "10.0.7.1:8080"
    ∧ NET_SDL_AddrToString lp64 ⟨17235978, 9737⟩ [] 64 = ascii "10.0.7.1" :=
  ⟨(addr_to_string lp64 ⟨17235978, 36895⟩ [] 64 10 0 7 1 31 144 (by decide) (by decide)
      (by decide)).1 (by decide),
    (addr_to_string lp64 ⟨17235978, 9737⟩ [] 64 10 0 7 1 9 38 (by decide) (by decide)
      (by decide)).2 (by decide)⟩

/-! ## Claim on the extracted origin -/

/-- A proxy line whose third field has 16 characters takes the server path out
of bounds: `sscanf` stores the terminator behind `ip_string`. -/
theorem long_field_out_of_bounds :
    (NET_SDL_RecvPacket lp64_proxy zeroStack (NET_SDL_InitServer 1) paddedArrival
      Registry.start).1 = Outcome.out_of_bounds := by
  decide

/-- C13, as stated, fails.  The well-formed headers for 10.0.7.1 and
192.168.7.200 carry different addresses and yield the same identifier, 7.  And
for the address written "010.000.007.0001", whose octets are at most 255, the
third field has 16 characters: it does not fit `ip_string` and no identifier is
determined. -/
theorem origin_id_collision :
    (sampleHeader "5555").wellFormed = true
    ∧ neighbourHeader.wellFormed = true
    ∧ (sampleHeader "5555").origin ≠ neighbourHeader.origin
    ∧ getIPfromProxyPacket zeroStack ((sampleHeader "5555").line ++ [0]) = some 7
    ∧ getIPfromProxyPacket zeroStack (neighbourHeader.line ++ [0]) = some 7
    ∧ paddedHeader.origin = [10, 0, 7, 1]
    ∧ getIPfromProxyPacket zeroStack (paddedHeader.line ++ [0]) = none := by
  decide

/-- C13, amended.  For every well-formed line "PROXY <f2> a.b.c.d ..." with
octets of at most 255, each written with one to three digits,
`getIPfromProxyPacket` stays inside `ip_string` and returns the third octet `c`
of the dotted quad in the third field, whatever the uninitialised memory holds:
equal addresses yield equal identifiers, two lines yield different identifiers
exactly when their third octets differ, and no valid address yields the
empty-slot sentinel 0xFFFF. -/
theorem origin_id_third_octet (st1 st2 : Stack) (p1 p2 : ProxyHeader) (tail1 tail2 : List Nat)
    (hwf1 : p1.wellFormed = true) (hwf2 : p2.wellFormed = true) :
    getIPfromProxyPacket st1 (p1.line ++ 0 :: tail1) = some (digitsValue p1.c)
    ∧ (p1.origin = p2.origin →
        getIPfromProxyPacket st1 (p1.line ++ 0 :: tail1)
          = getIPfromProxyPacket st2 (p2.line ++ 0 :: tail2))
    ∧ (getIPfromProxyPacket st1 (p1.line ++ 0 :: tail1)
          ≠ getIPfromProxyPacket st2 (p2.line ++ 0 :: tail2)
        ↔ digitsValue p1.c ≠ digitsValue p2.c)
    ∧ getIPfromProxyPacket st1 (p1.line ++ 0 :: tail1) ≠ some 0xFFFF := by
  have h1 := (header_scan st1 p1 tail1 hwf1).2
  have h2 := (header_scan st2 p2 tail2 hwf2).2
  obtain ⟨-, -, -, -, hoct, -, -, -, -⟩ := wellFormed_parts p1 hwf1
  obtain ⟨-, -, h255⟩ := isOctet_parts p1.c hoct
  rw [h1, h2]
  refine ⟨rfl, ?_, ?_, ?_⟩
  · intro horigin
    simp only [ProxyHeader.origin, List.cons.injEq, and_true] at horigin
    rw [horigin.2.2.1]
  · simp only [ne_eq, Option.some.injEq]
  · simp only [ne_eq, Option.some.injEq]
    omega

theorem origin_id_third_octet_witness :
    getIPfromProxyPacket zeroStack ((sampleHeader "5555").line ++ 0 :: []) = some 7
    ∧ (getIPfromProxyPacket zeroStack ((sampleHeader "5555").line ++ 0 :: [])
          ≠ getIPfromProxyPacket zeroStack (distantHeader.line ++ 0 :: [])
        ↔ digitsValue (sampleHeader "5555").c ≠ digitsValue distantHeader.c) :=
  have h := origin_id_third_octet zeroStack zeroStack (sampleHeader "5555") distantHeader [] []
    (by decide) (by decide)
  ⟨h.1, h.2.2.1⟩

end NetSdl
